import Mathlib

/-!
Verification of the response-filtering, detection, parameter-codec and
error-redaction subsystem of the terraform-cloud-mcp repository.

The Python source is shallowly embedded:
* Python values (JSON-shaped) become the inductive `PyVal`; dicts are
  insertion-ordered association lists with unique keys.
* Python functions that can raise become `Except PErr _` computations.
* Functions that mutate are rendered twice: a pure value-level rendering
  (`filter_response` and friends), and, for the non-mutation property, an
  explicit-heap rendering where dicts/lists live at addresses and shallow
  copies allocate.
-/

set_option maxHeartbeats 1000000

namespace TFC

/-- Python runtime values occurring in the client/filter code paths. -/
inductive PyVal where
  | str : String → PyVal
  | int : Int → PyVal
  | bool : Bool → PyVal
  | none : PyVal
  | dict : List (String × PyVal) → PyVal
  | list : List PyVal → PyVal

mutual

/-- Structural (Python `==`) equality decision for `PyVal`. -/
def decEqPyVal : (a b : PyVal) → Decidable (a = b)
  | .str a, .str b =>
    if h : a = b then .isTrue (by rw [h]) else .isFalse (fun hh => h (PyVal.str.inj hh))
  | .int a, .int b =>
    if h : a = b then .isTrue (by rw [h]) else .isFalse (fun hh => h (PyVal.int.inj hh))
  | .bool a, .bool b =>
    if h : a = b then .isTrue (by rw [h]) else .isFalse (fun hh => h (PyVal.bool.inj hh))
  | .none, .none => .isTrue rfl
  | .dict a, .dict b =>
    match decEqFields a b with
    | .isTrue h => .isTrue (by rw [h])
    | .isFalse h => .isFalse (fun hh => h (PyVal.dict.inj hh))
  | .list a, .list b =>
    match decEqItems a b with
    | .isTrue h => .isTrue (by rw [h])
    | .isFalse h => .isFalse (fun hh => h (PyVal.list.inj hh))
  | .str _, .int _ => .isFalse (fun h => PyVal.noConfusion h)
  | .str _, .bool _ => .isFalse (fun h => PyVal.noConfusion h)
  | .str _, .none => .isFalse (fun h => PyVal.noConfusion h)
  | .str _, .dict _ => .isFalse (fun h => PyVal.noConfusion h)
  | .str _, .list _ => .isFalse (fun h => PyVal.noConfusion h)
  | .int _, .str _ => .isFalse (fun h => PyVal.noConfusion h)
  | .int _, .bool _ => .isFalse (fun h => PyVal.noConfusion h)
  | .int _, .none => .isFalse (fun h => PyVal.noConfusion h)
  | .int _, .dict _ => .isFalse (fun h => PyVal.noConfusion h)
  | .int _, .list _ => .isFalse (fun h => PyVal.noConfusion h)
  | .bool _, .str _ => .isFalse (fun h => PyVal.noConfusion h)
  | .bool _, .int _ => .isFalse (fun h => PyVal.noConfusion h)
  | .bool _, .none => .isFalse (fun h => PyVal.noConfusion h)
  | .bool _, .dict _ => .isFalse (fun h => PyVal.noConfusion h)
  | .bool _, .list _ => .isFalse (fun h => PyVal.noConfusion h)
  | .none, .str _ => .isFalse (fun h => PyVal.noConfusion h)
  | .none, .int _ => .isFalse (fun h => PyVal.noConfusion h)
  | .none, .bool _ => .isFalse (fun h => PyVal.noConfusion h)
  | .none, .dict _ => .isFalse (fun h => PyVal.noConfusion h)
  | .none, .list _ => .isFalse (fun h => PyVal.noConfusion h)
  | .dict _, .str _ => .isFalse (fun h => PyVal.noConfusion h)
  | .dict _, .int _ => .isFalse (fun h => PyVal.noConfusion h)
  | .dict _, .bool _ => .isFalse (fun h => PyVal.noConfusion h)
  | .dict _, .none => .isFalse (fun h => PyVal.noConfusion h)
  | .dict _, .list _ => .isFalse (fun h => PyVal.noConfusion h)
  | .list _, .str _ => .isFalse (fun h => PyVal.noConfusion h)
  | .list _, .int _ => .isFalse (fun h => PyVal.noConfusion h)
  | .list _, .bool _ => .isFalse (fun h => PyVal.noConfusion h)
  | .list _, .none => .isFalse (fun h => PyVal.noConfusion h)
  | .list _, .dict _ => .isFalse (fun h => PyVal.noConfusion h)

/-- Equality decision for dict field lists. -/
def decEqFields : (a b : List (String × PyVal)) → Decidable (a = b)
  | [], [] => .isTrue rfl
  | [], _ :: _ => .isFalse (fun h => List.noConfusion h)
  | _ :: _, [] => .isFalse (fun h => List.noConfusion h)
  | (k1, v1) :: r1, (k2, v2) :: r2 =>
    if hk : k1 = k2 then
      match decEqPyVal v1 v2 with
      | .isTrue hv =>
        match decEqFields r1 r2 with
        | .isTrue hr => .isTrue (by rw [hk, hv, hr])
        | .isFalse hr => .isFalse (fun h => by cases h; exact hr rfl)
      | .isFalse hv => .isFalse (fun h => by cases h; exact hv rfl)
    else .isFalse (fun h => by cases h; exact hk rfl)

/-- Equality decision for list element lists. -/
def decEqItems : (a b : List PyVal) → Decidable (a = b)
  | [], [] => .isTrue rfl
  | [], _ :: _ => .isFalse (fun h => List.noConfusion h)
  | _ :: _, [] => .isFalse (fun h => List.noConfusion h)
  | v1 :: r1, v2 :: r2 =>
    match decEqPyVal v1 v2 with
    | .isTrue hv =>
      match decEqItems r1 r2 with
      | .isTrue hr => .isTrue (by rw [hv, hr])
      | .isFalse hr => .isFalse (fun h => by cases h; exact hr rfl)
    | .isFalse hv => .isFalse (fun h => by cases h; exact hv rfl)

end

instance : DecidableEq PyVal := decEqPyVal

/-- Python exceptions that the embedded code can raise. -/
inductive PErr where
  | valueError : String → PErr
  | typeError : PErr
  | attributeError : PErr
  | keyError : PErr
deriving DecidableEq, Repr

/-- `d[key]` lookup on an ordered Python dict (first binding wins). -/
def dGet? {α : Type} : List (String × α) → String → Option α
  | [], _ => Option.none
  | (k, v) :: rest, key => if k = key then some v else dGet? rest key

/-- `key in d` on a Python dict. -/
def dContains {α : Type} : List (String × α) → String → Bool
  | [], _ => false
  | (k, _) :: rest, key => k = key || dContains rest key

/-- `d[key] = v` on a Python dict: replace the binding in place if the key is
present, else append it at the end. -/
def dSet {α : Type} : List (String × α) → String → α → List (String × α)
  | [], key, v => [(key, v)]
  | (k1, v1) :: rest, key, v =>
    if k1 = key then (key, v) :: rest else (k1, v1) :: dSet rest key v

/-- `d.pop(key, None)` on a Python dict (key need not be present). -/
def dPop {α : Type} (d : List (String × α)) (key : String) : List (String × α) :=
  d.filter (fun p => p.1 ≠ key)

/-- Substring test, Python's `sub in s` for strings. -/
def substrB (sub s : String) : Bool := decide (sub.toList <:+: s.toList)

/-- Prefix test, Python's `s.startswith(pre)`. -/
def startsWithB (pre s : String) : Bool := decide (pre.toList <+: s.toList)

def charLower (c : Char) : Char :=
  if 'A' ≤ c ∧ c ≤ 'Z' then Char.ofNat (c.toNat + 32) else c

def charUpper (c : Char) : Char :=
  if 'a' ≤ c ∧ c ≤ 'z' then Char.ofNat (c.toNat - 32) else c

/-- ASCII variant of Python `str.lower()` (paths/methods here are ASCII). -/
def pyLower (s : String) : String := ⟨s.toList.map charLower⟩

/-- ASCII variant of Python `str.upper()`. -/
def pyUpper (s : String) : String := ⟨s.toList.map charUpper⟩

/-- Python `s.split(sep)` for a one-character separator (accumulator holds
the current segment reversed). -/
def splitCharL (sep : Char) : List Char → List Char → List String
  | [], acc => [⟨acc.reverse⟩]
  | c :: rest, acc =>
    if c = sep then ⟨acc.reverse⟩ :: splitCharL sep rest []
    else splitCharL sep rest (c :: acc)

/-- Python `s.split(sep)` for a one-character separator. -/
def splitChar (sep : Char) (s : String) : List String := splitCharL sep s.toList []

/-- `ResourceType` enum from models/filters.py (declaration order preserved). -/
inductive ResourceType where
  | WORKSPACE | RUN | ORGANIZATION | PROJECT | VARIABLE | PLAN | APPLY
  | STATE_VERSION | COST_ESTIMATE | ASSESSMENT | ACCOUNT | GENERIC
deriving DecidableEq, Repr

/-- The `.value` string of each `ResourceType` member. -/
def ResourceType.value : ResourceType → String
  | .WORKSPACE => "workspace"
  | .RUN => "run"
  | .ORGANIZATION => "organization"
  | .PROJECT => "project"
  | .VARIABLE => "variable"
  | .PLAN => "plan"
  | .APPLY => "apply"
  | .STATE_VERSION => "state-version"
  | .COST_ESTIMATE => "cost-estimate"
  | .ASSESSMENT => "assessment"
  | .ACCOUNT => "account"
  | .GENERIC => "generic"

/-- `for resource_type in ResourceType` iterates members in declaration order. -/
def ResourceType.members : List ResourceType :=
  [.WORKSPACE, .RUN, .ORGANIZATION, .PROJECT, .VARIABLE, .PLAN, .APPLY,
   .STATE_VERSION, .COST_ESTIMATE, .ASSESSMENT, .ACCOUNT, .GENERIC]

/-- `OperationType` enum from models/filters.py. -/
inductive OperationType where
  | READ | LIST | MANAGE
deriving DecidableEq, Repr

/-- `OperationType(s)`: the str-enum constructor; raises ValueError otherwise. -/
def OperationType.ofString : String → Except PErr OperationType
  | "read" => .ok .READ
  | "list" => .ok .LIST
  | "manage" => .ok .MANAGE
  | s => .error (.valueError (s!"{s} is not a valid OperationType"))

/-- `FilterConfig` from models/filters.py: three removal sets plus an optional
essential-relationships set (Python sets rendered as lists; only membership is
ever used, so list order is irrelevant to the results). -/
structure FilterConfig where
  always_remove : List String := []
  read_remove : List String := []
  list_remove : List String := []
  essential_relationships : Option (List String) := Option.none
deriving DecidableEq, Repr

/-- `FILTER_CONFIGS` from configs/filter_configs.py, keyed by resource type. -/
def FILTER_CONFIGS : List (ResourceType × FilterConfig) :=
  [ (.WORKSPACE,
      { always_remove := ["apply-duration-average", "plan-duration-average",
                          "policy-check-failures", "run-failures"]
        list_remove := ["workspace-kpis-runs-count",
                        "unarchived-workspace-change-requests-count"]
        essential_relationships := some ["organization", "project", "current-run",
                                         "current-state-version",
                                         "current-configuration-version"] }),
    (.RUN,
      { always_remove := []
        list_remove := []
        essential_relationships := some ["workspace", "plan", "apply", "cost-estimate"] }),
    (.ORGANIZATION,
      { always_remove := ["fair-run-queuing-enabled",
                          "send-passing-statuses-for-untriggered-speculative-plans"]
        list_remove := [] }),
    (.PROJECT,
      { list_remove := []
        essential_relationships := some ["organization"] }),
    (.VARIABLE,
      { always_remove := []
        list_remove := [] }),
    (.PLAN,
      { always_remove := []
        read_remove := ["resource-drift"]
        list_remove := ["execution-details"]
        essential_relationships := some ["run", "state-versions"] }),
    (.APPLY,
      { always_remove := []
        list_remove := ["execution-details"]
        essential_relationships := some ["run", "state-versions"] }),
    (.STATE_VERSION,
      { always_remove := ["vcs-commit-sha", "vcs-commit-url"]
        list_remove := ["hosted-state-download-url", "hosted-json-state-download-url",
                        "hosted-state-upload-url"]
        essential_relationships := some ["workspace", "run", "outputs"] }),
    (.COST_ESTIMATE,
      { always_remove := []
        read_remove := []
        list_remove := ["resources-count"]
        essential_relationships := some ["run"] }),
    (.ASSESSMENT,
      { always_remove := []
        read_remove := []
        list_remove := []
        essential_relationships := some ["workspace"] }),
    (.ACCOUNT,
      { always_remove := ["password", "avatar-url"]
        list_remove := [] }) ]

/-- `FILTER_CONFIGS.get(resource_type, FilterConfig())`. -/
def configFor (rt : ResourceType) : FilterConfig :=
  match FILTER_CONFIGS.find? (fun p => p.1 = rt) with
  | some p => p.2
  | Option.none => {}

/-- `PATH_PATTERNS` from configs/filter_configs.py, in source order. -/
def PATH_PATTERNS : List (String × ResourceType) :=
  [ ("state-versions", .STATE_VERSION),
    ("state-version-outputs", .STATE_VERSION),
    ("assessment-results", .ASSESSMENT),
    ("cost-estimates", .COST_ESTIMATE),
    ("workspaces", .WORKSPACE),
    ("runs", .RUN),
    ("organizations", .ORGANIZATION),
    ("projects", .PROJECT),
    ("plans", .PLAN),
    ("applies", .APPLY),
    ("vars", .VARIABLE),
    ("variables", .VARIABLE),
    ("account/details", .ACCOUNT),
    ("users", .ACCOUNT) ]

/-- `DATA_TYPE_MAP` from configs/filter_configs.py. -/
def DATA_TYPE_MAP : List (String × ResourceType) :=
  [ ("projects", .PROJECT), ("vars", .VARIABLE), ("runs", .RUN) ]

/-- `RESOURCE_TYPE_MAP` from configs/filter_configs.py. -/
def RESOURCE_TYPE_MAP : List (String × ResourceType) :=
  [ ("workspace", .WORKSPACE), ("workspaces", .WORKSPACE),
    ("run", .RUN), ("runs", .RUN),
    ("organization", .ORGANIZATION), ("organizations", .ORGANIZATION),
    ("project", .PROJECT), ("projects", .PROJECT),
    ("var", .VARIABLE), ("vars", .VARIABLE),
    ("plan", .PLAN), ("plans", .PLAN),
    ("apply", .APPLY), ("applies", .APPLY),
    ("state-version", .STATE_VERSION), ("state-versions", .STATE_VERSION),
    ("cost-estimate", .COST_ESTIMATE), ("cost-estimates", .COST_ESTIMATE),
    ("assessment-result", .ASSESSMENT), ("assessment-results", .ASSESSMENT),
    ("user", .ACCOUNT), ("users", .ACCOUNT) ]

/-! ## Pure value-level embedding of utils/filters.py

Python's in-place mutation of freshly copied dicts is rendered as
value-passing: each helper returns the updated value.  A shallow `.copy()`
is the identity at value level, but the attempted attribute access can
still raise `AttributeError` for non-copyable values, which is retained. -/

/-- `x.copy()`: succeeds (as the identity, value-level) for dicts and lists,
raises `AttributeError` for other values. -/
def pyCopy : PyVal → Except PErr PyVal
  | .dict d => .ok (.dict d)
  | .list l => .ok (.list l)
  | _ => .error .attributeError

/-- Python `key in x` for a string key: dict key membership, substring test
for strings, element equality for lists; `TypeError` for non-containers. -/
def pyContains (x : PyVal) (key : String) : Except PErr Bool :=
  match x with
  | .dict d => .ok (dContains d key)
  | .str s => .ok (substrB key s)
  | .list l => .ok (l.any (fun v => match v with | .str s => decide (s = key) | _ => false))
  | _ => .error .typeError

/-- Python `x[key]` for a string key: dict lookup (`KeyError` if absent);
`TypeError` for str/list/other values indexed by a string. -/
def pyGetItem (x : PyVal) (key : String) : Except PErr PyVal :=
  match x with
  | .dict d =>
    match dGet? d key with
    | some v => .ok v
    | Option.none => .error .keyError
  | _ => .error .typeError

/-- The `Union[str, ResourceType]` argument of `filter_response`. -/
inductive RTypeArg where
  | str : String → RTypeArg
  | enum : ResourceType → RTypeArg

/-- The `Union[str, OperationType]` argument of `filter_response`. -/
inductive OpArg where
  | str : String → OpArg
  | enum : OperationType → OpArg

/-- filter_response lines 41–46: normalize the resource-type argument.
Strings go through `RESOURCE_TYPE_MAP` with a `GENERIC` default; enum values
pass through.  (The Python `else: raise ValueError` branch is unreachable for
arguments of the annotated union type.) -/
def normalizeResourceType : RTypeArg → ResourceType
  | .str s =>
    match RESOURCE_TYPE_MAP.find? (fun p => p.1 = s) with
    | some p => p.2
    | Option.none => .GENERIC
  | .enum t => t

/-- filter_response lines 48–56: normalize the operation-type argument.
An invalid string raises `ValueError(f"Invalid operation_type: ...")`. -/
def normalizeOperationType : OpArg → Except PErr OperationType
  | .str s =>
    match OperationType.ofString s with
    | .ok op => .ok op
    | .error _ => .error (.valueError ("Invalid operation_type: " ++ s))
  | .enum op => .ok op

/-- `_filter_item_attributes` lines 108–114: the remove-set
`always_remove ∪ (read_remove if READ) ∪ (list_remove if LIST)`. -/
def fieldsToRemove (cfg : FilterConfig) (op : OperationType) : List String :=
  cfg.always_remove ++
    (match op with
     | .READ => cfg.read_remove
     | .LIST => cfg.list_remove
     | .MANAGE => [])

/-- `for field in fields_to_remove: attrs.pop(field, None)`. -/
def removeFields {α : Type} (attrs : List (String × α)) (fields : List String) :
    List (String × α) :=
  attrs.filter (fun p => ¬ fields.contains p.1)

/-- Truthiness of the `Optional[Set[str]] essential_relationships` value. -/
def essentialTruthy : Option (List String) → Bool
  | Option.none => false
  | some l => ¬ l.isEmpty

/-- `_filter_relationships` (filters.py lines 130–154), value-level.  For READ
operations with a truthy essential set, drop non-essential keys; then strip
the `links` sub-key from every remaining dict-valued relationship. -/
def filterRelationships (rels : List (String × PyVal)) (rt : ResourceType)
    (op : OperationType) : List (String × PyVal) :=
  let cfg := configFor rt
  let essential := cfg.essential_relationships
  let rels1 :=
    if op = .READ ∧ essentialTruthy essential then
      rels.filter (fun p => (essential.getD []).contains p.1)
    else rels
  rels1.map (fun p =>
    match p.2 with
    | .dict rd => (p.1, .dict (dPop rd "links"))
    | _ => p)

/-- `_filter_item_attributes` (filters.py lines 93–127), value-level.  Items
without an `attributes` key, or with a non-dict `attributes` value, are
returned unchanged (the source returns early before touching relationships or
links).  Python raises are propagated: `in` on a non-container raises
`TypeError`; indexing a str/list by `"attributes"` raises `TypeError`;
`.copy()` on a non-dict/list relationships value raises `AttributeError`;
`.items()` on a list relationships value raises `AttributeError`. -/
def filterItemAttributes (item : PyVal) (rt : ResourceType) (op : OperationType) :
    Except PErr PyVal := do
  let c ← pyContains item "attributes"
  if !c then return item
  let attrsVal ← pyGetItem item "attributes"
  match item, attrsVal with
  | .dict d, .dict attrs0 =>
    let cfg := configFor rt
    let attrs1 := removeFields attrs0 (fieldsToRemove cfg op)
    let d1 := dSet d "attributes" (.dict attrs1)
    let d2 ←
      if dContains d1 "relationships" then do
        let rc ← pyCopy ((dGet? d1 "relationships").getD .none)
        match rc with
        | .dict rels => pure (dSet d1 "relationships" (.dict (filterRelationships rels rt op)))
        | _ => throw .attributeError
      else pure d1
    return .dict (dPop d2 "links")
  | _, .dict _ => throw .typeError
  | _, _ => return item

/-- filters.py lines 172–178: rebuild `meta["pagination"]` with exactly the
three keys `current-page`/`total-pages`/`total-count` (missing ones become
`None` via `dict.get`). -/
def metaPagination (meta : PyVal) : Except PErr PyVal := do
  let c1 ← pyContains meta "pagination"
  if c1 then do
    let pv ← pyGetItem meta "pagination"
    match meta, pv with
    | .dict md, .dict pag =>
      pure (PyVal.dict (dSet md "pagination" (.dict
        [("current-page", (dGet? pag "current-page").getD .none),
         ("total-pages", (dGet? pag "total-pages").getD .none),
         ("total-count", (dGet? pag "total-count").getD .none)])))
    | _, _ => pure meta
  else pure meta

/-- filters.py lines 179–184: trim `meta["status-counts"]` to `total`, or
drop it when it has no `total` key. -/
def metaStatusCounts (meta1 : PyVal) : Except PErr PyVal := do
  let c2 ← pyContains meta1 "status-counts"
  if c2 then do
    let sv ← pyGetItem meta1 "status-counts"
    match meta1, sv with
    | .dict md, .dict sc =>
      if dContains sc "total" then
        pure (PyVal.dict (dSet md "status-counts" (.dict
          [("total", (dGet? sc "total").getD .none)])))
      else
        pure (PyVal.dict (dPop md "status-counts"))
    | _, _ => pure meta1
  else pure meta1

/-- filters.py lines 169–184: the `meta` half of `_filter_list_metadata`. -/
def flmMeta (d : List (String × PyVal)) : Except PErr (List (String × PyVal)) :=
  if dContains d "meta" then do
    let meta := (dGet? d "meta").getD .none
    let meta1 ← metaPagination meta
    let meta2 ← metaStatusCounts meta1
    pure (dSet d "meta" meta2)
  else pure d

/-- filters.py lines 186–192: trim the top-level `links` to the four
pagination links, in that fixed order. -/
def flmLinks (d1 : List (String × PyVal)) : Except PErr (List (String × PyVal)) :=
  match dGet? d1 "links" with
  | some (.dict links) =>
    pure (dSet d1 "links" (.dict
      (["next", "prev", "first", "last"].filterMap
        (fun k => (dGet? links k).map (fun v => (k, v))))))
  | _ => pure d1

/-- `_filter_list_metadata` (filters.py lines 167–192), value-level, applied
to the envelope dict: the `meta` half followed by the `links` half. -/
def filterListMetadata (d : List (String × PyVal)) : Except PErr (List (String × PyVal)) := do
  let d1 ← flmMeta d
  flmLinks d1

/-- Map `filterItemAttributes` over the items of a `data` list, propagating
the first raise (filters.py lines 59–61). -/
def filterItems (items : List PyVal) (rt : ResourceType) (op : OperationType) :
    Except PErr (List PyVal) :=
  match items with
  | [] => .ok []
  | it :: rest => do
    let it1 ← filterItemAttributes it rt op
    let rest1 ← filterItems rest rt op
    pure (it1 :: rest1)

/-- filters.py lines 36–38: `filtered_data[key] = filtered_data[key].copy()`
for `key in ("meta", "links")`.  At value level the copy is the identity, but
it raises `AttributeError` when the present value is not a dict or list. -/
def copyMetaLinks (d : List (String × PyVal)) : Except PErr Unit := do
  if dContains d "meta" then
    _ ← pyCopy ((dGet? d "meta").getD .none)
  if dContains d "links" then
    _ ← pyCopy ((dGet? d "links").getD .none)
  pure ()

/-- `filter_response` (filters.py lines 18–69), value-level.  Non-dict inputs
and dicts without a `data` key are returned unchanged.  Raises propagate to
the caller: there is no catch-all inside `filter_response`. -/
def filter_response (data : PyVal) (resource_type : RTypeArg)
    (operation_type : OpArg) : Except PErr PyVal :=
  match data with
  | .dict d =>
    if !dContains d "data" then .ok data
    else do
      -- lines 27–35: shallow-copy the envelope and the data items
      -- (identity at value level, cannot raise: the copies are guarded
      -- by isinstance checks)
      copyMetaLinks d
      let normalized_type := normalizeResourceType resource_type
      let operation_enum ← normalizeOperationType operation_type
      let dataVal := (dGet? d "data").getD .none
      let d1 ←
        match dataVal with
        | .list items => do
          let items1 ← filterItems items normalized_type operation_enum
          pure (dSet d "data" (.list items1))
        | v => do
          let v1 ← filterItemAttributes v normalized_type operation_enum
          pure (dSet d "data" v1)
      let d2 ←
        if operation_enum = .LIST then filterListMetadata d1
        else pure d1
      return .dict d2
  | _ => .ok data

/-! ## Embedding of the detection helpers (filters.py lines 207–256) -/

/-- `should_filter_response` (filters.py lines 207–215). -/
def should_filter_response (path method : String) : Bool :=
  if pyUpper method ≠ "GET" then false
  else ¬ (["log", "download", "json-output", "content"].any
    (fun term => substrB term (pyLower path)))

/-- `detect_resource_type` (filters.py lines 218–242).  Scans `PATH_PATTERNS`
in order for the first substring match; on no match falls back to the body's
`data` `type` discriminator through `DATA_TYPE_MAP`, then the enum values,
then `GENERIC`.  Reading `.get` off a non-dict first list element raises
`AttributeError`, which propagates. -/
def dataTypeLookup (dataType : PyVal) : ResourceType :=
  match dataType with
  | .str s =>
    match DATA_TYPE_MAP.find? (fun p => p.1 = s) with
    | some p => p.2
    | Option.none =>
      match ResourceType.members.find? (fun rt => rt.value = s) with
      | some rt => rt
      | Option.none => .GENERIC
  | _ => .GENERIC

def detect_resource_type (path : String) (data : PyVal) : Except PErr ResourceType :=
  match PATH_PATTERNS.find? (fun p => substrB p.1 path) with
  | some p => .ok p.2
  | Option.none =>
    match data with
    | .dict d =>
      if dContains d "data" then
        match (dGet? d "data").getD .none with
        | .list (first :: _) =>
          match first with
          | .dict fd => .ok (dataTypeLookup ((dGet? fd "type").getD (.str "unknown")))
          | _ => .error .attributeError
        | .dict dd => .ok (dataTypeLookup ((dGet? dd "type").getD (.str "unknown")))
        | _ => .ok .GENERIC
      else .ok .GENERIC
    | _ => .ok .GENERIC

/-- `detect_operation_type` (filters.py lines 245–256). -/
def detect_operation_type (path method : String) : OperationType :=
  if pyUpper method = "GET" then
    if (splitChar '/' path).any (fun segment =>
        ["ws-", "run-", "org-", "prj-", "var-"].any
          (fun pre => startsWithB pre segment)) then
      .READ
    else .LIST
  else .MANAGE

/-! ## Embedding of the parameter codec (utils/request.py, query_params) -/

/-- Python `s.replace(t, r)` on character lists: replace every left-to-right
non-overlapping occurrence of `t` by `r` (for non-empty `t`; every call site
in the embedded code passes a non-empty pattern). -/
def replaceFuel : Nat → List Char → List Char → List Char → List Char
  | _, [], _, _ => []
  | 0, s, _, _ => s
  | fuel + 1, c :: s2, t, r =>
    if t ≠ [] ∧ t <+: (c :: s2) then r ++ replaceFuel fuel ((c :: s2).drop t.length) t r
    else c :: replaceFuel fuel s2 t r

def replaceL (s t r : List Char) : List Char := replaceFuel s.length s t r

/-- Python `s.replace(t, r)` on strings. -/
def strReplace (s t r : String) : String := ⟨replaceL s.toList t.toList r.toList⟩

/-- Python `str(value)` for the scalar values that reach it in the codec
(container reprs are not modelled; no claim exercises them). -/
def pyStr : PyVal → String
  | .str s => s
  | .int n => toString n
  | .bool true => "True"
  | .bool false => "False"
  | .none => "None"
  | .dict _ => "<dict>"
  | .list _ => "<list>"

/-- The fixed routing-field exclusion set of `query_params`. -/
def routingFields : List String :=
  ["organization", "workspace_name", "workspace_id", "run_id", "plan_id",
   "apply_id", "project_id"]

/-- `query_params` (utils/request.py lines 46–107) over the result of
`model.model_dump(exclude_none=True)`, rendered as an ordered field list.
First matching prefix rule wins; unmatched fields are dropped. -/
def query_params : List (String × PyVal) → List (String × String)
  | [] => []
  | (name, value) :: rest =>
    let tail := query_params rest
    if routingFields.contains name then tail
    else if startsWithB "page_" name then
      ("page[" ++ strReplace name "page_" "" ++ "]", pyStr value) :: tail
    else if startsWithB "filter_" name then
      if value = .str "" then tail
      else if substrB "_permissions_" name then
        ("filter[permissions][" ++
           String.intercalate "-" (splitChar '_' (strReplace name "filter_permissions_" "")) ++ "]",
         if value = .bool true then "true" else pyStr value) :: tail
      else
        ("filter[" ++ strReplace (strReplace name "filter_" "") "_" "-" ++ "]",
         if value = .bool true then "true" else pyStr value) :: tail
    else if startsWithB "search_" name then
      if value ≠ .str "" ∧ value ≠ .none then
        ("search[" ++ strReplace name "search_" "" ++ "]", pyStr value) :: tail
      else tail
    else if startsWithB "query_" name then
      if value ≠ .str "" ∧ value ≠ .none then
        ("q[" ++ strReplace name "query_" "" ++ "]", pyStr value) :: tail
      else tail
    else if ["q", "search", "sort"].contains name then
      if value ≠ .str "" ∧ value ≠ .none then (name, pyStr value) :: tail
      else tail
    else tail

/-! ## Embedding of the error-redaction path (api/client.py lines 198–203) -/

/-- client.py lines 200–202: `str(e)` with the bearer token redacted whenever
it occurs as a substring, then formatted as `f"Request error: {...}"`. -/
def apiRequestErrorMessage (token msg : String) : String :=
  "Request error: " ++
    (if token ≠ "" ∧ substrB token msg then strReplace msg token "[REDACTED]" else msg)

/-- client.py line 203: the `{"error": ...}` mapping returned from the
`except` branch of `api_request`. -/
def apiRequestErrorResult (token msg : String) : PyVal :=
  .dict [("error", .str (apiRequestErrorMessage token msg))]

/-! ## Spec-modelled redirect-following transport

The redirect-following, filter-integrated version of `api_request` described
in spec §4.3 is not present in this snapshot of the repository: both copies of
api/client.py predate it (callers such as tools/applies.py already refer to
its automatic redirect handling).  The transport is therefore modelled from
the spec and composed with the source-embedded detection and filtering
functions above. -/

/-- Base API URL (api/client.py line 14). -/
def TERRAFORM_CLOUD_API_URL : String := "https://app.terraform.io/api/v2"

/-- An abstract HTTP response: status, headers, the JSON decoding of the body
(`Option.none` when the body is not valid JSON), and the raw body text. -/
structure HttpResponse where
  status : Nat
  headers : List (String × String)
  jsonBody : Option PyVal
  text : String

/-- An issued HTTP request as the transport model records it. -/
structure HttpRequest where
  url : String
  method : String
  headers : List (String × String)
deriving DecidableEq

/-- Response-header lookup. -/
def lookupHeader (hs : List (String × String)) (k : String) : Option String :=
  (hs.find? (fun p => p.1 = k)).map (fun p => p.2)

/-- Modelled from the spec (§4.3 step 6, §4.4 failure mode, §4.5): the
Response Filtering Engine applied by the transport — detect the resource type
from path and body and the operation kind from path and method, then filter;
any failure inside detection or filtering is recovered by returning the
original, unfiltered envelope. -/
def applyFilterEngineSpec (envelope : PyVal) (path method : String) : PyVal :=
  match detect_resource_type path envelope with
  | .error _ => envelope
  | .ok rt =>
    match filter_response envelope (.enum rt) (.enum (detect_operation_type path method)) with
    | .ok filtered => filtered
    | .error _ => envelope

/-- Modelled from the spec (§4.3 step 5): a decoded JSON value that is not an
object is wrapped as `{data: value}` so callers always receive an object. -/
def wrapNonDict (v : PyVal) : PyVal :=
  match v with
  | .dict _ => v
  | other => .dict [("data", other)]

/-- Modelled from the spec (§4.3 steps 3–6): processing of a non-redirect
response.  `accept_text` short-circuits to `{content: raw text}`; 204 yields
a status object; other 2xx bodies are JSON-decoded, wrapped into an object
if necessary, and filtered unless raw-response mode is on or the
path/method combination is excluded from filtering. -/
def processResponseSpec (resp : HttpResponse) (path method : String)
    (accept_text raw : Bool) : PyVal :=
  if accept_text then .dict [("content", .str resp.text)]
  else if resp.status = 204 then
    .dict [("status", .str "success"), ("status_code", .int 204)]
  else if 200 ≤ resp.status ∧ resp.status < 300 then
    match resp.jsonBody with
    | Option.none => .dict [("error", .str "Failed to parse JSON response")]
    | some v =>
      let envelope := wrapNonDict v
      if raw || !should_filter_response path method then envelope
      else applyFilterEngineSpec envelope path method
  else
    match resp.jsonBody with
    | some v =>
      .dict [("error", .str ("API request failed: " ++ toString resp.status)),
             ("details", v)]
    | Option.none => .dict [("error", .str ("API request failed: " ++ toString resp.status))]

/-- Modelled from the spec (§4.3): the redirect-following transport, missing
from this snapshot of api/client.py.  `net n` is the response to the `n`-th
network call; the result pairs the returned mapping with the list of issued
requests.  A 301/302/307/308 first response is followed at most one level
deep via its `Location` header, re-sending the same headers (including the
original bearer `Authorization` header) on a GET. -/
def api_request_spec (net : Nat → HttpResponse) (path method token : String)
    (is_absolute_url accept_text force_raw raw_env : Bool) : PyVal × List HttpRequest :=
  if token = "" then
    (.dict [("error", .str "Token is required. Please set the TFC_TOKEN environment variable.")],
     [])
  else
    let headers := [("Authorization", "Bearer " ++ token),
                    ("Content-Type", "application/vnd.api+json")]
    let url := if is_absolute_url then path else TERRAFORM_CLOUD_API_URL ++ "/" ++ path
    let req1 : HttpRequest := ⟨url, method, headers⟩
    let raw := force_raw || raw_env
    let resp1 := net 0
    if resp1.status = 301 ∨ resp1.status = 302 ∨ resp1.status = 307 ∨ resp1.status = 308 then
      match lookupHeader resp1.headers "Location" with
      | Option.none =>
        (.dict [("error", .str "Redirect received, but no Location header provided.")], [req1])
      | some loc =>
        let req2 : HttpRequest := ⟨loc, "GET", headers⟩
        (processResponseSpec (net 1) path method accept_text raw, [req1, req2])
    else (processResponseSpec resp1 path method accept_text raw, [req1])

/-! ## Heap-level embedding of utils/filters.py

For the non-mutation property the value-level rendering is too coarse:
Python's shallow copies share sub-objects with the input, and the filter
functions mutate dicts in place.  Here dicts and lists live at heap
addresses, `.copy()` allocates, and the filter functions are rendered as
state transformers, so that "the input is structurally unchanged after
`filter_response` returns" becomes a provable frame property. -/

/-- A heap value: scalars are immutable and inline, dicts/lists are
references into the heap. -/
inductive HVal where
  | str : String → HVal
  | int : Int → HVal
  | bool : Bool → HVal
  | none : HVal
  | ref : Nat → HVal
deriving DecidableEq, Repr

/-- A heap object: a mutable dict or list. -/
inductive HObj where
  | dict : List (String × HVal) → HObj
  | list : List HVal → HObj
deriving DecidableEq, Repr

/-- The heap: object at address `a` is the `a`-th entry; allocation appends. -/
abbrev Heap := List HObj

/-- Heap computations: state passing with Python exceptions. -/
def HM (α : Type) : Type := Heap → Except PErr (α × Heap)

instance : Monad HM where
  pure a := fun h => .ok (a, h)
  bind m f := fun h =>
    match m h with
    | .ok (a, h2) => f a h2
    | .error e => .error e

/-- Raise a Python exception. -/
def hThrow {α : Type} (e : PErr) : HM α := fun _ => .error e

/-- Allocate a fresh object, returning its address. -/
def hAlloc (o : HObj) : HM Nat := fun h => .ok (h.length, h ++ [o])

/-- Dereference an address (never dangling in runs from well-formed states). -/
def hObjAt (a : Nat) : HM HObj := fun h =>
  match h[a]? with
  | some o => .ok (o, h)
  | Option.none => .error .keyError

/-- Overwrite the object at an (existing) address. -/
def hWrite (a : Nat) (o : HObj) : HM Unit := fun h => .ok ((), h.set a o)

/-- The field list of the dict object at `a` (TypeError on a list object). -/
def hDictFields (a : Nat) : HM (List (String × HVal)) := do
  let o ← hObjAt a
  match o with
  | .dict f => pure f
  | .list _ => hThrow .typeError

/-- `base[key] = v` on the dict object at `a`. -/
def hDictSet (a : Nat) (key : String) (v : HVal) : HM Unit := do
  let f ← hDictFields a
  hWrite a (.dict (dSet f key v))

/-- Python `key in x` for a string key, heap level (cf. `pyContains`). -/
def hContains (x : HVal) (key : String) : HM Bool :=
  match x with
  | .ref a => do
    let o ← hObjAt a
    match o with
    | .dict f => pure (dContains f key)
    | .list l => pure (l.any (fun v => match v with | .str s => decide (s = key) | _ => false))
  | .str s => pure (substrB key s)
  | _ => hThrow .typeError

/-- Python `x[key]` for a string key, heap level (cf. `pyGetItem`). -/
def hGetItem (x : HVal) (key : String) : HM HVal :=
  match x with
  | .ref a => do
    let o ← hObjAt a
    match o with
    | .dict f =>
      match dGet? f key with
      | some v => pure v
      | Option.none => hThrow .keyError
    | .list _ => hThrow .typeError
  | _ => hThrow .typeError

/-- `x.copy()`, heap level: allocates a shallow copy of a dict/list object,
raises `AttributeError` on scalars. -/
def hCopy (x : HVal) : HM HVal :=
  match x with
  | .ref a => do
    let o ← hObjAt a
    let na ← hAlloc o
    pure (.ref na)
  | _ => hThrow .attributeError

/-- Whether the heap value is a reference to a dict object. -/
def hIsDictRef (x : HVal) : HM Bool :=
  match x with
  | .ref a => do
    let o ← hObjAt a
    match o with
    | .dict _ => pure true
    | .list _ => pure false
  | _ => pure false

/-- `_filter_relationships` (filters.py lines 130–154), heap level, mutating
the relationships dict at address `a`: allow-list non-essential keys away on
READ, then replace each dict-valued entry by a fresh copy without `links`. -/
def hStripRelLinks : List (String × HVal) → HM (List (String × HVal))
  | [] => pure []
  | (k, v) :: rest => do
    let v1 ←
      match v with
      | .ref ra => do
        let o ← hObjAt ra
        match o with
        | .dict rd => do
          let na ← hAlloc (.dict (dPop rd "links"))
          pure (HVal.ref na)
        | .list _ => pure v
      | _ => pure v
    let rest1 ← hStripRelLinks rest
    pure ((k, v1) :: rest1)

def hFilterRelationships (a : Nat) (rt : ResourceType) (op : OperationType) : HM Unit := do
  let cfg := configFor rt
  let essential := cfg.essential_relationships
  let f ← hDictFields a
  let f1 :=
    if op = .READ ∧ essentialTruthy essential then
      f.filter (fun p => (essential.getD []).contains p.1)
    else f
  hWrite a (.dict f1)
  let f2 ← hDictFields a
  let f3 ← hStripRelLinks f2
  hWrite a (.dict f3)

/-- `_filter_item_attributes` (filters.py lines 93–127), heap level, mutating
the item (a dict reference) in place. -/
def hFilterItemAttributes (item : HVal) (rt : ResourceType) (op : OperationType) :
    HM Unit := do
  let c ← hContains item "attributes"
  if !c then return ()
  let av ← hGetItem item "attributes"
  let avIsDict ← hIsDictRef av
  if !avIsDict then return ()
  match item, av with
  | .ref ia, .ref aa => do
    let ao ← hObjAt aa
    match ao with
    | .dict attrs0 => do
      -- item["attributes"] = item["attributes"].copy(); pops on the copy
      let cfg := configFor rt
      let ca ← hAlloc (.dict (removeFields attrs0 (fieldsToRemove cfg op)))
      hDictSet ia "attributes" (.ref ca)
      -- relationships
      let f2 ← hDictFields ia
      if dContains f2 "relationships" then do
        let rv := (dGet? f2 "relationships").getD .none
        let rc ← hCopy rv
        hDictSet ia "relationships" rc
        match rc with
        | .ref ra => do
          let ro ← hObjAt ra
          match ro with
          | .dict _ => hFilterRelationships ra rt op
          | .list _ => hThrow .attributeError
        | _ => hThrow .attributeError
      else pure ()
      -- item.pop("links", None)
      let f3 ← hDictFields ia
      hWrite ia (.dict (dPop f3 "links"))
    | .list _ => hThrow .typeError
  | _, _ => hThrow .typeError

/-- `_filter_list_metadata` (filters.py lines 167–192), heap level, mutating
the envelope dict at address `a` (whose `meta`/`links` values have already
been replaced by fresh copies by `filter_response`). -/
def hFilterListMetadata (a : Nat) : HM Unit := do
  let f ← hDictFields a
  if dContains f "meta" then do
    let mv := (dGet? f "meta").getD .none
    let c1 ← hContains mv "pagination"
    if c1 then do
      let pv ← hGetItem mv "pagination"
      let pIsDict ← hIsDictRef pv
      if pIsDict then
        match mv, pv with
        | .ref ma, .ref pa => do
          let po ← hObjAt pa
          match po with
          | .dict pag => do
            let na ← hAlloc (.dict
              [("current-page", (dGet? pag "current-page").getD .none),
               ("total-pages", (dGet? pag "total-pages").getD .none),
               ("total-count", (dGet? pag "total-count").getD .none)])
            hDictSet ma "pagination" (.ref na)
          | .list _ => hThrow .typeError
        | _, _ => hThrow .typeError
      else pure ()
    else pure ()
    let c2 ← hContains mv "status-counts"
    if c2 then do
      let sv ← hGetItem mv "status-counts"
      let sIsDict ← hIsDictRef sv
      if sIsDict then
        match mv, sv with
        | .ref ma, .ref sa => do
          let so ← hObjAt sa
          match so with
          | .dict sc => do
            if dContains sc "total" then do
              let na ← hAlloc (.dict [("total", (dGet? sc "total").getD .none)])
              hDictSet ma "status-counts" (.ref na)
            else do
              let mf ← hDictFields ma
              hWrite ma (.dict (dPop mf "status-counts"))
          | .list _ => hThrow .typeError
        | _, _ => hThrow .typeError
      else pure ()
    else pure ()
  else pure ()
  let f2 ← hDictFields a
  match dGet? f2 "links" with
  | some lv => do
    let lIsDict ← hIsDictRef lv
    if lIsDict then
      match lv with
      | .ref la => do
        let lo ← hObjAt la
        match lo with
        | .dict links => do
          let na ← hAlloc (.dict
            (["next", "prev", "first", "last"].filterMap
              (fun k => (dGet? links k).map (fun v => (k, v)))))
          hDictSet a "links" (.ref na)
        | .list _ => hThrow .typeError
      | _ => hThrow .typeError
    else pure ()
  | Option.none => pure ()

/-- filters.py lines 29–35: build the shallow-copied `data` field value. -/
def hCopyDataItems (dv : HVal) : HM HVal :=
  match dv with
  | .ref da => do
    let o ← hObjAt da
    match o with
    | .list items => do
      let items1 ← hCopyEach items
      let na ← hAlloc (.list items1)
      pure (.ref na)
    | .dict f => do
      let na ← hAlloc (.dict f)
      pure (.ref na)
  | v => pure v
where
  /-- `item.copy() if isinstance(item, dict) else item` for each element. -/
  hCopyEach : List HVal → HM (List HVal)
    | [] => pure []
    | v :: rest => do
      let v1 ←
        match v with
        | .ref va => do
          let o ← hObjAt va
          match o with
          | .dict f => do
            let na ← hAlloc (.dict f)
            pure (HVal.ref na)
          | .list _ => pure v
        | _ => pure v
      let rest1 ← hCopyEach rest
      pure (v1 :: rest1)

/-- filters.py lines 36–38, heap level: replace present `meta`/`links` values
of the copied envelope at `a` by shallow copies (raising `AttributeError`
for non-copyable values). -/
def hCopyMetaLinks (a : Nat) : HM Unit := do
  let f ← hDictFields a
  if dContains f "meta" then do
    let c ← hCopy ((dGet? f "meta").getD .none)
    hDictSet a "meta" c
  else pure ()
  let f2 ← hDictFields a
  if dContains f2 "links" then do
    let c ← hCopy ((dGet? f2 "links").getD .none)
    hDictSet a "links" c
  else pure ()

/-- Run the items loop of filter_response lines 59–63, heap level. -/
def hFilterItems (items : List HVal) (rt : ResourceType) (op : OperationType) : HM Unit :=
  match items with
  | [] => pure ()
  | it :: rest => do
    hFilterItemAttributes it rt op
    hFilterItems rest rt op

/-- `filter_response` (filters.py lines 18–69), heap level.  Returns the
(reference to the) filtered envelope; the input envelope and everything
reachable from it is left intact, which is the non-mutation theorem. -/
def hFilterResponse (data : HVal) (resource_type : RTypeArg) (operation_type : OpArg) :
    HM HVal := do
  match data with
  | .ref a0 => do
    let o ← hObjAt a0
    match o with
    | .dict d0 =>
      if !dContains d0 "data" then pure data
      else do
        -- filtered_data = data.copy()
        let fa ← hAlloc (.dict d0)
        -- shallow-copy the data items
        let f1 ← hDictFields fa
        let dv1 ← hCopyDataItems ((dGet? f1 "data").getD .none)
        hDictSet fa "data" dv1
        -- shallow-copy meta/links
        hCopyMetaLinks fa
        -- normalize argument types
        let nt := normalizeResourceType resource_type
        let nop ←
          match normalizeOperationType operation_type with
          | .ok op => pure op
          | .error e => hThrow e
        -- filter the item(s)
        let f2 ← hDictFields fa
        let dval := (dGet? f2 "data").getD .none
        let isList ←
          match dval with
          | .ref da => do
            let o2 ← hObjAt da
            pure (match o2 with | .list _ => true | _ => false)
          | _ => pure false
        if isList then
          match dval with
          | .ref da => do
            let o2 ← hObjAt da
            match o2 with
            | .list items => hFilterItems items nt nop
            | .dict _ => hThrow .typeError
          | _ => hThrow .typeError
        else
          hFilterItemAttributes dval nt nop
        -- list-level metadata
        if nop = .LIST then hFilterListMetadata fa else pure ()
        pure (.ref fa)
    | .list _ => pure data
  | v => pure v

/-- Bounded readback of a heap value into a `PyVal` tree (cycles in the heap
are cut off by fuel; both sides of the non-mutation theorem use the same
fuel). -/
def readbackV : Nat → Heap → HVal → PyVal
  | 0, _, _ => .none
  | _ + 1, _, .str s => .str s
  | _ + 1, _, .int n => .int n
  | _ + 1, _, .bool b => .bool b
  | _ + 1, _, .none => .none
  | fuel + 1, h, .ref a =>
    match h[a]? with
    | some (.dict f) => .dict (f.map (fun p => (p.1, readbackV fuel h p.2)))
    | some (.list l) => .list (l.map (readbackV fuel h))
    | Option.none => .none

/-- All references in a heap value point below `n`. -/
def valRefsBelow (v : HVal) (n : Nat) : Bool :=
  match v with
  | .ref a => a < n
  | _ => true

/-- All references in a heap object point below `n`. -/
def objRefsBelow (o : HObj) (n : Nat) : Bool :=
  match o with
  | .dict f => f.all (fun p => valRefsBelow p.2 n)
  | .list l => l.all (fun v => valRefsBelow v n)

/-- A closed heap: every stored reference points at an allocated object. -/
def heapWF (h : Heap) : Bool := h.all (fun o => objRefsBelow o h.length)

/-! ## Identity-preservation properties (for the invariants claim)

These predicates say that filtering only ever removes attribute entries,
non-essential relationship entries, relationship `links` sub-keys,
item-level `links` and envelope-level `meta`/`links`; everything else —
in particular each item's top-level `type` and `id` — is untouched. -/

/-- An item is either returned unchanged or is a dict whose keys other than
`attributes`/`relationships`/`links` are value-identical, whose attributes
only lost entries, whose relationships only lost entries or the `links`
sub-key of an entry, and whose own `links` is gone or untouched. -/
def itemOnlyFiltered (x y : PyVal) : Prop :=
  y = x ∨
  ∃ xd yd, x = .dict xd ∧ y = .dict yd ∧
    (∀ k, k ≠ "attributes" → k ≠ "relationships" → k ≠ "links" →
      dGet? yd k = dGet? xd k) ∧
    (dGet? yd "attributes" = dGet? xd "attributes" ∨
      ∃ xa ya, dGet? xd "attributes" = some (.dict xa) ∧
        dGet? yd "attributes" = some (.dict ya) ∧ ya.Sublist xa) ∧
    (dGet? yd "relationships" = dGet? xd "relationships" ∨
      ∃ xr yr, dGet? xd "relationships" = some (.dict xr) ∧
        dGet? yd "relationships" = some (.dict yr) ∧
        ∀ q ∈ yr, ∃ v, (q.1, v) ∈ xr ∧
          (q.2 = v ∨ ∃ vd, v = .dict vd ∧ q.2 = .dict (dPop vd "links"))) ∧
    (dGet? yd "links" = Option.none ∨ dGet? yd "links" = dGet? xd "links")

/-- The `data` value keeps its shape: lists map to lists of the same length
with `itemOnlyFiltered` holding pointwise; single items satisfy it directly. -/
def dataOnlyFiltered (x y : PyVal) : Prop :=
  match x with
  | .list xs => ∃ ys, y = .list ys ∧ List.Forall₂ itemOnlyFiltered xs ys
  | _ => itemOnlyFiltered x y

/-- The envelope keeps every key other than `data`/`meta`/`links` intact and
its `data` value satisfies `dataOnlyFiltered`. -/
def envelopeOnlyFiltered (X Y : PyVal) : Prop :=
  Y = X ∨
  ∃ xd yd, X = .dict xd ∧ Y = .dict yd ∧
    (∀ k, k ≠ "data" → k ≠ "meta" → k ≠ "links" → dGet? yd k = dGet? xd k) ∧
    (∀ xv, dGet? xd "data" = some xv →
      ∃ yv, dGet? yd "data" = some yv ∧ dataOnlyFiltered xv yv)

/-- A value stored (or absent) under a key survives the `.copy()` call of
filters.py lines 36–38 exactly when it is a dict or a list. -/
def optCopyable : Option PyVal → Bool
  | Option.none => true
  | some (.dict _) => true
  | some (.list _) => true
  | some _ => false

/-- Concrete list envelope for exercising idempotence: one workspace item with
attributes, relationships and links, plus list-level `meta` and `links`. -/
def c3D : List (String × PyVal) :=
  [("data", .list [.dict
      [("id", .str "ws-1"), ("type", .str "workspaces"),
       ("attributes", .dict [("name", .str "alpha"),
          ("permissions", .dict [("can-update", .bool true)])]),
       ("relationships", .dict
          [("organization", .dict [("data", .str "o"),
              ("links", .dict [("related", .str "x")])]),
           ("current-run", .dict [("data", .str "r")])]),
       ("links", .dict [("self", .str "w")])]]),
   ("meta", .dict [("pagination", .dict [("current-page", .int 1),
        ("next-page", .int 2), ("total-pages", .int 3)]),
      ("status-counts", .dict [("total", .int 9), ("errored", .int 1)])]),
   ("links", .dict [("self", .str "s"), ("next", .str "n"), ("extra", .str "e")])]

/-- The filtered form of `c3D` under (WORKSPACE, LIST). -/
def c3Y : PyVal :=
  .dict [("data", .list [.dict
      [("id", .str "ws-1"), ("type", .str "workspaces"),
       ("attributes", .dict [("name", .str "alpha"),
          ("permissions", .dict [("can-update", .bool true)])]),
       ("relationships", .dict
          [("organization", .dict [("data", .str "o")]),
           ("current-run", .dict [("data", .str "r")])])]]),
   ("meta", .dict [("pagination", .dict [("current-page", .int 1),
        ("total-pages", .int 3), ("total-count", .none)]),
      ("status-counts", .dict [("total", .int 9)])]),
   ("links", .dict [("next", .str "n")])]

/-- Frame relation between a pre- and post-heap: the heap only grows, and
every pre-existing address keeps its object, except that addresses satisfying
`ex` may have their dict object rewritten to another dict. -/
def frameOK (h h' : Heap) (ex : Nat → Prop) : Prop :=
  h.length ≤ h'.length ∧
  ∀ b, b < h.length →
    h'[b]? = h[b]? ∨
      (ex b ∧ ∃ f f', h[b]? = some (.dict f) ∧ h'[b]? = some (.dict f'))

/-- The empty exception set: the heap run changes no pre-existing address. -/
def exNone : Nat → Prop := fun _ => False

/-- All reference elements of a copied `data` list either are fresh relative
to `n` or point at list objects of `h`. -/
def goodElems (items1 : List HVal) (h : Heap) : Prop :=
  ∀ v ∈ items1, ∀ b, v = HVal.ref b → h.length ≤ b ∨ ∃ l, h[b]? = some (.list l)

/-- Concrete input heap for the non-mutation witness: envelope at address 0
with a dict `data` item, nested attributes/links/meta/pagination objects. -/
def c4H : Heap :=
  [.dict [("data", .ref 1), ("meta", .ref 2)],
   .dict [("type", .str "runs"), ("id", .str "run-1"),
          ("attributes", .ref 3), ("links", .ref 4)],
   .dict [("pagination", .ref 5)],
   .dict [("status", .str "applied"), ("plan-only", .bool false)],
   .dict [("self", .str "u")],
   .dict [("current-page", .int 1), ("next-page", .int 2)]]

/-- The post-run heap: the six input objects unchanged, then the five fresh
copies made by the run. -/
def c4H1 : Heap :=
  c4H ++
  [.dict [("data", .ref 7), ("meta", .ref 8)],
   .dict [("type", .str "runs"), ("id", .str "run-1"), ("attributes", .ref 9)],
   .dict [("pagination", .ref 10)],
   .dict [("status", .str "applied"), ("plan-only", .bool false)],
   .dict [("current-page", .int 1), ("total-pages", .none), ("total-count", .none)]]

/-! ## Theorems for the claims -/

theorem bind_ok {α β : Type} (a : α) (f : α → Except PErr β) :
    (Bind.bind (Except.ok a) f) = f a := rfl

theorem bind_err {α β : Type} (e : PErr) (f : α → Except PErr β) :
    (Bind.bind (Except.error e : Except PErr α) f) = .error e := rfl

theorem bind_eq_ok {α β : Type} {e : Except PErr α} {f : α → Except PErr β} {b : β} :
    Bind.bind e f = .ok b ↔ ∃ a, e = .ok a ∧ f a = .ok b := by
  cases e with
  | ok a => rw [bind_ok]; simp
  | error err => rw [bind_err]; simp

theorem bind_pure {α β : Type} (a : α) (f : α → Except PErr β) :
    (Bind.bind (pure a : Except PErr α) f) = f a := rfl

theorem pure_eq_ok {α : Type} {a b : α} :
    (pure a : Except PErr α) = .ok b ↔ a = b := by
  constructor
  · intro h; cases h; rfl
  · intro h; rw [h]; rfl




theorem dGet?_dSet_self {α : Type} (d : List (String × α)) (k : String) (v : α) :
    dGet? (dSet d k v) k = some v := by
  induction d with
  | nil => rw [dSet, dGet?, if_pos rfl]
  | cons p rest ih =>
    obtain ⟨pk, pv⟩ := p
    rw [dSet]
    by_cases hp : pk = k
    · rw [if_pos hp, dGet?, if_pos rfl]
    · rw [if_neg hp, dGet?, if_neg hp]
      exact ih

theorem dGet?_dSet_ne {α : Type} (d : List (String × α)) (k k2 : String) (v : α)
    (h : k2 ≠ k) : dGet? (dSet d k v) k2 = dGet? d k2 := by
  induction d with
  | nil =>
    rw [dSet]
    simp [dGet?, Ne.symm h]
  | cons p rest ih =>
    obtain ⟨pk, pv⟩ := p
    rw [dSet]
    by_cases hp : pk = k
    · subst hp
      rw [if_pos rfl, dGet?, dGet?, if_neg (Ne.symm h), if_neg (Ne.symm h)]
    · rw [if_neg hp, dGet?, dGet?]
      by_cases hk2 : pk = k2
      · rw [if_pos hk2, if_pos hk2]
      · rw [if_neg hk2, if_neg hk2]
        exact ih

/-- Writing back the value a key already holds leaves the dict unchanged. -/
theorem dSet_get_same {α : Type} (d : List (String × α)) (k : String) (v : α)
    (h : dGet? d k = some v) : dSet d k v = d := by
  induction d with
  | nil => cases h
  | cons p rest ih =>
    obtain ⟨pk, pv⟩ := p
    rw [dGet?] at h
    rw [dSet]
    by_cases hp : pk = k
    · subst hp
      rw [if_pos rfl] at h
      cases h
      rw [if_pos rfl]
    · rw [if_neg hp] at h
      rw [if_neg hp, ih h]

theorem dGet?_dPop_self {α : Type} (d : List (String × α)) (k : String) :
    dGet? (dPop d k) k = Option.none := by
  induction d with
  | nil => rfl
  | cons p rest ih =>
    obtain ⟨pk, pv⟩ := p
    rw [dPop, List.filter_cons]
    by_cases hp : pk = k
    · subst hp
      simp only [ne_eq, not_true_eq_false, decide_False, Bool.false_eq_true, if_false]
      exact ih
    · simp only [ne_eq, hp, not_false_eq_true, decide_True, if_true]
      rw [dGet?, if_neg hp]
      exact ih

theorem dGet?_dPop_ne {α : Type} (d : List (String × α)) (k k2 : String)
    (h : k2 ≠ k) : dGet? (dPop d k) k2 = dGet? d k2 := by
  induction d with
  | nil => rfl
  | cons p rest ih =>
    obtain ⟨pk, pv⟩ := p
    rw [dPop, List.filter_cons]
    by_cases hp : pk = k
    · subst hp
      simp only [ne_eq, not_true_eq_false, decide_False, Bool.false_eq_true, if_false]
      rw [dGet?, if_neg (Ne.symm h)]
      exact ih
    · simp only [ne_eq, hp, not_false_eq_true, decide_True, if_true]
      rw [dGet?, dGet?]
      by_cases hk2 : pk = k2
      · rw [if_pos hk2, if_pos hk2]
      · rw [if_neg hk2, if_neg hk2]
        exact ih

theorem dContains_iff_dGet? {α : Type} (d : List (String × α)) (k : String) :
    dContains d k = true ↔ ∃ v, dGet? d k = some v := by
  induction d with
  | nil => simp [dContains, dGet?]
  | cons p rest ih =>
    obtain ⟨pk, pv⟩ := p
    rw [dContains, dGet?]
    by_cases hp : pk = k
    · simp [hp]
    · simp only [hp, decide_False, Bool.false_or, if_neg hp]
      exact ih

theorem dContains_dSet_ne {α : Type} (d : List (String × α)) (k k2 : String) (v : α)
    (h : k2 ≠ k) : dContains (dSet d k v) k2 = dContains d k2 := by
  by_cases hc : dContains d k2
  · rw [hc]
    rw [dContains_iff_dGet?] at hc ⊢
    obtain ⟨w, hw⟩ := hc
    exact ⟨w, (dGet?_dSet_ne d k k2 v h).trans hw⟩
  · simp only [Bool.not_eq_true] at hc
    rw [hc, ← Bool.not_eq_true, dContains_iff_dGet?]
    intro ⟨w, hw⟩
    rw [dGet?_dSet_ne d k k2 v h] at hw
    rw [← Bool.not_eq_true, dContains_iff_dGet?] at hc
    exact hc ⟨w, hw⟩

theorem dContains_dSet_self {α : Type} (d : List (String × α)) (k : String) (v : α) :
    dContains (dSet d k v) k = true :=
  (dContains_iff_dGet? _ _).mpr ⟨v, dGet?_dSet_self d k v⟩


/-- `_filter_item_attributes` only removes attribute entries, non-essential
relationship entries, relationship `links` sub-keys and the item's `links`;
every other item key (in particular `type` and `id`) keeps its value. -/
theorem fia_only (x : PyVal) (nt : ResourceType) (nop : OperationType) (y : PyVal)
    (h : filterItemAttributes x nt nop = .ok y) : itemOnlyFiltered x y := by
  unfold filterItemAttributes at h
  cases x with
  | str s =>
    simp only [pyContains, bind_ok] at h
    by_cases hc : substrB "attributes" s
    · simp only [hc, Bool.not_true, Bool.false_eq_true, if_false, pyGetItem,
        bind_err] at h
      cases h
    · simp only [hc, Bool.not_false, if_true] at h
      cases h
      exact Or.inl rfl
  | list l =>
    simp only [pyContains, bind_ok] at h
    by_cases hc : l.any (fun v => match v with | .str s => decide (s = "attributes") | _ => false)
    · simp only [hc, Bool.not_true, Bool.false_eq_true, if_false, pyGetItem,
        bind_err] at h
      cases h
    · simp only [hc, Bool.not_false, if_true] at h
      cases h
      exact Or.inl rfl
  | int n => simp only [pyContains, bind_err] at h; cases h
  | bool b => simp only [pyContains, bind_err] at h; cases h
  | none => simp only [pyContains, bind_err] at h; cases h
  | dict d =>
    simp only [pyContains, bind_ok] at h
    by_cases hc : dContains d "attributes"
    swap
    · simp only [hc, Bool.not_false, if_true] at h
      rw [pure_eq_ok] at h
      exact Or.inl h.symm
    · simp only [hc, Bool.not_true, Bool.false_eq_true, if_false, pyGetItem] at h
      obtain ⟨w, hw⟩ := (dContains_iff_dGet? d "attributes").mp hc
      rw [hw, bind_ok] at h
      cases w with
      | dict attrs0 =>
        dsimp only at h
        set attrs1 : List (String × PyVal) :=
          removeFields attrs0 (fieldsToRemove (configFor nt) nop) with hattrs1
        set d1 : List (String × PyVal) := dSet d "attributes" (.dict attrs1) with hd1
        by_cases hrel : dContains d1 "relationships"
        · rw [if_pos hrel] at h
          obtain ⟨w2, hw2⟩ := (dContains_iff_dGet? d1 "relationships").mp hrel
          rw [hw2] at h
          cases w2 with
          | dict xr =>
            simp only [pyCopy, Option.getD_some, bind_ok, bind_pure] at h
            rw [pure_eq_ok] at h
            subst h
            -- y = .dict (dPop (dSet d1 "relationships" (filterRelationships xr)) "links")
            set yr : List (String × PyVal) := filterRelationships xr nt nop with hyr
            set d2 : List (String × PyVal) := dSet d1 "relationships" (.dict yr) with hd2
            have hxr : dGet? d "relationships" = some (.dict xr) := by
              rw [← hw2, hd1]
              exact (dGet?_dSet_ne d "attributes" "relationships" _ (by decide)).symm
            refine Or.inr ⟨d, dPop d2 "links", rfl, rfl, ?_, ?_, ?_, ?_⟩
            · intro k hka hkr hkl
              rw [dGet?_dPop_ne _ _ _ hkl, hd2, dGet?_dSet_ne _ _ _ _ hkr, hd1,
                dGet?_dSet_ne _ _ _ _ hka]
            · refine Or.inr ⟨attrs0, attrs1, hw, ?_, List.filter_sublist attrs0⟩
              rw [dGet?_dPop_ne _ _ _ (by decide), hd2,
                dGet?_dSet_ne _ _ _ _ (by decide), hd1, dGet?_dSet_self]
            · refine Or.inr ⟨xr, yr, hxr, ?_, ?_⟩
              · rw [dGet?_dPop_ne _ _ _ (by decide), hd2, dGet?_dSet_self]
              · intro q hq
                rw [hyr] at hq
                unfold filterRelationships at hq
                rw [List.mem_map] at hq
                obtain ⟨r, hr, hqr⟩ := hq
                have hrxr : r ∈ xr := by
                  by_cases hcond : nop = OperationType.READ ∧
                      essentialTruthy (configFor nt).essential_relationships
                  · rw [if_pos hcond] at hr
                    exact List.mem_of_mem_filter hr
                  · rw [if_neg hcond] at hr
                    exact hr
                obtain ⟨rk, rv⟩ := r
                cases rv with
                | dict rd =>
                  dsimp only at hqr
                  subst hqr
                  exact ⟨.dict rd, hrxr, Or.inr ⟨rd, rfl, rfl⟩⟩
                | str s3 =>
                  dsimp only at hqr
                  subst hqr
                  exact ⟨.str s3, hrxr, Or.inl rfl⟩
                | int n3 =>
                  dsimp only at hqr
                  subst hqr
                  exact ⟨.int n3, hrxr, Or.inl rfl⟩
                | bool b3 =>
                  dsimp only at hqr
                  subst hqr
                  exact ⟨.bool b3, hrxr, Or.inl rfl⟩
                | none =>
                  dsimp only at hqr
                  subst hqr
                  exact ⟨.none, hrxr, Or.inl rfl⟩
                | list l3 =>
                  dsimp only at hqr
                  subst hqr
                  exact ⟨.list l3, hrxr, Or.inl rfl⟩
            · exact Or.inl (dGet?_dPop_self d2 "links")
          | list l2 =>
            simp only [pyCopy, Option.getD_some, bind_ok, bind_err] at h
            cases h
          | str s2 => simp only [pyCopy, Option.getD_some, bind_err] at h; cases h
          | int n2 => simp only [pyCopy, Option.getD_some, bind_err] at h; cases h
          | bool b2 => simp only [pyCopy, Option.getD_some, bind_err] at h; cases h
          | none => simp only [pyCopy, Option.getD_some, bind_err] at h; cases h
        · rw [if_neg hrel] at h
          simp only [bind_pure] at h
          rw [pure_eq_ok] at h
          subst h
          refine Or.inr ⟨d, dPop d1 "links", rfl, rfl, ?_, ?_, ?_, ?_⟩
          · intro k hka hkr hkl
            rw [dGet?_dPop_ne _ _ _ hkl, hd1, dGet?_dSet_ne _ _ _ _ hka]
          · refine Or.inr ⟨attrs0, attrs1, hw, ?_, List.filter_sublist attrs0⟩
            rw [dGet?_dPop_ne _ _ _ (by decide), hd1, dGet?_dSet_self]
          · refine Or.inl ?_
            rw [dGet?_dPop_ne _ _ _ (by decide), hd1,
              dGet?_dSet_ne _ _ _ _ (by decide)]
          · exact Or.inl (dGet?_dPop_self d1 "links")
      | str s2 => dsimp only at h; simp only [bind_pure] at h; rw [pure_eq_ok] at h; exact Or.inl h.symm
      | int n2 => dsimp only at h; simp only [bind_pure] at h; rw [pure_eq_ok] at h; exact Or.inl h.symm
      | bool b2 => dsimp only at h; simp only [bind_pure] at h; rw [pure_eq_ok] at h; exact Or.inl h.symm
      | none => dsimp only at h; simp only [bind_pure] at h; rw [pure_eq_ok] at h; exact Or.inl h.symm
      | list l2 => dsimp only at h; simp only [bind_pure] at h; rw [pure_eq_ok] at h; exact Or.inl h.symm



theorem filterItems_only (nt : ResourceType) (nop : OperationType) :
    ∀ (xs : List PyVal) (ys : List PyVal), filterItems xs nt nop = .ok ys →
      List.Forall₂ itemOnlyFiltered xs ys := by
  intro xs
  induction xs with
  | nil =>
    intro ys h
    unfold filterItems at h
    cases h
    exact List.Forall₂.nil
  | cons it rest ih =>
    intro ys h
    unfold filterItems at h
    rw [bind_eq_ok] at h
    obtain ⟨it1, hit1, h⟩ := h
    rw [bind_eq_ok] at h
    obtain ⟨rest1, hrest1, h⟩ := h
    rw [pure_eq_ok] at h
    subst h
    exact List.Forall₂.cons (fia_only it nt nop it1 hit1) (ih rest1 hrest1)

/-- `flmMeta` either leaves the envelope dict alone or only rewrites its
`meta` value. -/
theorem flmMeta_shape (d d1 : List (String × PyVal)) (h : flmMeta d = .ok d1) :
    d1 = d ∨ ∃ m2, d1 = dSet d "meta" m2 := by
  unfold flmMeta at h
  by_cases hm : dContains d "meta"
  · rw [if_pos hm] at h
    rw [bind_eq_ok] at h
    obtain ⟨m1, _, h⟩ := h
    rw [bind_eq_ok] at h
    obtain ⟨m2, _, h⟩ := h
    rw [pure_eq_ok] at h
    exact Or.inr ⟨m2, h.symm⟩
  · rw [if_neg hm, pure_eq_ok] at h
    exact Or.inl h.symm

/-- `flmLinks` either leaves the envelope dict alone or only rewrites its
`links` value. -/
theorem flmLinks_shape (d1 d2 : List (String × PyVal)) (h : flmLinks d1 = .ok d2) :
    d2 = d1 ∨ ∃ L, d2 = dSet d1 "links" (.dict L) := by
  unfold flmLinks at h
  cases hlv : dGet? d1 "links" with
  | none =>
    rw [hlv] at h
    dsimp only at h
    rw [pure_eq_ok] at h
    exact Or.inl h.symm
  | some lv =>
    rw [hlv] at h
    cases lv with
    | dict links =>
      dsimp only at h
      rw [pure_eq_ok] at h
      exact Or.inr ⟨_, h.symm⟩
    | str s2 => dsimp only at h; rw [pure_eq_ok] at h; exact Or.inl h.symm
    | int n2 => dsimp only at h; rw [pure_eq_ok] at h; exact Or.inl h.symm
    | bool b2 => dsimp only at h; rw [pure_eq_ok] at h; exact Or.inl h.symm
    | none => dsimp only at h; rw [pure_eq_ok] at h; exact Or.inl h.symm
    | list l2 => dsimp only at h; rw [pure_eq_ok] at h; exact Or.inl h.symm

/-- `_filter_list_metadata` changes only the `meta` and `links` keys of the
envelope dict. -/
theorem flm_other_keys (d d2 : List (String × PyVal))
    (h : filterListMetadata d = .ok d2) :
    ∀ k, k ≠ "meta" → k ≠ "links" → dGet? d2 k = dGet? d k := by
  intro k hkm hkl
  unfold filterListMetadata at h
  rw [bind_eq_ok] at h
  obtain ⟨d1, h1, h2⟩ := h
  have e1 : dGet? d1 k = dGet? d k := by
    rcases flmMeta_shape d d1 h1 with rfl | ⟨m2, rfl⟩
    · rfl
    · exact dGet?_dSet_ne d "meta" k m2 hkm
  rcases flmLinks_shape d1 d2 h2 with rfl | ⟨L, rfl⟩
  · exact e1
  · rw [dGet?_dSet_ne d1 "links" k _ hkl]
    exact e1

/-- C5 counterexample: the claim asserts that the path
`"state-versions/sv-abc123/outputs"` resolves to a state-version-output type
with the `state-version-outputs` pattern checked before the bare
`state-versions` pattern.  In the source table the bare `state-versions`
pattern comes first, both patterns map to `ResourceType.STATE_VERSION`, and
no enum member has a state-version-output value, so the path resolves to the
state-version type via the first (bare) pattern. -/
theorem c5_counterexample :
    detect_resource_type "state-versions/sv-abc123/outputs"
        (.dict [("data", .dict [("type", .str "state-version-outputs")])])
      = .ok ResourceType.STATE_VERSION
    ∧ PATH_PATTERNS.take 2
      = [("state-versions", ResourceType.STATE_VERSION),
         ("state-version-outputs", ResourceType.STATE_VERSION)]
    ∧ ResourceType.members.all
        (fun rt => rt.value ≠ "state-version-output"
          && rt.value ≠ "state-version-outputs") = true :=
  ⟨rfl, rfl, rfl⟩

/-- C5 (amended): resource-type detection returns the type of the first
pattern in `PATH_PATTERNS` whose substring matches the path, and the body is
never consulted in that case; the path `"state-versions/sv-abc123/outputs"`
resolves to the state-version type (via the bare `state-versions` pattern,
which precedes `state-version-outputs` in the table; both map to the
state-version type). -/
theorem c5_path_detection :
    (∀ body, detect_resource_type "state-versions/sv-abc123/outputs" body
      = .ok ResourceType.STATE_VERSION)
    ∧ (∀ path body p, PATH_PATTERNS.find? (fun q => substrB q.1 path) = some p →
        detect_resource_type path body = .ok p.2) := by
  constructor
  · intro body; rfl
  · intro path body p h
    unfold detect_resource_type
    rw [h]

/-- C5 witness: the general first-match clause evaluated at concrete inputs. -/
theorem c5_path_detection_witness :
    detect_resource_type "state-versions/sv-abc123/outputs" PyVal.none
      = .ok ResourceType.STATE_VERSION
    ∧ detect_resource_type "organizations/acme/workspaces" (.int 3)
      = .ok ResourceType.WORKSPACE :=
  ⟨c5_path_detection.1 PyVal.none,
   c5_path_detection.2 "organizations/acme/workspaces" (.int 3)
     ("workspaces", ResourceType.WORKSPACE) rfl⟩

/-- C8: evaluating the parameter codec at the failing input.  The source
`query_params` has no nested special case for `filter_workspace_name` /
`filter_organization_name`: the generic `filter_<x>` rule applies and emits
the single-level keys `filter[workspace-name]` / `filter[organization-name]`
instead of `filter[workspace][name]` / `filter[organization][name]`. -/
theorem c8_codec_no_nested_special_case :
    query_params [("filter_workspace_name", .str "ws1"),
                  ("filter_organization_name", .str "org1")]
      = [("filter[workspace-name]", "ws1"), ("filter[organization-name]", "org1")] :=
  rfl

/-- C6 counterexample: an invalid operation-kind string makes
`filter_response` raise `ValueError` to its caller instead of returning the
original envelope — there is no catch-all inside `filter_response`. -/
theorem c6_counterexample :
    filter_response (.dict [("data", .dict [])]) (.enum .WORKSPACE) (.str "bogus")
      = .error (.valueError "Invalid operation_type: bogus") :=
  rfl

/-- C6 (amended): `filter_response` performs hard input validation and has no
catch-all: for every dict envelope with a `data` key whose `meta`/`links`
copies succeed, an invalid operation-kind string raises
`ValueError("Invalid operation_type: ...")` to the caller instead of being
caught and recovered. -/
theorem c6_invalid_op_propagates (d : List (String × PyVal)) (rt : RTypeArg)
    (s : String) (e : PErr)
    (hdata : dContains d "data" = true)
    (hcopy : copyMetaLinks d = .ok ())
    (hs : OperationType.ofString s = .error e) :
    filter_response (.dict d) rt (.str s)
      = .error (.valueError ("Invalid operation_type: " ++ s)) := by
  unfold filter_response
  dsimp only
  rw [hdata]
  simp only [Bool.not_true, Bool.false_eq_true, if_false]
  rw [hcopy, bind_ok]
  have hnorm : normalizeOperationType (.str s)
      = .error (.valueError ("Invalid operation_type: " ++ s)) := by
    unfold normalizeOperationType
    dsimp only
    rw [hs]
  rw [hnorm, bind_err]

/-- C6 witness: the ValueError propagates on a concrete envelope and invalid
operation kind. -/
theorem c6_invalid_op_propagates_witness :
    filter_response (.dict [("data", .list [])]) (.enum .RUN) (.str "write")
      = .error (.valueError "Invalid operation_type: write") :=
  c6_invalid_op_propagates [("data", .list [])] (.enum .RUN) "write"
    (.valueError "write is not a valid OperationType") rfl rfl rfl

/-- C9 counterexample: with bearer token `"RED"` occurring in the exception
text, the redacted error message still contains the token substring, because
the replacement text `"[REDACTED]"` itself contains `"RED"`. -/
theorem c9_counterexample :
    substrB "RED" "boom RED boom" = true
    ∧ apiRequestErrorMessage "RED" "boom RED boom" = "Request error: boom [REDACTED] boom"
    ∧ substrB "RED" (apiRequestErrorMessage "RED" "boom RED boom") = true :=
  ⟨rfl, rfl, rfl⟩

theorem prefix_append_split {α : Type} {l a b : List α} (h : l <+: a ++ b) :
    l <+: a ∨ ∃ l2, l = a ++ l2 ∧ l2 <+: b := by
  induction a generalizing l with
  | nil => exact Or.inr ⟨l, by simpa using h⟩
  | cons c a2 ih =>
    match l with
    | [] => exact Or.inl List.nil_prefix
    | x :: l2 =>
      rw [List.cons_append, List.cons_prefix_cons] at h
      obtain ⟨rfl, h2⟩ := h
      rcases ih h2 with h3 | ⟨l3, rfl, h4⟩
      · exact Or.inl (List.cons_prefix_cons.mpr ⟨rfl, h3⟩)
      · exact Or.inr ⟨l3, rfl, h4⟩

theorem infix_append_split {α : Type} {l a b : List α} (h : l <:+: a ++ b) :
    l <:+: a ∨ l <:+: b ∨
      ∃ l1 l2, l = l1 ++ l2 ∧ l1 ≠ [] ∧ l2 ≠ [] ∧ l1 <:+ a ∧ l2 <+: b := by
  induction a generalizing l with
  | nil => exact Or.inr (Or.inl (by simpa using h))
  | cons c a2 ih =>
    rw [List.cons_append, List.infix_cons_iff] at h
    rcases h with h | h
    · rw [← List.cons_append] at h
      rcases prefix_append_split h with h2 | ⟨l2, rfl, h3⟩
      · exact Or.inl h2.isInfix
      · by_cases hl2 : l2 = []
        · subst hl2
          exact Or.inl (by simp)
        · exact Or.inr (Or.inr ⟨c :: a2, l2, rfl, by simp, hl2,
            List.suffix_refl _, h3⟩)
    · rcases ih h with h2 | h2 | ⟨l1, l2, rfl, h3, h4, h5, h6⟩
      · exact Or.inl (h2.trans (List.infix_cons_iff.mpr (Or.inr (List.infix_refl a2))))
      · exact Or.inr (Or.inl h2)
      · exact Or.inr (Or.inr ⟨l1, l2, rfl, h3, h4, h5.trans (List.suffix_cons c a2), h6⟩)

theorem mem_of_suffix_of_ne_nil {α : Type} {l1 l : List α} {x : α}
    (h : l1 <:+ l) (hne : l1 ≠ []) (hrev : l.reverse = x :: l.reverse.tail) :
    x ∈ l1 := by
  have h2 : l1.reverse <+: l.reverse := List.reverse_prefix.mpr h
  cases hl1 : l1.reverse with
  | nil =>
    have : l1 = [] := by
      have h3 := congrArg List.reverse hl1
      rw [List.reverse_reverse] at h3
      simpa using h3
    exact absurd this hne
  | cons y r2 =>
    rw [hl1, hrev, List.cons_prefix_cons] at h2
    have hy : y ∈ l1 := by
      rw [← List.mem_reverse, hl1]
      exact List.mem_cons_self y r2
    rw [h2.1] at hy
    exact hy



/-- Tokens without brackets that are not inside `REDACTED` do not occur in
the replacement text. -/
theorem not_infix_replacement (t : List Char) (htne : t ≠ [])
    (ht1 : '[' ∉ t) (ht2 : ']' ∉ t)
    (ht3 : ¬ t <:+: "REDACTED".toList) :
    ¬ t <:+: "[REDACTED]".toList := by
  intro h
  have hR : ("[REDACTED]".toList : List Char)
      = '[' :: ("REDACTED".toList ++ [']']) := by decide
  rw [hR, List.infix_cons_iff] at h
  rcases h with h | h
  · match t, htne with
    | x :: t2, _ =>
      rw [List.cons_prefix_cons] at h
      exact ht1 (h.1 ▸ List.mem_cons_self x t2)
  · rcases infix_append_split h with h2 | h2 | ⟨l1, l2, heq, hl1, hl2, hs, hp⟩
    · exact ht3 h2
    · have : ']' ∈ t := by
        have hsub := h2.subset
        match t, htne with
        | x :: t2, _ =>
          have := hsub (List.mem_cons_self x t2)
          simp at this
          simp [this]
      exact ht2 this
    · have h3 : ']' ∈ l2 := by
        match l2, hl2 with
        | y :: l2b, _ =>
          rcases List.cons_prefix_cons.mp hp with ⟨rfl, _⟩
          exact List.mem_cons_self _ _
      exact ht2 (heq ▸ List.mem_append_right l1 h3)

/-- Prefix tracking through `replaceFuel`: a non-empty suffix of the pattern
that prefixes the replaced string already prefixes the original. -/
theorem replace_prefix_track (t : List Char) (ht1 : '[' ∉ t) :
    ∀ fuel s u, s.length ≤ fuel → u ≠ [] → u <:+ t →
      u <+: replaceFuel fuel s t "[REDACTED]".toList → u <+: s := by
  intro fuel
  induction fuel with
  | zero =>
    intro s u hlen hne _ hpre
    have hs : s = [] := List.eq_nil_of_length_eq_zero (Nat.le_zero.mp hlen)
    subst hs
    simp only [replaceFuel] at hpre
    exact absurd (List.prefix_nil.mp hpre) hne
  | succ fuel ih =>
    intro s u hlen hne hsuf hpre
    match s with
    | [] =>
      simp only [replaceFuel] at hpre
      exact absurd (List.prefix_nil.mp hpre) hne
    | c :: s2 =>
      simp only [replaceFuel] at hpre
      by_cases hc : t ≠ [] ∧ t <+: (c :: s2)
      · rw [if_pos hc] at hpre
        exfalso
        rcases prefix_append_split hpre with h2 | ⟨u2, rfl, _⟩
        · match u, hne with
          | x :: u2, _ =>
            have hR : ("[REDACTED]".toList : List Char)
                = '[' :: "REDACTED]".toList := by decide
            rw [hR, List.cons_prefix_cons] at h2
            exact ht1 (hsuf.subset (h2.1 ▸ List.mem_cons_self x u2))
        · have : '[' ∈ "[REDACTED]".toList := by decide
          exact ht1 (hsuf.subset (List.mem_append_left _ this))
      · rw [if_neg hc] at hpre
        match u, hne with
        | x :: u2, _ =>
          rcases List.cons_prefix_cons.mp hpre with ⟨rfl, h2⟩
          by_cases hu2 : u2 = []
          · subst hu2
            exact List.cons_prefix_cons.mpr ⟨rfl, List.nil_prefix⟩
          · have hsuf2 : u2 <:+ t := (List.suffix_cons x u2).trans hsuf
            have hlen2 : s2.length ≤ fuel := by
              simp only [List.length_cons] at hlen
              omega
            exact List.cons_prefix_cons.mpr ⟨rfl, ih s2 u2 hlen2 hu2 hsuf2 h2⟩



/-- No occurrence of a bracket-free, non-`REDACTED` token survives
`str.replace(token, "[REDACTED]")`. -/
theorem replace_no_infix (t : List Char) (htne : t ≠ []) (ht1 : '[' ∉ t)
    (ht2 : ']' ∉ t) (ht3 : ¬ t <:+: "REDACTED".toList) :
    ∀ fuel s, s.length ≤ fuel →
      ¬ t <:+: replaceFuel fuel s t "[REDACTED]".toList := by
  intro fuel
  induction fuel with
  | zero =>
    intro s hlen hinf
    have hs : s = [] := List.eq_nil_of_length_eq_zero (Nat.le_zero.mp hlen)
    subst hs
    simp only [replaceFuel] at hinf
    exact htne (List.infix_nil.mp hinf)
  | succ fuel ih =>
    intro s hlen hinf
    match s with
    | [] =>
      simp only [replaceFuel] at hinf
      exact htne (List.infix_nil.mp hinf)
    | c :: s2 =>
      simp only [replaceFuel] at hinf
      have hlen2 : s2.length ≤ fuel := by
        simp only [List.length_cons] at hlen
        omega
      by_cases hc : t ≠ [] ∧ t <+: (c :: s2)
      · rw [if_pos hc] at hinf
        rcases infix_append_split hinf with h | h | ⟨l1, l2, heq, hl1, hl2, hsufR, _⟩
        · exact not_infix_replacement t htne ht1 ht2 ht3 h
        · have hdlen : ((c :: s2).drop t.length).length ≤ fuel := by
            have : 1 ≤ t.length := List.length_pos.mpr hc.1
            simp only [List.length_drop, List.length_cons]
            omega
          exact ih _ hdlen h
        · have hrev : ("[REDACTED]".toList : List Char).reverse
              = ']' :: ("[REDACTED]".toList : List Char).reverse.tail := by decide
          have : ']' ∈ l1 := mem_of_suffix_of_ne_nil hsufR hl1 hrev
          exact ht2 (heq ▸ List.mem_append_left l2 this)
      · rw [if_neg hc] at hinf
        rcases List.infix_cons_iff.mp hinf with h | h
        · have hpre : t <+: replaceFuel (fuel + 1) (c :: s2) t "[REDACTED]".toList := by
            simp only [replaceFuel]
            rw [if_neg hc]
            exact h
          have := replace_prefix_track t ht1 (fuel + 1) (c :: s2) t hlen htne
            (List.suffix_refl t) hpre
          exact hc ⟨htne, this⟩
        · exact ih s2 hlen2 h

/-- C9 (amended): every occurrence of the token is replaced, and for tokens
that cannot overlap the replacement or the static message prefix (non-empty,
no bracket or space characters, not a substring of `REDACTED` or of
`Request error: `), the returned error message never contains the token. -/
theorem c9_redaction_amended (token msg : String)
    (h0 : token ≠ "")
    (h1 : '[' ∉ token.toList) (h2 : ']' ∉ token.toList) (h3 : ' ' ∉ token.toList)
    (h4 : ¬ token.toList <:+: "REDACTED".toList)
    (h5 : ¬ token.toList <:+: "Request error: ".toList)
    (hocc : substrB token msg = true) :
    apiRequestErrorMessage token msg
        = "Request error: " ++ strReplace msg token "[REDACTED]"
    ∧ substrB token (apiRequestErrorMessage token msg) = false := by
  have hmsg : apiRequestErrorMessage token msg
      = "Request error: " ++ strReplace msg token "[REDACTED]" := by
    unfold apiRequestErrorMessage
    rw [if_pos ⟨h0, hocc⟩]
  refine ⟨hmsg, ?_⟩
  rw [hmsg]
  rw [substrB, decide_eq_false_iff_not]
  intro hinf
  have htoklist : ("Request error: " ++ strReplace msg token "[REDACTED]").toList
      = "Request error: ".toList ++ (strReplace msg token "[REDACTED]").toList := by
    simp [String.toList, String.data_append]
  rw [htoklist] at hinf
  have htne : token.toList ≠ [] := by
    intro hh
    exact h0 (by
      have := congrArg (fun l => (⟨l⟩ : String)) hh
      simpa using this)
  have hrepl : (strReplace msg token "[REDACTED]").toList
      = replaceFuel msg.toList.length msg.toList token.toList "[REDACTED]".toList := rfl
  rcases infix_append_split hinf with h | h | ⟨l1, l2, heq, hl1, hl2, hsufP, _⟩
  · exact h5 h
  · rw [hrepl] at h
    exact replace_no_infix token.toList htne h1 h2 h4 msg.toList.length msg.toList
      (Nat.le_refl _) h
  · have hrev : ("Request error: ".toList : List Char).reverse
        = ' ' :: ("Request error: ".toList : List Char).reverse.tail := by decide
    have : ' ' ∈ l1 := mem_of_suffix_of_ne_nil hsufP hl1 hrev
    exact h3 (heq ▸ List.mem_append_left l2 this)

/-- C9 witness: a realistic token is fully redacted and absent from the
returned error message. -/
theorem c9_redaction_amended_witness :
    apiRequestErrorMessage "secret123" "connect failed: secret123"
      = "Request error: connect failed: [REDACTED]"
    ∧ substrB "secret123" (apiRequestErrorMessage "secret123" "connect failed: secret123")
      = false :=
  ⟨(c9_redaction_amended "secret123" "connect failed: secret123" (by decide) (by decide)
      (by decide) (by decide) (by decide) (by decide) (by decide)).1.trans rfl,
   (c9_redaction_amended "secret123" "connect failed: secret123" (by decide) (by decide)
      (by decide) (by decide) (by decide) (by decide) (by decide)).2⟩

/-- C7 counterexample: the claim quantifies over every resource item, but an
item without an `attributes` key is returned unchanged by
`_filter_item_attributes` (early return), so a read keeps all of its
relationships (links included) instead of exactly the essential one. -/
theorem c7_counterexample :
    filter_response (.dict [("data", .dict
        [("relationships", .dict
          [("organization", .dict [("data", .none), ("links", .dict [])]),
           ("b", .dict []), ("c", .dict [])])])])
      (.enum .PROJECT) (.enum .READ)
      = .ok (.dict [("data", .dict
          [("relationships", .dict
            [("organization", .dict [("data", .none), ("links", .dict [])]),
             ("b", .dict []), ("c", .dict [])])])]) :=
  rfl

/-- C7 (amended): for every resource item carrying a dict `attributes` field
and relationships `{a, b, c}` under a policy whose essential set is `{a}`,
READ filtering leaves exactly relationship `a` (links-stripped), while LIST
and MANAGE filtering keep all three relationships, each with only its
`links` sub-key stripped. -/
theorem c7_essential_relationships_read_only (rt : ResourceType) (a b c : String)
    (tyv idv : PyVal) (attrs ra rb rc : List (String × PyVal))
    (hess : (configFor rt).essential_relationships = some [a])
    (hba : b ≠ a) (hca : c ≠ a) :
    (filter_response (.dict [("data", .dict
        [("type", tyv), ("id", idv), ("attributes", .dict attrs),
         ("relationships", .dict [(a, .dict ra), (b, .dict rb), (c, .dict rc)])])])
      (.enum rt) (.enum .READ)
      = .ok (.dict [("data", .dict
          [("type", tyv), ("id", idv),
           ("attributes", .dict (removeFields attrs (fieldsToRemove (configFor rt) .READ))),
           ("relationships", .dict [(a, .dict (dPop ra "links"))])])]))
    ∧ (filter_response (.dict [("data", .dict
        [("type", tyv), ("id", idv), ("attributes", .dict attrs),
         ("relationships", .dict [(a, .dict ra), (b, .dict rb), (c, .dict rc)])])])
      (.enum rt) (.enum .LIST)
      = .ok (.dict [("data", .dict
          [("type", tyv), ("id", idv),
           ("attributes", .dict (removeFields attrs (fieldsToRemove (configFor rt) .LIST))),
           ("relationships", .dict [(a, .dict (dPop ra "links")),
             (b, .dict (dPop rb "links")), (c, .dict (dPop rc "links"))])])]))
    ∧ (filter_response (.dict [("data", .dict
        [("type", tyv), ("id", idv), ("attributes", .dict attrs),
         ("relationships", .dict [(a, .dict ra), (b, .dict rb), (c, .dict rc)])])])
      (.enum rt) (.enum .MANAGE)
      = .ok (.dict [("data", .dict
          [("type", tyv), ("id", idv),
           ("attributes", .dict (removeFields attrs (fieldsToRemove (configFor rt) .MANAGE))),
           ("relationships", .dict [(a, .dict (dPop ra "links")),
             (b, .dict (dPop rb "links")), (c, .dict (dPop rc "links"))])])])) := by
  refine ⟨?_, ?_, ?_⟩ <;>
    simp [filter_response, copyMetaLinks, dContains, dGet?, dSet, pyContains,
          pyGetItem, filterItemAttributes, filterRelationships, pyCopy,
          normalizeOperationType, normalizeResourceType, hess, essentialTruthy,
          bind_ok, dPop, filterListMetadata, flmMeta, flmLinks, List.contains_cons, hba, hca]

/-- C7 witness: the PROJECT policy (essential set `{organization}`) at a
concrete three-relationship item. -/
theorem c7_essential_relationships_read_only_witness :
    (filter_response (.dict [("data", .dict
        [("type", .str "projects"), ("id", .str "prj-1"),
         ("attributes", .dict [("name", .str "p")]),
         ("relationships", .dict
           [("organization", .dict [("data", .none), ("links", .dict [])]),
            ("xrel", .dict [("data", .none)]), ("yrel", .dict [("links", .int 1)])])])])
      (.enum .PROJECT) (.enum .READ)
      = .ok (.dict [("data", .dict
          [("type", .str "projects"), ("id", .str "prj-1"),
           ("attributes", .dict [("name", .str "p")]),
           ("relationships", .dict [("organization", .dict [("data", .none)])])])]))
    ∧ (filter_response (.dict [("data", .dict
        [("type", .str "projects"), ("id", .str "prj-1"),
         ("attributes", .dict [("name", .str "p")]),
         ("relationships", .dict
           [("organization", .dict [("data", .none), ("links", .dict [])]),
            ("xrel", .dict [("data", .none)]), ("yrel", .dict [("links", .int 1)])])])])
      (.enum .PROJECT) (.enum .LIST)
      = .ok (.dict [("data", .dict
          [("type", .str "projects"), ("id", .str "prj-1"),
           ("attributes", .dict [("name", .str "p")]),
           ("relationships", .dict
             [("organization", .dict [("data", .none)]),
              ("xrel", .dict [("data", .none)]), ("yrel", .dict [])])])])) := by
  have h := c7_essential_relationships_read_only .PROJECT "organization" "xrel" "yrel"
    (.str "projects") (.str "prj-1") [("name", .str "p")]
    [("data", .none), ("links", .dict [])] [("data", .none)] [("links", .int 1)]
    rfl (by decide) (by decide)
  exact ⟨h.1, h.2.1⟩

/-- C10: filtering preserves resource identity — for every envelope, resource
type and operation kind on which `filter_response` succeeds, no item's
top-level `type`/`id` (or any key besides `attributes`/`relationships`/
`links`) is removed or altered, attributes only lose entries, relationships
only lose entries or their `links` sub-key, and at the envelope level only
`data` is replaced (by the filtered items) and `meta`/`links` rewritten. -/
theorem c10_filter_preserves_identity (X : PyVal) (t : RTypeArg) (op : OpArg) (Y : PyVal)
    (h : filter_response X t op = .ok Y) : envelopeOnlyFiltered X Y := by
  unfold filter_response at h
  cases X with
  | dict d =>
    dsimp only at h
    by_cases hdata : dContains d "data"
    · simp only [hdata, Bool.not_true, Bool.false_eq_true, if_false] at h
      rw [bind_eq_ok] at h
      obtain ⟨u0, hcopy, h⟩ := h
      rw [bind_eq_ok] at h
      obtain ⟨nop, hnop, h⟩ := h
      obtain ⟨xv, hxv⟩ := (dContains_iff_dGet? d "data").mp hdata
      rw [hxv] at h
      simp only [Option.getD_some] at h
      have tail : ∀ (d1 : List (String × PyVal)),
          (if nop = OperationType.LIST then
            Bind.bind (filterListMetadata d1) (fun y => pure (PyVal.dict y))
          else Bind.bind (pure d1) (fun y => pure (PyVal.dict y)) : Except PErr PyVal)
            = .ok Y →
          ∃ d2, Y = .dict d2 ∧ ∀ k, k ≠ "meta" → k ≠ "links" →
            dGet? d2 k = dGet? d1 k := by
        intro d1 htail
        by_cases hop : nop = OperationType.LIST
        · rw [if_pos hop, bind_eq_ok] at htail
          obtain ⟨d2, hflm, hY⟩ := htail
          rw [pure_eq_ok] at hY
          exact ⟨d2, hY.symm, flm_other_keys d1 d2 hflm⟩
        · rw [if_neg hop, bind_pure, pure_eq_ok] at htail
          exact ⟨d1, htail.symm, fun k _ _ => rfl⟩
      cases xv with
      | list items =>
        dsimp only at h
        rw [bind_eq_ok] at h
        obtain ⟨items1, hitems, h⟩ := h
        obtain ⟨d2, hY, hkeys⟩ := tail _ h
        subst hY
        refine Or.inr ⟨d, d2, rfl, rfl, ?_, ?_⟩
        · intro k hkd hkm hkl
          rw [hkeys k hkm hkl, dGet?_dSet_ne d "data" k _ hkd]
        · intro xv' hxv'
          rw [hxv] at hxv'
          cases hxv'
          refine ⟨.list items1, ?_, ?_⟩
          · rw [hkeys "data" (by decide) (by decide), dGet?_dSet_self]
          · exact ⟨items1, rfl, filterItems_only _ _ items items1 hitems⟩
      | str s2 =>
        dsimp only at h
        rw [bind_eq_ok] at h
        obtain ⟨v1, hv1, h⟩ := h
        obtain ⟨d2, hY, hkeys⟩ := tail _ h
        subst hY
        refine Or.inr ⟨d, d2, rfl, rfl, ?_, ?_⟩
        · intro k hkd hkm hkl
          rw [hkeys k hkm hkl, dGet?_dSet_ne d "data" k _ hkd]
        · intro xv' hxv'
          rw [hxv] at hxv'
          cases hxv'
          refine ⟨v1, ?_, ?_⟩
          · rw [hkeys "data" (by decide) (by decide), dGet?_dSet_self]
          · exact fia_only _ _ _ _ hv1
      | int n2 =>
        dsimp only at h
        rw [bind_eq_ok] at h
        obtain ⟨v1, hv1, h⟩ := h
        obtain ⟨d2, hY, hkeys⟩ := tail _ h
        subst hY
        refine Or.inr ⟨d, d2, rfl, rfl, ?_, ?_⟩
        · intro k hkd hkm hkl
          rw [hkeys k hkm hkl, dGet?_dSet_ne d "data" k _ hkd]
        · intro xv' hxv'
          rw [hxv] at hxv'
          cases hxv'
          refine ⟨v1, ?_, ?_⟩
          · rw [hkeys "data" (by decide) (by decide), dGet?_dSet_self]
          · exact fia_only _ _ _ _ hv1
      | bool b2 =>
        dsimp only at h
        rw [bind_eq_ok] at h
        obtain ⟨v1, hv1, h⟩ := h
        obtain ⟨d2, hY, hkeys⟩ := tail _ h
        subst hY
        refine Or.inr ⟨d, d2, rfl, rfl, ?_, ?_⟩
        · intro k hkd hkm hkl
          rw [hkeys k hkm hkl, dGet?_dSet_ne d "data" k _ hkd]
        · intro xv' hxv'
          rw [hxv] at hxv'
          cases hxv'
          refine ⟨v1, ?_, ?_⟩
          · rw [hkeys "data" (by decide) (by decide), dGet?_dSet_self]
          · exact fia_only _ _ _ _ hv1
      | none =>
        dsimp only at h
        rw [bind_eq_ok] at h
        obtain ⟨v1, hv1, h⟩ := h
        obtain ⟨d2, hY, hkeys⟩ := tail _ h
        subst hY
        refine Or.inr ⟨d, d2, rfl, rfl, ?_, ?_⟩
        · intro k hkd hkm hkl
          rw [hkeys k hkm hkl, dGet?_dSet_ne d "data" k _ hkd]
        · intro xv' hxv'
          rw [hxv] at hxv'
          cases hxv'
          refine ⟨v1, ?_, ?_⟩
          · rw [hkeys "data" (by decide) (by decide), dGet?_dSet_self]
          · exact fia_only _ _ _ _ hv1
      | dict xd =>
        dsimp only at h
        rw [bind_eq_ok] at h
        obtain ⟨v1, hv1, h⟩ := h
        obtain ⟨d2, hY, hkeys⟩ := tail _ h
        subst hY
        refine Or.inr ⟨d, d2, rfl, rfl, ?_, ?_⟩
        · intro k hkd hkm hkl
          rw [hkeys k hkm hkl, dGet?_dSet_ne d "data" k _ hkd]
        · intro xv' hxv'
          rw [hxv] at hxv'
          cases hxv'
          refine ⟨v1, ?_, ?_⟩
          · rw [hkeys "data" (by decide) (by decide), dGet?_dSet_self]
          · exact fia_only _ _ _ _ hv1
    · simp only [hdata, Bool.not_false, if_true] at h
      cases h
      exact Or.inl rfl
  | str s => cases h; exact Or.inl rfl
  | int n => cases h; exact Or.inl rfl
  | bool b => cases h; exact Or.inl rfl
  | none => cases h; exact Or.inl rfl
  | list l => cases h; exact Or.inl rfl


/-- C10 witness: a concrete run-read envelope keeps `type`, `id` and the
extra top-level key intact, losing only the item's `links`. -/
theorem c10_filter_preserves_identity_witness :
    envelopeOnlyFiltered
      (.dict [("data", .dict [("type", .str "runs"), ("id", .str "run-9"),
                ("attributes", .dict [("status", .str "applied")]),
                ("links", .dict [("self", .str "u")])]),
              ("jsonapi", .str "1.0")])
      (.dict [("data", .dict [("type", .str "runs"), ("id", .str "run-9"),
                ("attributes", .dict [("status", .str "applied")])]),
              ("jsonapi", .str "1.0")]) :=
  c10_filter_preserves_identity _ (.enum .RUN) (.enum .READ) _ rfl

/-- C2: on a 301/302/307/308 first response, a missing `Location` header
yields exactly the redirect-error mapping with a single issued request (no
follow-up network call); a present `Location` header yields exactly two
issued requests, the second a GET to that URL carrying the same headers —
hence an identical `Authorization` header — as the first. -/
theorem c2_redirect_behavior (net : Nat → HttpResponse) (path method token : String)
    (is_abs a_text f_raw r_env : Bool)
    (htok : token ≠ "")
    (hst : (net 0).status = 301 ∨ (net 0).status = 302 ∨
           (net 0).status = 307 ∨ (net 0).status = 308) :
    (lookupHeader (net 0).headers "Location" = Option.none →
      api_request_spec net path method token is_abs a_text f_raw r_env
        = (.dict [("error", .str "Redirect received, but no Location header provided.")],
           [⟨if is_abs then path else TERRAFORM_CLOUD_API_URL ++ "/" ++ path, method,
             [("Authorization", "Bearer " ++ token),
              ("Content-Type", "application/vnd.api+json")]⟩]))
    ∧ (∀ loc, lookupHeader (net 0).headers "Location" = some loc →
        (api_request_spec net path method token is_abs a_text f_raw r_env).2
          = [⟨if is_abs then path else TERRAFORM_CLOUD_API_URL ++ "/" ++ path, method,
              [("Authorization", "Bearer " ++ token),
               ("Content-Type", "application/vnd.api+json")]⟩,
             ⟨loc, "GET",
              [("Authorization", "Bearer " ++ token),
               ("Content-Type", "application/vnd.api+json")]⟩]) := by
  constructor
  · intro hloc
    unfold api_request_spec
    rw [if_neg htok, if_pos hst, hloc]
  · intro loc hloc
    unfold api_request_spec
    rw [if_neg htok, if_pos hst, hloc]

/-- C2 witness: both redirect branches at concrete inputs — a 302 with no
`Location` produces exactly the error dict and one request; a 307 with a
`Location` produces two requests, the second a GET to the target with the
same (bearer-carrying) headers. -/
theorem c2_redirect_behavior_witness :
    api_request_spec
        (fun _ => ⟨302, [], Option.none, ""⟩) "plans/plan-1/json-output" "GET" "tok"
        false false false false
      = (.dict [("error", .str "Redirect received, but no Location header provided.")],
         [⟨TERRAFORM_CLOUD_API_URL ++ "/" ++ "plans/plan-1/json-output", "GET",
           [("Authorization", "Bearer " ++ "tok"),
            ("Content-Type", "application/vnd.api+json")]⟩])
    ∧ (api_request_spec
        (fun n => if n = 0 then ⟨307, [("Location", "https://archivist.example/signed")],
                                Option.none, ""⟩
                  else ⟨200, [], some (.dict []), ""⟩)
        "plans/plan-1/json-output" "GET" "tok" false false false false).2
      = [⟨TERRAFORM_CLOUD_API_URL ++ "/" ++ "plans/plan-1/json-output", "GET",
          [("Authorization", "Bearer " ++ "tok"),
           ("Content-Type", "application/vnd.api+json")]⟩,
         ⟨"https://archivist.example/signed", "GET",
          [("Authorization", "Bearer " ++ "tok"),
           ("Content-Type", "application/vnd.api+json")]⟩] :=
  ⟨(c2_redirect_behavior _ "plans/plan-1/json-output" "GET" "tok" false false false false
      (by decide) (Or.inr (Or.inl rfl))).1 rfl,
   (c2_redirect_behavior _ "plans/plan-1/json-output" "GET" "tok" false false false false
      (by decide) (Or.inr (Or.inr (Or.inl rfl)))).2
     "https://archivist.example/signed" rfl⟩

/-- C1: for a successful (2xx, non-204) JSON first response on a
non-excluded path/method with raw mode off, the transport returns exactly
the decoded (object-wrapped) body passed through the Response Filtering
Engine — `filter_response` at the detected resource type and operation
kind — rather than the unfiltered body. -/
theorem c1_success_body_is_filtered (net : Nat → HttpResponse)
    (path method token : String) (is_abs : Bool) (v y : PyVal) (rt : ResourceType)
    (htok : token ≠ "")
    (h2xx : 200 ≤ (net 0).status ∧ (net 0).status < 300)
    (h204 : (net 0).status ≠ 204)
    (hjson : (net 0).jsonBody = some v)
    (hexcl : should_filter_response path method = true)
    (hdet : detect_resource_type path (wrapNonDict v) = .ok rt)
    (hfil : filter_response (wrapNonDict v) (.enum rt)
        (.enum (detect_operation_type path method)) = .ok y) :
    (api_request_spec net path method token is_abs false false false).1 = y := by
  have hnr : ¬((net 0).status = 301 ∨ (net 0).status = 302 ∨
      (net 0).status = 307 ∨ (net 0).status = 308) := by omega
  unfold api_request_spec
  rw [if_neg htok, if_neg hnr]
  unfold processResponseSpec
  rw [if_neg (by simp : ¬(false = true))]
  rw [if_neg h204, if_pos h2xx, hjson]
  dsimp only
  rw [hexcl]
  simp only [Bool.or_false, Bool.not_true, Bool.false_or]
  rw [if_neg (by simp : ¬((false : Bool) = true))]
  unfold applyFilterEngineSpec
  rw [hdet]
  dsimp only
  rw [hfil]

/-- C1 witness: a 200 workspace-read response is returned filtered — the
statistics field and the non-essential relationship are gone and the
relationship/item links are stripped. -/
theorem c1_success_body_is_filtered_witness :
    (api_request_spec
        (fun _ => ⟨200, [],
          some (.dict [("data", .dict
            [("type", .str "workspaces"), ("id", .str "ws-1"),
             ("attributes", .dict [("name", .str "w"),
                ("apply-duration-average", .int 5),
                ("permissions", .dict [("can-update", .bool true)])]),
             ("relationships", .dict
               [("organization", .dict [("data", .none),
                  ("links", .dict [("related", .str "x")])]),
                ("current-run", .dict [("data", .none)]),
                ("outputs", .dict [])]),
             ("links", .dict [("self", .str "s")])])]), ""⟩)
        "workspaces/ws-1" "GET" "tok" false false false false).1
      = .dict [("data", .dict
          [("type", .str "workspaces"), ("id", .str "ws-1"),
           ("attributes", .dict [("name", .str "w"),
              ("permissions", .dict [("can-update", .bool true)])]),
           ("relationships", .dict
             [("organization", .dict [("data", .none)]),
              ("current-run", .dict [("data", .none)])])])] :=
  c1_success_body_is_filtered _ "workspaces/ws-1" "GET" "tok" false _ _ .WORKSPACE
    (by decide) (by constructor <;> decide) (by decide) rfl rfl rfl rfl



theorem dContains_dPop_self {α : Type} (d : List (String × α)) (k : String) :
    dContains (dPop d k) k = false := by
  induction d with
  | nil => rfl
  | cons p rest ih =>
    obtain ⟨pk, pv⟩ := p
    rw [dPop, List.filter_cons]
    by_cases hp : pk = k
    · simp only [ne_eq, hp, not_true_eq_false, decide_False, Bool.false_eq_true, if_false]
      exact ih
    · simp only [ne_eq, hp, not_false_eq_true, decide_True, if_true]
      rw [dContains]
      simp only [hp, decide_False, Bool.false_or]
      exact ih

theorem dContains_dPop_ne {α : Type} (d : List (String × α)) (k k2 : String)
    (h : k2 ≠ k) : dContains (dPop d k) k2 = dContains d k2 := by
  by_cases hc : dContains d k2
  · rw [hc]
    rw [dContains_iff_dGet?] at hc ⊢
    obtain ⟨w, hw⟩ := hc
    exact ⟨w, (dGet?_dPop_ne d k k2 h).trans hw⟩
  · simp only [Bool.not_eq_true] at hc
    rw [hc, ← Bool.not_eq_true, dContains_iff_dGet?]
    intro ⟨w, hw⟩
    rw [dGet?_dPop_ne d k k2 h] at hw
    rw [← Bool.not_eq_true, dContains_iff_dGet?] at hc
    exact hc ⟨w, hw⟩

theorem dPop_idem {α : Type} (d : List (String × α)) (k : String) :
    dPop (dPop d k) k = dPop d k := by
  unfold dPop
  rw [List.filter_filter]
  simp

theorem removeFields_idem {α : Type} (attrs : List (String × α)) (fields : List String) :
    removeFields (removeFields attrs fields) fields = removeFields attrs fields := by
  unfold removeFields
  rw [List.filter_filter]
  simp

theorem map_eq_self_of_fix {α : Type} (l : List α) (f : α → α)
    (h : ∀ x ∈ l, f x = x) : l.map f = l := by
  induction l with
  | nil => rfl
  | cons a rest ih =>
    rw [List.map_cons, h a (List.mem_cons_self a rest),
      ih (fun x hx => h x (List.mem_cons_of_mem a hx))]

theorem filter_eq_self_of_mem {α : Type} (l : List α) (p : α → Bool)
    (h : ∀ x ∈ l, p x = true) : l.filter p = l :=
  List.filter_eq_self.mpr h

/-- `filterRelationships` is a fixpoint on its own output. -/
theorem filterRelationships_idem (rels : List (String × PyVal)) (rt : ResourceType)
    (op : OperationType) :
    filterRelationships (filterRelationships rels rt op) rt op
      = filterRelationships rels rt op := by
  unfold filterRelationships
  dsimp only
  by_cases hcond : op = OperationType.READ ∧
      essentialTruthy (configFor rt).essential_relationships = true
  · rw [if_pos hcond, if_pos hcond]
    rw [filter_eq_self_of_mem]
    · rw [map_eq_self_of_fix]
      intro q hq
      rw [List.mem_map] at hq
      obtain ⟨r, _, hqr⟩ := hq
      obtain ⟨rk, rv⟩ := r
      cases rv <;> simp only at hqr <;> subst hqr <;> simp only
      rw [dPop_idem]
    · intro q hq
      rw [List.mem_map] at hq
      obtain ⟨r, hr, hqr⟩ := hq
      have hk : q.1 = r.1 := by
        obtain ⟨rk, rv⟩ := r
        cases rv <;> simp only at hqr <;> subst hqr <;> rfl
      rw [hk]
      have := List.mem_filter.mp hr
      exact this.2
  · rw [if_neg hcond, if_neg hcond]
    rw [map_eq_self_of_fix]
    intro q hq
    rw [List.mem_map] at hq
    obtain ⟨r, _, hqr⟩ := hq
    obtain ⟨rk, rv⟩ := r
    cases rv <;> simp only at hqr <;> subst hqr <;> simp only
    rw [dPop_idem]

theorem fia_idem (x : PyVal) (nt : ResourceType) (nop : OperationType) (y : PyVal)
    (h : filterItemAttributes x nt nop = .ok y) :
    filterItemAttributes y nt nop = .ok y := by
  have horig := h
  unfold filterItemAttributes at h
  cases x with
  | str s =>
    simp only [pyContains, bind_ok] at h
    by_cases hc : substrB "attributes" s
    · simp only [hc, Bool.not_true, Bool.false_eq_true, if_false, pyGetItem,
        bind_err] at h
      cases h
    · simp only [hc, Bool.not_false, if_true] at h
      cases h
      exact horig
  | list l =>
    simp only [pyContains, bind_ok] at h
    by_cases hc : l.any (fun v => match v with | .str s => decide (s = "attributes") | _ => false)
    · simp only [hc, Bool.not_true, Bool.false_eq_true, if_false, pyGetItem,
        bind_err] at h
      cases h
    · simp only [hc, Bool.not_false, if_true] at h
      cases h
      exact horig
  | int n => simp only [pyContains, bind_err] at h; cases h
  | bool b => simp only [pyContains, bind_err] at h; cases h
  | none => simp only [pyContains, bind_err] at h; cases h
  | dict d =>
    simp only [pyContains, bind_ok] at h
    by_cases hc : dContains d "attributes"
    swap
    · simp only [hc, Bool.not_false, if_true] at h
      rw [pure_eq_ok] at h
      subst h
      exact horig
    · simp only [hc, Bool.not_true, Bool.false_eq_true, if_false, pyGetItem] at h
      obtain ⟨w, hw⟩ := (dContains_iff_dGet? d "attributes").mp hc
      rw [hw, bind_ok] at h
      cases w with
      | dict attrs0 =>
        dsimp only at h
        by_cases hrel : dContains (dSet d "attributes"
            (.dict (removeFields attrs0 (fieldsToRemove (configFor nt) nop)))) "relationships"
        · rw [if_pos hrel] at h
          obtain ⟨w2, hw2⟩ := (dContains_iff_dGet? _ "relationships").mp hrel
          rw [hw2] at h
          cases w2 with
          | dict xr =>
            simp only [pyCopy, Option.getD_some, bind_ok, bind_pure] at h
            rw [pure_eq_ok] at h
            subst h
            -- names for the three stages
            set attrs1 : List (String × PyVal) :=
              removeFields attrs0 (fieldsToRemove (configFor nt) nop) with hattrs1
            set d1 : List (String × PyVal) := dSet d "attributes" (.dict attrs1) with hd1
            set yr : List (String × PyVal) := filterRelationships xr nt nop with hyr
            set d2 : List (String × PyVal) := dSet d1 "relationships" (.dict yr) with hd2
            set yd : List (String × PyVal) := dPop d2 "links" with hyd
            have hattr_yd : dGet? yd "attributes" = some (.dict attrs1) := by
              rw [hyd, dGet?_dPop_ne _ _ _ (by decide), hd2,
                dGet?_dSet_ne _ _ _ _ (by decide), hd1, dGet?_dSet_self]
            have hrel_yd : dGet? yd "relationships" = some (.dict yr) := by
              rw [hyd, dGet?_dPop_ne _ _ _ (by decide), hd2, dGet?_dSet_self]
            have hcont_attr : dContains yd "attributes" = true :=
              (dContains_iff_dGet? _ _).mpr ⟨_, hattr_yd⟩
            have hcont_rel : dContains yd "relationships" = true :=
              (dContains_iff_dGet? _ _).mpr ⟨_, hrel_yd⟩
            -- second run
            unfold filterItemAttributes
            simp only [pyContains, bind_ok, hcont_attr, Bool.not_true,
              Bool.false_eq_true, if_false, pyGetItem, hattr_yd, bind_ok]
            rw [hattrs1, removeFields_idem, ← hattrs1]
            rw [dSet_get_same _ _ _ hattr_yd]
            rw [if_pos hcont_rel, hrel_yd]
            simp only [pyCopy, Option.getD_some, bind_ok, bind_pure]
            rw [hyr, filterRelationships_idem, ← hyr]
            rw [dSet_get_same _ _ _ hrel_yd]
            rw [pure_eq_ok, hyd, dPop_idem, ← hyd]
          | list l2 =>
            simp only [pyCopy, Option.getD_some, bind_ok, bind_err] at h
            cases h
          | str s2 => simp only [pyCopy, Option.getD_some, bind_err] at h; cases h
          | int n2 => simp only [pyCopy, Option.getD_some, bind_err] at h; cases h
          | bool b2 => simp only [pyCopy, Option.getD_some, bind_err] at h; cases h
          | none => simp only [pyCopy, Option.getD_some, bind_err] at h; cases h
        · rw [if_neg hrel] at h
          simp only [bind_pure] at h
          rw [pure_eq_ok] at h
          subst h
          set attrs1 : List (String × PyVal) :=
            removeFields attrs0 (fieldsToRemove (configFor nt) nop) with hattrs1
          set d1 : List (String × PyVal) := dSet d "attributes" (.dict attrs1) with hd1
          set yd : List (String × PyVal) := dPop d1 "links" with hyd
          have hattr_yd : dGet? yd "attributes" = some (.dict attrs1) := by
            rw [hyd, dGet?_dPop_ne _ _ _ (by decide), hd1, dGet?_dSet_self]
          have hcont_attr : dContains yd "attributes" = true :=
            (dContains_iff_dGet? _ _).mpr ⟨_, hattr_yd⟩
          have hrel_yd : dContains yd "relationships" = false := by
            rw [hyd, dContains_dPop_ne _ _ _ (by decide), hd1]
            rw [hd1] at hrel
            simpa using hrel
          unfold filterItemAttributes
          simp only [pyContains, bind_ok, hcont_attr, Bool.not_true,
            Bool.false_eq_true, if_false, pyGetItem, hattr_yd, bind_ok]
          rw [hattrs1, removeFields_idem, ← hattrs1]
          rw [dSet_get_same _ _ _ hattr_yd]
          rw [if_neg (by rw [hrel_yd]; exact fun hh => Bool.false_ne_true hh)]
          simp only [bind_pure]
          rw [pure_eq_ok, hyd, dPop_idem, ← hyd]
      | str s2 =>
        dsimp only at h
        simp only [bind_pure] at h
        rw [pure_eq_ok] at h
        subst h
        exact horig
      | int n2 =>
        dsimp only at h
        simp only [bind_pure] at h
        rw [pure_eq_ok] at h
        subst h
        exact horig
      | bool b2 =>
        dsimp only at h
        simp only [bind_pure] at h
        rw [pure_eq_ok] at h
        subst h
        exact horig
      | none =>
        dsimp only at h
        simp only [bind_pure] at h
        rw [pure_eq_ok] at h
        subst h
        exact horig
      | list l2 =>
        dsimp only at h
        simp only [bind_pure] at h
        rw [pure_eq_ok] at h
        subst h
        exact horig

theorem metaPagination_idem (m m1 : PyVal) (h : metaPagination m = .ok m1) :
    metaPagination m1 = .ok m1 := by
  have horig := h
  unfold metaPagination at h
  cases m with
  | dict md =>
    simp only [pyContains, bind_ok] at h
    by_cases hc : dContains md "pagination"
    · simp only [hc, if_true, pyGetItem] at h
      obtain ⟨pv, hpv⟩ := (dContains_iff_dGet? md "pagination").mp hc
      rw [hpv, bind_ok] at h
      cases pv with
      | dict pag =>
        dsimp only at h
        rw [pure_eq_ok] at h
        subst h
        set P : PyVal := .dict
          [("current-page", (dGet? pag "current-page").getD .none),
           ("total-pages", (dGet? pag "total-pages").getD .none),
           ("total-count", (dGet? pag "total-count").getD .none)] with hP
        have hgetP : dGet? (dSet md "pagination" P) "pagination" = some P :=
          dGet?_dSet_self md "pagination" P
        have hcontP : dContains (dSet md "pagination" P) "pagination" = true :=
          dContains_dSet_self md "pagination" P
        unfold metaPagination
        simp only [pyContains, bind_ok, hcontP, if_true, pyGetItem, hgetP, bind_ok]
        rw [hP]
        simp only [dGet?, if_pos rfl, reduceIte, Option.getD_some]
        rw [pure_eq_ok]
        rw [if_neg (by decide : ¬("current-page" = "total-pages")),
            if_neg (by decide : ¬("current-page" = "total-count")),
            if_neg (by decide : ¬("total-pages" = "total-count"))]
        simp only [Option.getD_some]
        rw [← hP, dSet_get_same _ _ _ hgetP]
      | str s2 =>
        dsimp only at h
        rw [pure_eq_ok] at h
        subst h
        exact horig
      | int n2 => dsimp only at h; rw [pure_eq_ok] at h; subst h; exact horig
      | bool b2 => dsimp only at h; rw [pure_eq_ok] at h; subst h; exact horig
      | none => dsimp only at h; rw [pure_eq_ok] at h; subst h; exact horig
      | list l2 => dsimp only at h; rw [pure_eq_ok] at h; subst h; exact horig
    · simp only [hc, Bool.false_eq_true, if_false] at h
      rw [pure_eq_ok] at h
      subst h
      exact horig
  | str s =>
    simp only [pyContains, bind_ok] at h
    by_cases hc : substrB "pagination" s
    · simp only [hc, if_true, pyGetItem, bind_err] at h
      cases h
    · simp only [hc, Bool.false_eq_true, if_false] at h
      rw [pure_eq_ok] at h
      subst h
      exact horig
  | list l =>
    simp only [pyContains, bind_ok] at h
    by_cases hc : l.any (fun v => match v with | .str s => decide (s = "pagination") | _ => false)
    · simp only [hc, if_true, pyGetItem, bind_err] at h
      cases h
    · simp only [hc, Bool.false_eq_true, if_false] at h
      rw [pure_eq_ok] at h
      subst h
      exact horig
  | int n => simp only [pyContains, bind_err] at h; cases h
  | bool b => simp only [pyContains, bind_err] at h; cases h
  | none => simp only [pyContains, bind_err] at h; cases h

theorem metaStatusCounts_idem (m m1 : PyVal) (h : metaStatusCounts m = .ok m1) :
    metaStatusCounts m1 = .ok m1 := by
  have horig := h
  unfold metaStatusCounts at h
  cases m with
  | dict md =>
    simp only [pyContains, bind_ok] at h
    by_cases hc : dContains md "status-counts"
    · simp only [hc, if_true, pyGetItem] at h
      obtain ⟨sv, hsv⟩ := (dContains_iff_dGet? md "status-counts").mp hc
      rw [hsv, bind_ok] at h
      cases sv with
      | dict sc =>
        dsimp only at h
        by_cases ht : dContains sc "total"
        · rw [if_pos ht, pure_eq_ok] at h
          subst h
          set T : PyVal := .dict [("total", (dGet? sc "total").getD .none)] with hT
          have hgetT : dGet? (dSet md "status-counts" T) "status-counts" = some T :=
            dGet?_dSet_self md "status-counts" T
          have hcontT : dContains (dSet md "status-counts" T) "status-counts" = true :=
            dContains_dSet_self md "status-counts" T
          unfold metaStatusCounts
          simp only [pyContains, bind_ok, hcontT, if_true, pyGetItem, hgetT, bind_ok]
          rw [hT]
          simp only [dContains, decide_True, Bool.true_or, if_pos rfl, dGet?,
            Option.getD_some, reduceIte]
          rw [pure_eq_ok, ← hT, dSet_get_same _ _ _ hgetT]
        · rw [if_neg ht, pure_eq_ok] at h
          subst h
          have hcont2 : dContains (dPop md "status-counts") "status-counts" = false :=
            dContains_dPop_self md "status-counts"
          unfold metaStatusCounts
          simp only [pyContains, bind_ok, hcont2, Bool.false_eq_true, if_false]
          rw [pure_eq_ok]
      | str s2 => dsimp only at h; rw [pure_eq_ok] at h; subst h; exact horig
      | int n2 => dsimp only at h; rw [pure_eq_ok] at h; subst h; exact horig
      | bool b2 => dsimp only at h; rw [pure_eq_ok] at h; subst h; exact horig
      | none => dsimp only at h; rw [pure_eq_ok] at h; subst h; exact horig
      | list l2 => dsimp only at h; rw [pure_eq_ok] at h; subst h; exact horig
    · simp only [hc, Bool.false_eq_true, if_false] at h
      rw [pure_eq_ok] at h
      subst h
      exact horig
  | str s =>
    simp only [pyContains, bind_ok] at h
    by_cases hc : substrB "status-counts" s
    · simp only [hc, if_true, pyGetItem, bind_err] at h
      cases h
    · simp only [hc, Bool.false_eq_true, if_false] at h
      rw [pure_eq_ok] at h
      subst h
      exact horig
  | list l =>
    simp only [pyContains, bind_ok] at h
    by_cases hc : l.any (fun v => match v with | .str s => decide (s = "status-counts") | _ => false)
    · simp only [hc, if_true, pyGetItem, bind_err] at h
      cases h
    · simp only [hc, Bool.false_eq_true, if_false] at h
      rw [pure_eq_ok] at h
      subst h
      exact horig
  | int n => simp only [pyContains, bind_err] at h; cases h
  | bool b => simp only [pyContains, bind_err] at h; cases h
  | none => simp only [pyContains, bind_err] at h; cases h

/-- The status-counts step yields the same value or a dict differing from the
input dict only at the `status-counts` key. -/
theorem metaStatusCounts_shape (m m1 : PyVal) (h : metaStatusCounts m = .ok m1) :
    m1 = m ∨ ∃ md md1, m = .dict md ∧ m1 = .dict md1 ∧
      ∀ k, k ≠ "status-counts" → dGet? md1 k = dGet? md k := by
  unfold metaStatusCounts at h
  cases m with
  | dict md =>
    simp only [pyContains, bind_ok] at h
    by_cases hc : dContains md "status-counts"
    · simp only [hc, if_true, pyGetItem] at h
      obtain ⟨sv, hsv⟩ := (dContains_iff_dGet? md "status-counts").mp hc
      rw [hsv, bind_ok] at h
      cases sv with
      | dict sc =>
        dsimp only at h
        by_cases ht : dContains sc "total"
        · rw [if_pos ht, pure_eq_ok] at h
          subst h
          exact Or.inr ⟨md, _, rfl, rfl,
            fun k hk => dGet?_dSet_ne md "status-counts" k _ hk⟩
        · rw [if_neg ht, pure_eq_ok] at h
          subst h
          exact Or.inr ⟨md, _, rfl, rfl,
            fun k hk => dGet?_dPop_ne md "status-counts" k hk⟩
      | str s2 => dsimp only at h; rw [pure_eq_ok] at h; exact Or.inl h.symm
      | int n2 => dsimp only at h; rw [pure_eq_ok] at h; exact Or.inl h.symm
      | bool b2 => dsimp only at h; rw [pure_eq_ok] at h; exact Or.inl h.symm
      | none => dsimp only at h; rw [pure_eq_ok] at h; exact Or.inl h.symm
      | list l2 => dsimp only at h; rw [pure_eq_ok] at h; exact Or.inl h.symm
    · simp only [hc, Bool.false_eq_true, if_false] at h
      rw [pure_eq_ok] at h
      exact Or.inl h.symm
  | str s =>
    simp only [pyContains, bind_ok] at h
    by_cases hc : substrB "status-counts" s
    · simp only [hc, if_true, pyGetItem, bind_err] at h
      cases h
    · simp only [hc, Bool.false_eq_true, if_false] at h
      rw [pure_eq_ok] at h
      exact Or.inl h.symm
  | list l =>
    simp only [pyContains, bind_ok] at h
    by_cases hc : l.any (fun v => match v with | .str s => decide (s = "status-counts") | _ => false)
    · simp only [hc, if_true, pyGetItem, bind_err] at h
      cases h
    · simp only [hc, Bool.false_eq_true, if_false] at h
      rw [pure_eq_ok] at h
      exact Or.inl h.symm
  | int n => simp only [pyContains, bind_err] at h; cases h
  | bool b => simp only [pyContains, bind_err] at h; cases h
  | none => simp only [pyContains, bind_err] at h; cases h

/-- A pagination fixpoint survives the status-counts step. -/
theorem metaPagination_stable (m1 m2 : PyVal)
    (hfix : metaPagination m1 = .ok m1)
    (hsc : metaStatusCounts m1 = .ok m2) :
    metaPagination m2 = .ok m2 := by
  rcases metaStatusCounts_shape m1 m2 hsc with rfl | ⟨md1, md2, rfl, rfl, hkeys⟩
  · exact hfix
  have hpag : dGet? md2 "pagination" = dGet? md1 "pagination" :=
    hkeys "pagination" (by decide)
  unfold metaPagination at hfix ⊢
  simp only [pyContains, bind_ok] at hfix ⊢
  by_cases hc : dContains md1 "pagination"
  · have hc2 : dContains md2 "pagination" = true := by
      rw [dContains_iff_dGet?] at hc ⊢
      obtain ⟨w, hw⟩ := hc
      exact ⟨w, hpag.trans hw⟩
    simp only [hc, if_true, pyGetItem] at hfix
    obtain ⟨pv, hpv⟩ := (dContains_iff_dGet? md1 "pagination").mp hc
    have hpv2 : dGet? md2 "pagination" = some pv := hpag.trans hpv
    simp only [hc2, if_true, pyGetItem, hpv2, bind_ok]
    rw [hpv, bind_ok] at hfix
    cases pv with
    | dict pag =>
      dsimp only at hfix ⊢
      rw [pure_eq_ok] at hfix ⊢
      have hfix2 : dSet md1 "pagination"
          (PyVal.dict
            [("current-page", (dGet? pag "current-page").getD .none),
             ("total-pages", (dGet? pag "total-pages").getD .none),
             ("total-count", (dGet? pag "total-count").getD .none)]) = md1 :=
        PyVal.dict.inj hfix
      have hPeq : dGet? md1 "pagination"
          = some (PyVal.dict
              [("current-page", (dGet? pag "current-page").getD .none),
               ("total-pages", (dGet? pag "total-pages").getD .none),
               ("total-count", (dGet? pag "total-count").getD .none)]) := by
        conv_lhs => rw [← hfix2]
        rw [dGet?_dSet_self]
      have hPv : (PyVal.dict
          [("current-page", (dGet? pag "current-page").getD .none),
           ("total-pages", (dGet? pag "total-pages").getD .none),
           ("total-count", (dGet? pag "total-count").getD .none)]) = .dict pag := by
        have h2 := hPeq.symm.trans hpv
        exact Option.some.inj h2
      rw [hPv]
      rw [dSet_get_same _ _ _ (by rw [hpv2])]
    | str s2 => dsimp only at hfix ⊢; rw [pure_eq_ok]
    | int n2 => dsimp only at hfix ⊢; rw [pure_eq_ok]
    | bool b2 => dsimp only at hfix ⊢; rw [pure_eq_ok]
    | none => dsimp only at hfix ⊢; rw [pure_eq_ok]
    | list l2 => dsimp only at hfix ⊢; rw [pure_eq_ok]
  · have hc2 : dContains md2 "pagination" = false := by
      cases hcc : dContains md2 "pagination"
      · rfl
      · exfalso
        obtain ⟨w, hw⟩ := (dContains_iff_dGet? md2 "pagination").mp hcc
        exact hc ((dContains_iff_dGet? md1 "pagination").mpr ⟨w, hpag.symm.trans hw⟩)
    simp only [hc2, Bool.false_eq_true, if_false]
    rw [pure_eq_ok]

theorem metaPagination_shape (m m1 : PyVal) (h : metaPagination m = .ok m1) :
    m1 = m ∨ ∃ md1, m1 = .dict md1 := by
  unfold metaPagination at h
  cases m with
  | dict md =>
    simp only [pyContains, bind_ok] at h
    by_cases hc : dContains md "pagination"
    · simp only [hc, if_true, pyGetItem] at h
      obtain ⟨pv, hpv⟩ := (dContains_iff_dGet? md "pagination").mp hc
      rw [hpv, bind_ok] at h
      cases pv with
      | dict pag =>
        dsimp only at h
        rw [pure_eq_ok] at h
        exact Or.inr ⟨_, h.symm⟩
      | str s2 => dsimp only at h; rw [pure_eq_ok] at h; exact Or.inl h.symm
      | int n2 => dsimp only at h; rw [pure_eq_ok] at h; exact Or.inl h.symm
      | bool b2 => dsimp only at h; rw [pure_eq_ok] at h; exact Or.inl h.symm
      | none => dsimp only at h; rw [pure_eq_ok] at h; exact Or.inl h.symm
      | list l2 => dsimp only at h; rw [pure_eq_ok] at h; exact Or.inl h.symm
    · simp only [hc, Bool.false_eq_true, if_false] at h
      rw [pure_eq_ok] at h
      exact Or.inl h.symm
  | str s =>
    simp only [pyContains, bind_ok] at h
    by_cases hc : substrB "pagination" s
    · simp only [hc, if_true, pyGetItem, bind_err] at h; cases h
    · simp only [hc, Bool.false_eq_true, if_false] at h
      rw [pure_eq_ok] at h
      exact Or.inl h.symm
  | list l =>
    simp only [pyContains, bind_ok] at h
    by_cases hc : l.any (fun v => match v with | .str s => decide (s = "pagination") | _ => false)
    · simp only [hc, if_true, pyGetItem, bind_err] at h; cases h
    · simp only [hc, Bool.false_eq_true, if_false] at h
      rw [pure_eq_ok] at h
      exact Or.inl h.symm
  | int n => simp only [pyContains, bind_err] at h; cases h
  | bool b => simp only [pyContains, bind_err] at h; cases h
  | none => simp only [pyContains, bind_err] at h; cases h

theorem flmMeta_fix (d d1f : List (String × PyVal)) (h : flmMeta d = .ok d1f) :
    flmMeta d1f = .ok d1f ∧ ∀ k, k ≠ "meta" → dGet? d1f k = dGet? d k := by
  have horig := h
  unfold flmMeta at h
  by_cases hm : dContains d "meta"
  · rw [if_pos hm] at h
    rw [bind_eq_ok] at h
    obtain ⟨m1, hm1, h⟩ := h
    rw [bind_eq_ok] at h
    obtain ⟨m2, hm2, h⟩ := h
    rw [pure_eq_ok] at h
    subst h
    refine ⟨?_, fun k hk => dGet?_dSet_ne d "meta" k m2 hk⟩
    have hget : dGet? (dSet d "meta" m2) "meta" = some m2 := dGet?_dSet_self d "meta" m2
    have hcont : dContains (dSet d "meta" m2) "meta" = true := dContains_dSet_self d "meta" m2
    unfold flmMeta
    rw [if_pos hcont, hget]
    simp only [Option.getD_some]
    have hpagfix : metaPagination m2 = .ok m2 :=
      metaPagination_stable m1 m2 (metaPagination_idem _ _ hm1) hm2
    have hscfix : metaStatusCounts m2 = .ok m2 := metaStatusCounts_idem _ _ hm2
    rw [hpagfix, bind_ok, hscfix, bind_ok, pure_eq_ok]
    exact dSet_get_same _ _ _ hget
  · rw [if_neg hm, pure_eq_ok] at h
    subst h
    exact ⟨horig, fun k _ => rfl⟩

theorem flmMeta_transfer (dA dB : List (String × PyVal))
    (hfix : flmMeta dA = .ok dA) (hkey : dGet? dB "meta" = dGet? dA "meta") :
    flmMeta dB = .ok dB := by
  unfold flmMeta at hfix ⊢
  by_cases hm : dContains dA "meta"
  · obtain ⟨w, hw⟩ := (dContains_iff_dGet? dA "meta").mp hm
    have hw2 : dGet? dB "meta" = some w := hkey.trans hw
    have hm2 : dContains dB "meta" = true := (dContains_iff_dGet? dB "meta").mpr ⟨w, hw2⟩
    rw [if_pos hm, hw] at hfix
    rw [if_pos hm2, hw2]
    simp only [Option.getD_some] at hfix ⊢
    rw [bind_eq_ok] at hfix
    obtain ⟨m1, hm1, hfix⟩ := hfix
    rw [bind_eq_ok] at hfix
    obtain ⟨m2, hm2v, hfix⟩ := hfix
    rw [pure_eq_ok] at hfix
    have hm2w : m2 = w := by
      have h2 := congrArg (fun dd => dGet? dd "meta") hfix
      dsimp only at h2
      rw [dGet?_dSet_self, hw] at h2
      exact Option.some.inj h2
    rw [hm1, bind_ok, hm2v, bind_ok, pure_eq_ok, hm2w]
    exact dSet_get_same _ _ _ hw2
  · have hm2 : dContains dB "meta" = false := by
      cases hcc : dContains dB "meta"
      · rfl
      · exfalso
        obtain ⟨w, hw⟩ := (dContains_iff_dGet? dB "meta").mp hcc
        exact hm ((dContains_iff_dGet? dA "meta").mpr ⟨w, hkey.symm.trans hw⟩)
    rw [if_neg (by rw [hm2]; exact fun hh => Bool.false_ne_true hh), pure_eq_ok]

theorem rebuild_links_idem (L : List (String × PyVal)) :
    (["next", "prev", "first", "last"].filterMap
      (fun k => (dGet? (["next", "prev", "first", "last"].filterMap
        (fun k2 => (dGet? L k2).map (fun v => (k2, v)))) k).map (fun v => (k, v))))
    = ["next", "prev", "first", "last"].filterMap
        (fun k => (dGet? L k).map (fun v => (k, v))) := by
  cases hn : dGet? L "next" <;> cases hp : dGet? L "prev" <;>
    cases hf : dGet? L "first" <;> cases hl : dGet? L "last" <;>
      simp [hn, hp, hf, hl, dGet?, List.filterMap]

theorem flmLinks_fix (d d2 : List (String × PyVal)) (h : flmLinks d = .ok d2) :
    flmLinks d2 = .ok d2 ∧ ∀ k, k ≠ "links" → dGet? d2 k = dGet? d k := by
  have horig := h
  unfold flmLinks at h
  cases hl : dGet? d "links" with
  | none =>
    rw [hl] at h
    dsimp only at h
    rw [pure_eq_ok] at h
    subst h
    exact ⟨horig, fun k _ => rfl⟩
  | some lv =>
    rw [hl] at h
    cases lv with
    | dict links =>
      dsimp only at h
      rw [pure_eq_ok] at h
      subst h
      refine ⟨?_, fun k hk => dGet?_dSet_ne d "links" k _ hk⟩
      have hget := dGet?_dSet_self d "links" (PyVal.dict
        (["next", "prev", "first", "last"].filterMap
          (fun k => (dGet? links k).map (fun v => (k, v)))))
      unfold flmLinks
      rw [hget]
      dsimp only
      rw [pure_eq_ok, rebuild_links_idem]
      exact dSet_get_same _ _ _ hget
    | str s => dsimp only at h; rw [pure_eq_ok] at h; subst h; exact ⟨horig, fun k _ => rfl⟩
    | int n => dsimp only at h; rw [pure_eq_ok] at h; subst h; exact ⟨horig, fun k _ => rfl⟩
    | bool b => dsimp only at h; rw [pure_eq_ok] at h; subst h; exact ⟨horig, fun k _ => rfl⟩
    | none => dsimp only at h; rw [pure_eq_ok] at h; subst h; exact ⟨horig, fun k _ => rfl⟩
    | list l => dsimp only at h; rw [pure_eq_ok] at h; subst h; exact ⟨horig, fun k _ => rfl⟩

theorem filterListMetadata_idem (d1 d2 : List (String × PyVal))
    (h : filterListMetadata d1 = .ok d2) : filterListMetadata d2 = .ok d2 := by
  unfold filterListMetadata at h ⊢
  rw [bind_eq_ok] at h
  obtain ⟨d1f, hA, hB⟩ := h
  obtain ⟨hAfix, _⟩ := flmMeta_fix _ _ hA
  obtain ⟨hBfix, hBkeys⟩ := flmLinks_fix _ _ hB
  have hmeta : flmMeta d2 = .ok d2 :=
    flmMeta_transfer d1f d2 hAfix (hBkeys "meta" (by decide))
  rw [hmeta, bind_ok]
  exact hBfix

theorem copyMetaLinks_ok_of (d : List (String × PyVal))
    (hm : optCopyable (dGet? d "meta") = true)
    (hl : optCopyable (dGet? d "links") = true) :
    copyMetaLinks d = .ok () := by
  have hnc : ∀ k, dGet? d k = Option.none → dContains d k = false := by
    intro k hk
    cases hcc : dContains d k
    · rfl
    · obtain ⟨w, hw⟩ := (dContains_iff_dGet? d k).mp hcc
      rw [hk] at hw; cases hw
  unfold copyMetaLinks
  cases hmv : dGet? d "meta" with
  | none =>
    cases hlv : dGet? d "links" with
    | none => simp [hnc _ hmv, hnc _ hlv]; rfl
    | some lv =>
      rw [hlv] at hl
      cases lv with
      | dict ld => simp [hnc _ hmv, (dContains_iff_dGet? d "links").mpr ⟨_, hlv⟩, hlv, pyCopy]
      | list ll => simp [hnc _ hmv, (dContains_iff_dGet? d "links").mpr ⟨_, hlv⟩, hlv, pyCopy]
      | str s => simp [optCopyable] at hl
      | int n => simp [optCopyable] at hl
      | bool b => simp [optCopyable] at hl
      | none => simp [optCopyable] at hl
  | some mv =>
    rw [hmv] at hm
    have hcm : dContains d "meta" = true := (dContains_iff_dGet? d "meta").mpr ⟨_, hmv⟩
    have hcopy : pyCopy mv = .ok mv := by
      cases mv with
      | dict md => rfl
      | list ml => rfl
      | str s => simp [optCopyable] at hm
      | int n => simp [optCopyable] at hm
      | bool b => simp [optCopyable] at hm
      | none => simp [optCopyable] at hm
    cases hlv : dGet? d "links" with
    | none => simp [hcm, hmv, hcopy, hnc _ hlv]
    | some lv =>
      rw [hlv] at hl
      cases lv with
      | dict ld =>
        have hc2 : pyCopy (PyVal.dict ld) = .ok (PyVal.dict ld) := rfl
        simp [hcm, hmv, hcopy, hc2, (dContains_iff_dGet? d "links").mpr ⟨_, hlv⟩, hlv]
        rfl
      | list ll =>
        have hc2 : pyCopy (PyVal.list ll) = .ok (PyVal.list ll) := rfl
        simp [hcm, hmv, hcopy, hc2, (dContains_iff_dGet? d "links").mpr ⟨_, hlv⟩, hlv]
        rfl
      | str s => simp [optCopyable] at hl
      | int n => simp [optCopyable] at hl
      | bool b => simp [optCopyable] at hl
      | none => simp [optCopyable] at hl

theorem copyMetaLinks_copyable (d : List (String × PyVal))
    (h : copyMetaLinks d = .ok ()) :
    optCopyable (dGet? d "meta") = true ∧ optCopyable (dGet? d "links") = true := by
  have hnc : ∀ k, dGet? d k = Option.none → dContains d k = false := by
    intro k hk
    cases hcc : dContains d k
    · rfl
    · obtain ⟨w, hw⟩ := (dContains_iff_dGet? d k).mp hcc
      rw [hk] at hw; cases hw
  unfold copyMetaLinks at h
  cases hmv : dGet? d "meta" with
  | none =>
    refine ⟨rfl, ?_⟩
    cases hlv : dGet? d "links" with
    | none => rfl
    | some lv =>
      cases lv with
      | dict ld => rfl
      | list ll => rfl
      | str s =>
        simp [hnc _ hmv, (dContains_iff_dGet? d "links").mpr ⟨_, hlv⟩, hlv, pyCopy, bind_ok, bind_err] at h
      | int n =>
        simp [hnc _ hmv, (dContains_iff_dGet? d "links").mpr ⟨_, hlv⟩, hlv, pyCopy, bind_ok, bind_err] at h
      | bool b =>
        simp [hnc _ hmv, (dContains_iff_dGet? d "links").mpr ⟨_, hlv⟩, hlv, pyCopy, bind_ok, bind_err] at h
      | none =>
        simp [hnc _ hmv, (dContains_iff_dGet? d "links").mpr ⟨_, hlv⟩, hlv, pyCopy, bind_ok, bind_err] at h
  | some mv =>
    have hcm : dContains d "meta" = true := (dContains_iff_dGet? d "meta").mpr ⟨_, hmv⟩
    cases mv with
    | str s => simp [hcm, hmv, pyCopy, bind_err] at h
    | int n => simp [hcm, hmv, pyCopy, bind_err] at h
    | bool b => simp [hcm, hmv, pyCopy, bind_err] at h
    | none => simp [hcm, hmv, pyCopy, bind_err] at h
    | dict md =>
      refine ⟨rfl, ?_⟩
      cases hlv : dGet? d "links" with
      | none => rfl
      | some lv =>
        cases lv with
        | dict ld => rfl
        | list ll => rfl
        | str s =>
          simp [hcm, hmv, (dContains_iff_dGet? d "links").mpr ⟨_, hlv⟩, hlv, pyCopy, bind_ok, bind_err] at h
        | int n =>
          simp [hcm, hmv, (dContains_iff_dGet? d "links").mpr ⟨_, hlv⟩, hlv, pyCopy, bind_ok, bind_err] at h
        | bool b =>
          simp [hcm, hmv, (dContains_iff_dGet? d "links").mpr ⟨_, hlv⟩, hlv, pyCopy, bind_ok, bind_err] at h
        | none =>
          simp [hcm, hmv, (dContains_iff_dGet? d "links").mpr ⟨_, hlv⟩, hlv, pyCopy, bind_ok, bind_err] at h
    | list ml =>
      refine ⟨rfl, ?_⟩
      cases hlv : dGet? d "links" with
      | none => rfl
      | some lv =>
        cases lv with
        | dict ld => rfl
        | list ll => rfl
        | str s =>
          simp [hcm, hmv, (dContains_iff_dGet? d "links").mpr ⟨_, hlv⟩, hlv, pyCopy, bind_ok, bind_err] at h
        | int n =>
          simp [hcm, hmv, (dContains_iff_dGet? d "links").mpr ⟨_, hlv⟩, hlv, pyCopy, bind_ok, bind_err] at h
        | bool b =>
          simp [hcm, hmv, (dContains_iff_dGet? d "links").mpr ⟨_, hlv⟩, hlv, pyCopy, bind_ok, bind_err] at h
        | none =>
          simp [hcm, hmv, (dContains_iff_dGet? d "links").mpr ⟨_, hlv⟩, hlv, pyCopy, bind_ok, bind_err] at h

theorem filterItems_idem (items : List PyVal) (rt : ResourceType) (op : OperationType)
    (items1 : List PyVal) (h : filterItems items rt op = .ok items1) :
    filterItems items1 rt op = .ok items1 := by
  induction items generalizing items1 with
  | nil =>
    unfold filterItems at h
    have h2 : items1 = [] := (Except.ok.inj h).symm
    subst h2
    rfl
  | cons it rest ih =>
    unfold filterItems at h
    rw [bind_eq_ok] at h
    obtain ⟨it1, hit, h⟩ := h
    rw [bind_eq_ok] at h
    obtain ⟨rest1, hrest, h⟩ := h
    rw [pure_eq_ok] at h
    subst h
    unfold filterItems
    rw [fia_idem _ _ _ _ hit, bind_ok, ih _ hrest, bind_ok, pure_eq_ok]

theorem flmMeta_meta_shape (d d1f : List (String × PyVal)) (h : flmMeta d = .ok d1f) :
    dGet? d1f "meta" = dGet? d "meta" ∨ ∃ md, dGet? d1f "meta" = some (.dict md) := by
  unfold flmMeta at h
  by_cases hm : dContains d "meta"
  · rw [if_pos hm] at h
    obtain ⟨w, hw⟩ := (dContains_iff_dGet? d "meta").mp hm
    rw [hw] at h
    simp only [Option.getD_some] at h
    rw [bind_eq_ok] at h
    obtain ⟨m1, hm1, h⟩ := h
    rw [bind_eq_ok] at h
    obtain ⟨m2, hm2, h⟩ := h
    rw [pure_eq_ok] at h
    subst h
    have hget : dGet? (dSet d "meta" m2) "meta" = some m2 := dGet?_dSet_self d "meta" m2
    rcases metaStatusCounts_shape m1 m2 hm2 with rfl | ⟨md1, md2, _, rfl, _⟩
    · rcases metaPagination_shape w m2 hm1 with rfl | ⟨md1, rfl⟩
      · exact Or.inl (hget.trans hw.symm)
      · exact Or.inr ⟨md1, hget⟩
    · exact Or.inr ⟨md2, hget⟩
  · rw [if_neg hm, pure_eq_ok] at h
    subst h
    exact Or.inl rfl

theorem flmLinks_links_shape (d d2 : List (String × PyVal)) (h : flmLinks d = .ok d2) :
    dGet? d2 "links" = dGet? d "links" ∨ ∃ ld, dGet? d2 "links" = some (.dict ld) := by
  unfold flmLinks at h
  cases hl : dGet? d "links" with
  | none =>
    rw [hl] at h; dsimp only at h; rw [pure_eq_ok] at h; subst h; exact Or.inl hl
  | some lv =>
    rw [hl] at h
    cases lv with
    | dict links =>
      dsimp only at h
      rw [pure_eq_ok] at h
      subst h
      exact Or.inr ⟨_, dGet?_dSet_self d "links" _⟩
    | str s => dsimp only at h; rw [pure_eq_ok] at h; subst h; exact Or.inl hl
    | int n => dsimp only at h; rw [pure_eq_ok] at h; subst h; exact Or.inl hl
    | bool b => dsimp only at h; rw [pure_eq_ok] at h; subst h; exact Or.inl hl
    | none => dsimp only at h; rw [pure_eq_ok] at h; subst h; exact Or.inl hl
    | list l => dsimp only at h; rw [pure_eq_ok] at h; subst h; exact Or.inl hl

theorem fia_shape (v : PyVal) (nt : ResourceType) (nop : OperationType) (v1 : PyVal)
    (h : filterItemAttributes v nt nop = .ok v1) :
    v1 = v ∨ ∃ vd, v1 = .dict vd := by
  unfold filterItemAttributes at h
  cases v with
  | str s =>
    simp only [pyContains, bind_ok] at h
    by_cases hc : substrB "attributes" s
    · simp only [hc, Bool.not_true, Bool.false_eq_true, if_false, pyGetItem, bind_err] at h
      cases h
    · simp only [hc, Bool.not_false, if_true] at h
      exact Or.inl (Except.ok.inj h).symm
  | list l =>
    simp only [pyContains, bind_ok] at h
    by_cases hc : l.any (fun w => match w with | .str s => decide (s = "attributes") | _ => false)
    · simp only [hc, Bool.not_true, Bool.false_eq_true, if_false, pyGetItem, bind_err] at h
      cases h
    · simp only [hc, Bool.not_false, if_true] at h
      exact Or.inl (Except.ok.inj h).symm
  | int n => simp only [pyContains, bind_err] at h; cases h
  | bool b => simp only [pyContains, bind_err] at h; cases h
  | none => simp only [pyContains, bind_err] at h; cases h
  | dict dd =>
    simp only [pyContains, bind_ok] at h
    by_cases hc : dContains dd "attributes"
    · simp only [hc, Bool.not_true, Bool.false_eq_true, if_false, pyGetItem] at h
      obtain ⟨av, hav⟩ := (dContains_iff_dGet? dd "attributes").mp hc
      rw [hav, bind_ok] at h
      cases av with
      | dict attrs0 =>
        dsimp only at h
        by_cases hrel : dContains (dSet dd "attributes"
            (PyVal.dict (removeFields attrs0 (fieldsToRemove (configFor nt) nop)))) "relationships"
        · rw [if_pos hrel] at h
          obtain ⟨w2, hw2⟩ := (dContains_iff_dGet? _ "relationships").mp hrel
          rw [hw2] at h
          cases w2 with
          | dict xr =>
            simp only [pyCopy, Option.getD_some, bind_ok, bind_pure] at h
            rw [pure_eq_ok] at h
            exact Or.inr ⟨_, h.symm⟩
          | list l2 =>
            simp only [pyCopy, Option.getD_some, bind_ok, bind_err] at h
            cases h
          | str s2 => simp only [pyCopy, Option.getD_some, bind_err] at h; cases h
          | int n2 => simp only [pyCopy, Option.getD_some, bind_err] at h; cases h
          | bool b2 => simp only [pyCopy, Option.getD_some, bind_err] at h; cases h
          | none => simp only [pyCopy, Option.getD_some, bind_err] at h; cases h
        · rw [if_neg hrel] at h
          simp only [bind_pure] at h
          rw [pure_eq_ok] at h
          exact Or.inr ⟨_, h.symm⟩
      | str s2 =>
        dsimp only at h
        simp only [bind_pure] at h
        rw [pure_eq_ok] at h
        exact Or.inl h.symm
      | int n2 =>
        dsimp only at h
        simp only [bind_pure] at h
        rw [pure_eq_ok] at h
        exact Or.inl h.symm
      | bool b2 =>
        dsimp only at h
        simp only [bind_pure] at h
        rw [pure_eq_ok] at h
        exact Or.inl h.symm
      | none =>
        dsimp only at h
        simp only [bind_pure] at h
        rw [pure_eq_ok] at h
        exact Or.inl h.symm
      | list l2 =>
        dsimp only at h
        simp only [bind_pure] at h
        rw [pure_eq_ok] at h
        exact Or.inl h.symm
    · simp only [hc, Bool.not_false, if_true] at h
      exact Or.inl (Except.ok.inj h).symm

theorem filterDataFacts (d : List (String × PyVal)) (oe : OperationType) (nd : PyVal)
    (d2 : List (String × PyVal))
    (hcopy : copyMetaLinks d = .ok ())
    (hd2 : (if oe = .LIST then filterListMetadata (dSet d "data" nd)
            else pure (dSet d "data" nd)) = .ok d2) :
    optCopyable (dGet? d2 "meta") = true ∧ optCopyable (dGet? d2 "links") = true ∧
      dGet? d2 "data" = some nd ∧ (oe = .LIST → filterListMetadata d2 = .ok d2) := by
  obtain ⟨hmC, hlC⟩ := copyMetaLinks_copyable d hcopy
  by_cases hop : oe = .LIST
  · rw [if_pos hop] at hd2
    have hidem := filterListMetadata_idem _ _ hd2
    unfold filterListMetadata at hd2
    rw [bind_eq_ok] at hd2
    obtain ⟨d1f, hA, hB⟩ := hd2
    obtain ⟨_, hAkeys⟩ := flmMeta_fix _ _ hA
    obtain ⟨_, hBkeys⟩ := flmLinks_fix _ _ hB
    refine ⟨?_, ?_, ?_, fun _ => hidem⟩
    · rw [hBkeys "meta" (by decide)]
      rcases flmMeta_meta_shape _ _ hA with heq | ⟨md, hmd⟩
      · rw [heq, dGet?_dSet_ne _ _ _ _ (by decide)]
        exact hmC
      · rw [hmd]; rfl
    · rcases flmLinks_links_shape _ _ hB with heq | ⟨ld, hld⟩
      · rw [heq, hAkeys "links" (by decide), dGet?_dSet_ne _ _ _ _ (by decide)]
        exact hlC
      · rw [hld]; rfl
    · rw [hBkeys "data" (by decide), hAkeys "data" (by decide), dGet?_dSet_self]
  · rw [if_neg hop, pure_eq_ok] at hd2
    subst hd2
    refine ⟨?_, ?_, dGet?_dSet_self _ _ _, fun hh => absurd hh hop⟩
    · rw [dGet?_dSet_ne _ _ _ _ (by decide)]; exact hmC
    · rw [dGet?_dSet_ne _ _ _ _ (by decide)]; exact hlC

theorem filter_response_second (t : RTypeArg) (op : OpArg) (oe : OperationType)
    (nd : PyVal) (d2 : List (String × PyVal))
    (hoe : normalizeOperationType op = .ok oe)
    (hmC : optCopyable (dGet? d2 "meta") = true)
    (hlC : optCopyable (dGet? d2 "links") = true)
    (hget2 : dGet? d2 "data" = some nd)
    (hnd : (∃ items1, nd = .list items1 ∧
             filterItems items1 (normalizeResourceType t) oe = .ok items1) ∨
           ((∀ its, nd ≠ PyVal.list its) ∧
             filterItemAttributes nd (normalizeResourceType t) oe = .ok nd))
    (hlist : oe = .LIST → filterListMetadata d2 = .ok d2) :
    filter_response (.dict d2) t op = .ok (.dict d2) := by
  have hcont : dContains d2 "data" = true := (dContains_iff_dGet? d2 "data").mpr ⟨_, hget2⟩
  unfold filter_response
  simp only [hcont, Bool.not_true, Bool.false_eq_true, if_false]
  simp only [copyMetaLinks_ok_of d2 hmC hlC, bind_ok]
  simp only [hoe, bind_ok, hget2, Option.getD_some]
  rcases hnd with ⟨items1, rfl, hfix⟩ | ⟨hnl, hfix⟩
  · dsimp only
    simp only [hfix, bind_ok, bind_pure]
    rw [dSet_get_same _ _ _ hget2]
    by_cases hop : oe = .LIST
    · rw [if_pos hop]
      simp only [hlist hop, bind_ok]
      rfl
    · rw [if_neg hop]
      rfl
  · cases nd with
    | list its => exact absurd rfl (hnl its)
    | str s =>
      dsimp only
      simp only [hfix, bind_ok, bind_pure]
      rw [dSet_get_same _ _ _ hget2]
      by_cases hop : oe = .LIST
      · rw [if_pos hop]
        simp only [hlist hop, bind_ok]
        rfl
      · rw [if_neg hop]
        rfl
    | int n =>
      dsimp only
      simp only [hfix, bind_ok, bind_pure]
      rw [dSet_get_same _ _ _ hget2]
      by_cases hop : oe = .LIST
      · rw [if_pos hop]
        simp only [hlist hop, bind_ok]
        rfl
      · rw [if_neg hop]
        rfl
    | bool b =>
      dsimp only
      simp only [hfix, bind_ok, bind_pure]
      rw [dSet_get_same _ _ _ hget2]
      by_cases hop : oe = .LIST
      · rw [if_pos hop]
        simp only [hlist hop, bind_ok]
        rfl
      · rw [if_neg hop]
        rfl
    | none =>
      dsimp only
      simp only [hfix, bind_ok, bind_pure]
      rw [dSet_get_same _ _ _ hget2]
      by_cases hop : oe = .LIST
      · rw [if_pos hop]
        simp only [hlist hop, bind_ok]
        rfl
      · rw [if_neg hop]
        rfl
    | dict md =>
      dsimp only
      simp only [hfix, bind_ok, bind_pure]
      rw [dSet_get_same _ _ _ hget2]
      by_cases hop : oe = .LIST
      · rw [if_pos hop]
        simp only [hlist hop, bind_ok]
        rfl
      · rw [if_neg hop]
        rfl

/-- C3: filtering is idempotent.  For every envelope that is a dict with a
`data` key, any resource-type argument and any operation argument, if
`filter_response` succeeds with result `Y` then running `filter_response`
again on `Y` with the same arguments succeeds and returns `Y` itself
(re-filtering an already-filtered envelope changes nothing). -/
theorem c3_filter_idempotent (d : List (String × PyVal)) (t : RTypeArg) (op : OpArg) (Y : PyVal)
    (hdata : dContains d "data" = true)
    (h : filter_response (.dict d) t op = .ok Y) :
    filter_response Y t op = .ok Y := by
  unfold filter_response at h
  simp only [hdata, Bool.not_true, Bool.false_eq_true, if_false] at h
  rw [bind_eq_ok] at h
  obtain ⟨u, hcopy, h⟩ := h
  have hcopy : copyMetaLinks d = .ok () := by cases u; exact hcopy
  rw [bind_eq_ok] at h
  obtain ⟨oe, hoe, h⟩ := h
  obtain ⟨dv, hdv⟩ := (dContains_iff_dGet? d "data").mp hdata
  simp only [hdv, Option.getD_some] at h
  cases dv with
  | list items =>
    dsimp only at h
    rw [bind_eq_ok] at h
    obtain ⟨items1, hitems, h⟩ := h
    simp only [bind_pure] at h
    by_cases hop : oe = OperationType.LIST
    · rw [if_pos hop] at h
      rw [bind_eq_ok] at h
      obtain ⟨d2, hd2, h⟩ := h
      rw [pure_eq_ok] at h
      subst h
      have hdIf : (if oe = OperationType.LIST
          then filterListMetadata (dSet d "data" (.list items1))
          else pure (dSet d "data" (.list items1))) = .ok d2 := by
        rw [if_pos hop]; exact hd2
      obtain ⟨hmC, hlC, hget2, hlist⟩ :=
        filterDataFacts d oe (.list items1) d2 hcopy hdIf
      exact filter_response_second t op oe (.list items1) d2 hoe hmC hlC hget2
        (Or.inl ⟨items1, rfl, filterItems_idem _ _ _ _ hitems⟩) hlist
    · rw [if_neg hop] at h
      rw [pure_eq_ok] at h
      subst h
      have hdIf : (if oe = OperationType.LIST
          then filterListMetadata (dSet d "data" (.list items1))
          else pure (dSet d "data" (.list items1)))
          = .ok (dSet d "data" (.list items1)) := by
        rw [if_neg hop]; rfl
      obtain ⟨hmC, hlC, hget2, hlist⟩ :=
        filterDataFacts d oe (.list items1) _ hcopy hdIf
      exact filter_response_second t op oe (.list items1) _ hoe hmC hlC hget2
        (Or.inl ⟨items1, rfl, filterItems_idem _ _ _ _ hitems⟩) hlist
  | str s =>
      dsimp only at h
      rw [bind_eq_ok] at h
      obtain ⟨v1, hv1, h⟩ := h
      simp only [bind_pure] at h
      have hnl : ∀ its, v1 ≠ PyVal.list its := by
        rcases fia_shape _ _ _ _ hv1 with rfl | ⟨vd, rfl⟩
        · exact fun its hh => PyVal.noConfusion hh
        · exact fun its hh => PyVal.noConfusion hh
      by_cases hop : oe = OperationType.LIST
      · rw [if_pos hop] at h
        rw [bind_eq_ok] at h
        obtain ⟨d2, hd2, h⟩ := h
        rw [pure_eq_ok] at h
        subst h
        have hdIf : (if oe = OperationType.LIST
            then filterListMetadata (dSet d "data" v1)
            else pure (dSet d "data" v1)) = .ok d2 := by
          rw [if_pos hop]; exact hd2
        obtain ⟨hmC, hlC, hget2, hlist⟩ := filterDataFacts d oe v1 d2 hcopy hdIf
        exact filter_response_second t op oe v1 d2 hoe hmC hlC hget2
          (Or.inr ⟨hnl, fia_idem _ _ _ _ hv1⟩) hlist
      · rw [if_neg hop] at h
        rw [pure_eq_ok] at h
        subst h
        have hdIf : (if oe = OperationType.LIST
            then filterListMetadata (dSet d "data" v1)
            else pure (dSet d "data" v1)) = .ok (dSet d "data" v1) := by
          rw [if_neg hop]; rfl
        obtain ⟨hmC, hlC, hget2, hlist⟩ := filterDataFacts d oe v1 _ hcopy hdIf
        exact filter_response_second t op oe v1 _ hoe hmC hlC hget2
          (Or.inr ⟨hnl, fia_idem _ _ _ _ hv1⟩) hlist
  | int n =>
      dsimp only at h
      rw [bind_eq_ok] at h
      obtain ⟨v1, hv1, h⟩ := h
      simp only [bind_pure] at h
      have hnl : ∀ its, v1 ≠ PyVal.list its := by
        rcases fia_shape _ _ _ _ hv1 with rfl | ⟨vd, rfl⟩
        · exact fun its hh => PyVal.noConfusion hh
        · exact fun its hh => PyVal.noConfusion hh
      by_cases hop : oe = OperationType.LIST
      · rw [if_pos hop] at h
        rw [bind_eq_ok] at h
        obtain ⟨d2, hd2, h⟩ := h
        rw [pure_eq_ok] at h
        subst h
        have hdIf : (if oe = OperationType.LIST
            then filterListMetadata (dSet d "data" v1)
            else pure (dSet d "data" v1)) = .ok d2 := by
          rw [if_pos hop]; exact hd2
        obtain ⟨hmC, hlC, hget2, hlist⟩ := filterDataFacts d oe v1 d2 hcopy hdIf
        exact filter_response_second t op oe v1 d2 hoe hmC hlC hget2
          (Or.inr ⟨hnl, fia_idem _ _ _ _ hv1⟩) hlist
      · rw [if_neg hop] at h
        rw [pure_eq_ok] at h
        subst h
        have hdIf : (if oe = OperationType.LIST
            then filterListMetadata (dSet d "data" v1)
            else pure (dSet d "data" v1)) = .ok (dSet d "data" v1) := by
          rw [if_neg hop]; rfl
        obtain ⟨hmC, hlC, hget2, hlist⟩ := filterDataFacts d oe v1 _ hcopy hdIf
        exact filter_response_second t op oe v1 _ hoe hmC hlC hget2
          (Or.inr ⟨hnl, fia_idem _ _ _ _ hv1⟩) hlist
  | bool b =>
      dsimp only at h
      rw [bind_eq_ok] at h
      obtain ⟨v1, hv1, h⟩ := h
      simp only [bind_pure] at h
      have hnl : ∀ its, v1 ≠ PyVal.list its := by
        rcases fia_shape _ _ _ _ hv1 with rfl | ⟨vd, rfl⟩
        · exact fun its hh => PyVal.noConfusion hh
        · exact fun its hh => PyVal.noConfusion hh
      by_cases hop : oe = OperationType.LIST
      · rw [if_pos hop] at h
        rw [bind_eq_ok] at h
        obtain ⟨d2, hd2, h⟩ := h
        rw [pure_eq_ok] at h
        subst h
        have hdIf : (if oe = OperationType.LIST
            then filterListMetadata (dSet d "data" v1)
            else pure (dSet d "data" v1)) = .ok d2 := by
          rw [if_pos hop]; exact hd2
        obtain ⟨hmC, hlC, hget2, hlist⟩ := filterDataFacts d oe v1 d2 hcopy hdIf
        exact filter_response_second t op oe v1 d2 hoe hmC hlC hget2
          (Or.inr ⟨hnl, fia_idem _ _ _ _ hv1⟩) hlist
      · rw [if_neg hop] at h
        rw [pure_eq_ok] at h
        subst h
        have hdIf : (if oe = OperationType.LIST
            then filterListMetadata (dSet d "data" v1)
            else pure (dSet d "data" v1)) = .ok (dSet d "data" v1) := by
          rw [if_neg hop]; rfl
        obtain ⟨hmC, hlC, hget2, hlist⟩ := filterDataFacts d oe v1 _ hcopy hdIf
        exact filter_response_second t op oe v1 _ hoe hmC hlC hget2
          (Or.inr ⟨hnl, fia_idem _ _ _ _ hv1⟩) hlist
  | none =>
      dsimp only at h
      rw [bind_eq_ok] at h
      obtain ⟨v1, hv1, h⟩ := h
      simp only [bind_pure] at h
      have hnl : ∀ its, v1 ≠ PyVal.list its := by
        rcases fia_shape _ _ _ _ hv1 with rfl | ⟨vd, rfl⟩
        · exact fun its hh => PyVal.noConfusion hh
        · exact fun its hh => PyVal.noConfusion hh
      by_cases hop : oe = OperationType.LIST
      · rw [if_pos hop] at h
        rw [bind_eq_ok] at h
        obtain ⟨d2, hd2, h⟩ := h
        rw [pure_eq_ok] at h
        subst h
        have hdIf : (if oe = OperationType.LIST
            then filterListMetadata (dSet d "data" v1)
            else pure (dSet d "data" v1)) = .ok d2 := by
          rw [if_pos hop]; exact hd2
        obtain ⟨hmC, hlC, hget2, hlist⟩ := filterDataFacts d oe v1 d2 hcopy hdIf
        exact filter_response_second t op oe v1 d2 hoe hmC hlC hget2
          (Or.inr ⟨hnl, fia_idem _ _ _ _ hv1⟩) hlist
      · rw [if_neg hop] at h
        rw [pure_eq_ok] at h
        subst h
        have hdIf : (if oe = OperationType.LIST
            then filterListMetadata (dSet d "data" v1)
            else pure (dSet d "data" v1)) = .ok (dSet d "data" v1) := by
          rw [if_neg hop]; rfl
        obtain ⟨hmC, hlC, hget2, hlist⟩ := filterDataFacts d oe v1 _ hcopy hdIf
        exact filter_response_second t op oe v1 _ hoe hmC hlC hget2
          (Or.inr ⟨hnl, fia_idem _ _ _ _ hv1⟩) hlist
  | dict md =>
      dsimp only at h
      rw [bind_eq_ok] at h
      obtain ⟨v1, hv1, h⟩ := h
      simp only [bind_pure] at h
      have hnl : ∀ its, v1 ≠ PyVal.list its := by
        rcases fia_shape _ _ _ _ hv1 with rfl | ⟨vd, rfl⟩
        · exact fun its hh => PyVal.noConfusion hh
        · exact fun its hh => PyVal.noConfusion hh
      by_cases hop : oe = OperationType.LIST
      · rw [if_pos hop] at h
        rw [bind_eq_ok] at h
        obtain ⟨d2, hd2, h⟩ := h
        rw [pure_eq_ok] at h
        subst h
        have hdIf : (if oe = OperationType.LIST
            then filterListMetadata (dSet d "data" v1)
            else pure (dSet d "data" v1)) = .ok d2 := by
          rw [if_pos hop]; exact hd2
        obtain ⟨hmC, hlC, hget2, hlist⟩ := filterDataFacts d oe v1 d2 hcopy hdIf
        exact filter_response_second t op oe v1 d2 hoe hmC hlC hget2
          (Or.inr ⟨hnl, fia_idem _ _ _ _ hv1⟩) hlist
      · rw [if_neg hop] at h
        rw [pure_eq_ok] at h
        subst h
        have hdIf : (if oe = OperationType.LIST
            then filterListMetadata (dSet d "data" v1)
            else pure (dSet d "data" v1)) = .ok (dSet d "data" v1) := by
          rw [if_neg hop]; rfl
        obtain ⟨hmC, hlC, hget2, hlist⟩ := filterDataFacts d oe v1 _ hcopy hdIf
        exact filter_response_second t op oe v1 _ hoe hmC hlC hget2
          (Or.inr ⟨hnl, fia_idem _ _ _ _ hv1⟩) hlist


/-- Witness for C3 at a concrete workspace list envelope. -/
theorem c3_filter_idempotent_witness :
    dContains c3D "data" = true ∧
      filter_response (.dict c3D) (.enum .WORKSPACE) (.enum .LIST) = .ok c3Y ∧
      filter_response c3Y (.enum .WORKSPACE) (.enum .LIST) = .ok c3Y :=
  ⟨rfl, rfl, c3_filter_idempotent c3D (.enum .WORKSPACE) (.enum .LIST) c3Y rfl rfl⟩



theorem hbind_eq_ok {α β : Type} {m : HM α} {f : α → HM β} {h : Heap}
    {b : β} {h' : Heap} :
    (Bind.bind m f) h = .ok (b, h') ↔
      ∃ a h2, m h = .ok (a, h2) ∧ f a h2 = .ok (b, h') := by
  show (match m h with
        | .ok (a, h2) => f a h2
        | .error e => .error e) = .ok (b, h') ↔ _
  cases hm : m h with
  | ok p =>
    obtain ⟨a, h2⟩ := p
    dsimp only
    constructor
    · intro hf
      exact ⟨a, h2, rfl, hf⟩
    · rintro ⟨a1, h21, hma, hf⟩
      have hq := Except.ok.inj hma
      have e1 : a = a1 := congrArg Prod.fst hq
      have e2 : h2 = h21 := congrArg Prod.snd hq
      subst e1
      subst e2
      exact hf
  | error e =>
    dsimp only
    constructor
    · intro hf; cases hf
    · rintro ⟨a1, h21, hma, hf⟩; cases hma

theorem hpure_apply {α : Type} (a : α) (h : Heap) :
    (pure a : HM α) h = .ok (a, h) := rfl

theorem hpure_eq_ok {α : Type} {a b : α} {h h' : Heap} :
    (pure a : HM α) h = .ok (b, h') ↔ a = b ∧ h = h' := by
  show Except.ok (a, h) = .ok (b, h') ↔ _
  constructor
  · intro hh
    have := Except.ok.inj hh
    exact ⟨congrArg Prod.fst this, congrArg Prod.snd this⟩
  · rintro ⟨rfl, rfl⟩; rfl

theorem hThrow_ne_ok {α : Type} {e : PErr} {h h' : Heap} {a : α} :
    hThrow e h ≠ .ok (a, h') := fun hh => Except.noConfusion hh

theorem hObjAt_ok {a : Nat} {h h' : Heap} {o : HObj}
    (hh : hObjAt a h = .ok (o, h')) : h[a]? = some o ∧ h' = h := by
  unfold hObjAt at hh
  cases hao : h[a]? with
  | some o2 =>
    rw [hao] at hh
    have hq := Except.ok.inj hh
    have e1 : o2 = o := congrArg Prod.fst hq
    have e2 : h = h' := congrArg Prod.snd hq
    exact ⟨by rw [e1], e2.symm⟩
  | none => rw [hao] at hh; cases hh

theorem hAlloc_apply (o : HObj) (h : Heap) :
    hAlloc o h = .ok (h.length, h ++ [o]) := rfl

theorem hWrite_apply (a : Nat) (o : HObj) (h : Heap) :
    hWrite a o h = .ok ((), h.set a o) := rfl

theorem hDictFields_ok {a : Nat} {h h' : Heap} {f : List (String × HVal)}
    (hh : hDictFields a h = .ok (f, h')) : h[a]? = some (.dict f) ∧ h' = h := by
  unfold hDictFields at hh
  rw [hbind_eq_ok] at hh
  obtain ⟨o, h2, ho, hh⟩ := hh
  obtain ⟨hao, rfl⟩ := hObjAt_ok ho
  cases o with
  | dict f2 =>
    dsimp only at hh
    rw [hpure_eq_ok] at hh
    obtain ⟨rfl, rfl⟩ := hh
    exact ⟨hao, rfl⟩
  | list l => exact absurd hh hThrow_ne_ok

theorem hDictSet_ok {a : Nat} {key : String} {v : HVal} {h h' : Heap} {u : Unit}
    (hh : hDictSet a key v h = .ok (u, h')) :
    ∃ f, h[a]? = some (.dict f) ∧ h' = h.set a (.dict (dSet f key v)) := by
  unfold hDictSet at hh
  rw [hbind_eq_ok] at hh
  obtain ⟨f, h2, hf, hh⟩ := hh
  obtain ⟨hao, heq⟩ := hDictFields_ok hf
  rw [heq] at hh
  rw [hWrite_apply] at hh
  have hq := Except.ok.inj hh
  have e2 : h.set a (.dict (dSet f key v)) = h' := congrArg Prod.snd hq
  exact ⟨f, hao, e2.symm⟩

theorem hContains_ok {x : HVal} {key : String} {h h' : Heap} {b : Bool}
    (hh : hContains x key h = .ok (b, h')) : h' = h := by
  unfold hContains at hh
  cases x with
  | ref a =>
    rw [hbind_eq_ok] at hh
    obtain ⟨o, h2, ho, hh⟩ := hh
    obtain ⟨hao, rfl⟩ := hObjAt_ok ho
    cases o with
    | dict f => rw [hpure_eq_ok] at hh; exact hh.2.symm
    | list l => rw [hpure_eq_ok] at hh; exact hh.2.symm
  | str s => rw [hpure_eq_ok] at hh; exact hh.2.symm
  | int n => exact absurd hh hThrow_ne_ok
  | bool b2 => exact absurd hh hThrow_ne_ok
  | none => exact absurd hh hThrow_ne_ok

theorem hGetItem_ok {x : HVal} {key : String} {h h' : Heap} {v : HVal}
    (hh : hGetItem x key h = .ok (v, h')) :
    h' = h ∧ ∃ a f, x = .ref a ∧ h[a]? = some (.dict f) ∧ dGet? f key = some v := by
  unfold hGetItem at hh
  cases x with
  | ref a =>
    rw [hbind_eq_ok] at hh
    obtain ⟨o, h2, ho, hh⟩ := hh
    obtain ⟨hao, rfl⟩ := hObjAt_ok ho
    cases o with
    | dict f =>
      dsimp only at hh
      cases hg : dGet? f key with
      | some w =>
        rw [hg] at hh
        rw [hpure_eq_ok] at hh
        obtain ⟨rfl, rfl⟩ := hh
        exact ⟨rfl, a, f, rfl, hao, hg⟩
      | none => rw [hg] at hh; exact absurd hh hThrow_ne_ok
    | list l => exact absurd hh hThrow_ne_ok
  | str s => exact absurd hh hThrow_ne_ok
  | int n => exact absurd hh hThrow_ne_ok
  | bool b => exact absurd hh hThrow_ne_ok
  | none => exact absurd hh hThrow_ne_ok

theorem hCopy_ok {x : HVal} {h h' : Heap} {v : HVal}
    (hh : hCopy x h = .ok (v, h')) :
    ∃ a o, x = .ref a ∧ h[a]? = some o ∧ v = .ref h.length ∧ h' = h ++ [o] := by
  unfold hCopy at hh
  cases x with
  | ref a =>
    rw [hbind_eq_ok] at hh
    obtain ⟨o, h2, ho, hh⟩ := hh
    obtain ⟨hao, rfl⟩ := hObjAt_ok ho
    rw [hbind_eq_ok] at hh
    obtain ⟨na, h3, hna, hh⟩ := hh
    rw [hAlloc_apply] at hna
    injection hna with hp
    injection hp with p1 p2
    subst p1
    subst p2
    rw [hpure_eq_ok] at hh
    obtain ⟨rfl, rfl⟩ := hh
    exact ⟨a, o, rfl, hao, rfl, rfl⟩
  | str s => exact absurd hh hThrow_ne_ok
  | int n => exact absurd hh hThrow_ne_ok
  | bool b => exact absurd hh hThrow_ne_ok
  | none => exact absurd hh hThrow_ne_ok

theorem hIsDictRef_ok {x : HVal} {h h' : Heap} {b : Bool}
    (hh : hIsDictRef x h = .ok (b, h')) : h' = h := by
  unfold hIsDictRef at hh
  cases x with
  | ref a =>
    rw [hbind_eq_ok] at hh
    obtain ⟨o, h2, ho, hh⟩ := hh
    obtain ⟨hao, rfl⟩ := hObjAt_ok ho
    cases o with
    | dict f => rw [hpure_eq_ok] at hh; exact hh.2.symm
    | list l => rw [hpure_eq_ok] at hh; exact hh.2.symm
  | str s => rw [hpure_eq_ok] at hh; exact hh.2.symm
  | int n => rw [hpure_eq_ok] at hh; exact hh.2.symm
  | bool b2 => rw [hpure_eq_ok] at hh; exact hh.2.symm
  | none => rw [hpure_eq_ok] at hh; exact hh.2.symm

theorem frameOK_refl (h : Heap) (ex : Nat → Prop) : frameOK h h ex :=
  ⟨Nat.le_refl _, fun _ _ => Or.inl rfl⟩

theorem frameOK_mono {h h' : Heap} {ex ex' : Nat → Prop}
    (hf : frameOK h h' ex) (himp : ∀ b, ex b → ex' b) : frameOK h h' ex' := by
  refine ⟨hf.1, fun b hb => ?_⟩
  rcases hf.2 b hb with heq | ⟨hex, f, f', h1, h2⟩
  · exact Or.inl heq
  · exact Or.inr ⟨himp b hex, f, f', h1, h2⟩

theorem frameOK_trans {h h2 h' : Heap} {ex1 ex2 : Nat → Prop}
    (ha : frameOK h h2 ex1) (hb : frameOK h2 h' ex2) :
    frameOK h h' (fun b => ex1 b ∨ ex2 b) := by
  refine ⟨Nat.le_trans ha.1 hb.1, fun b hbl => ?_⟩
  have hb2 : b < h2.length := Nat.lt_of_lt_of_le hbl ha.1
  rcases ha.2 b hbl with heq1 | ⟨hex1, f, f', hf, hf'⟩
  · rcases hb.2 b hb2 with heq2 | ⟨hex2, f, f', hf, hf'⟩
    · exact Or.inl (heq2.trans heq1)
    · exact Or.inr ⟨Or.inr hex2, f, f', heq1 ▸ hf, hf'⟩
  · rcases hb.2 b hb2 with heq2 | ⟨hex2, g, g', hg, hg'⟩
    · exact Or.inr ⟨Or.inl hex1, f, f', hf, heq2.trans hf'⟩
    · exact Or.inr ⟨Or.inl hex1, f, g', hf, hg'⟩

theorem frameOK_append (h : Heap) (t : Heap) (ex : Nat → Prop) :
    frameOK h (h ++ t) ex := by
  refine ⟨by simp, fun b hb => Or.inl (List.getElem?_append_left hb)⟩

theorem frameOK_set {h : Heap} {a : Nat} {f : List (String × HVal)}
    (f' : List (String × HVal)) (hf : h[a]? = some (.dict f)) :
    frameOK h (h.set a (.dict f')) (fun b => b = a) := by
  refine ⟨by simp, fun b hb => ?_⟩
  by_cases hba : b = a
  · subst hba
    have hlt : b < h.length := hb
    exact Or.inr ⟨rfl, f, f', hf, List.getElem?_set_self hlt⟩
  · exact Or.inl (List.getElem?_set_ne (fun hh => hba hh.symm))

theorem frameOK_none_trans {h h2 h' : Heap}
    (ha : frameOK h h2 exNone) (hb : frameOK h2 h' exNone) :
    frameOK h h' exNone :=
  frameOK_mono (frameOK_trans ha hb) (fun _ hx => hx.elim id id)

theorem hStripRelLinks_frame (rels : List (String × HVal)) (h h' : Heap)
    (out : List (String × HVal)) (hh : hStripRelLinks rels h = .ok (out, h')) :
    frameOK h h' exNone := by
  induction rels generalizing h h' out with
  | nil =>
    unfold hStripRelLinks at hh
    rw [hpure_eq_ok] at hh
    rw [hh.2]
    exact frameOK_refl _ _
  | cons p rest ih =>
    obtain ⟨k, v⟩ := p
    unfold hStripRelLinks at hh
    have hjp : ∀ (v1 : HVal) (h4 : Heap),
        (do
          let rest1 ← hStripRelLinks rest
          pure ((k, v1) :: rest1) : HM (List (String × HVal))) h4 = .ok (out, h') →
        frameOK h4 h' exNone := by
      intro v1 h4 hrun
      rw [hbind_eq_ok] at hrun
      obtain ⟨rest1, h5, hrest, hrun⟩ := hrun
      rw [hpure_eq_ok] at hrun
      rw [← hrun.2]
      exact ih _ _ _ hrest
    cases v with
    | ref ra =>
      dsimp only at hh
      rw [hbind_eq_ok] at hh
      obtain ⟨o, h2, ho, hh⟩ := hh
      obtain ⟨hao, heq⟩ := hObjAt_ok ho
      rw [heq] at hh
      cases o with
      | dict rd =>
        dsimp only at hh
        rw [hbind_eq_ok] at hh
        obtain ⟨na, h3, hna, hh⟩ := hh
        rw [hAlloc_apply] at hna
        injection hna with hp
        injection hp with p1 p2
        subst p1
        subst p2
        rw [hbind_eq_ok] at hh
        obtain ⟨y, h4, hy, hh⟩ := hh
        rw [hpure_eq_ok] at hy
        rw [← hy.2] at hh
        exact frameOK_none_trans (frameOK_append _ _ _) (hjp _ _ hh)
      | list l =>
        dsimp only at hh
        rw [hbind_eq_ok] at hh
        obtain ⟨y, h4, hy, hh⟩ := hh
        rw [hpure_eq_ok] at hy
        rw [← hy.2] at hh
        exact hjp _ _ hh
    | str s =>
      dsimp only at hh
      rw [hbind_eq_ok] at hh
      obtain ⟨y, h4, hy, hh⟩ := hh
      rw [hpure_eq_ok] at hy
      rw [← hy.2] at hh
      exact hjp _ _ hh
    | int n =>
      dsimp only at hh
      rw [hbind_eq_ok] at hh
      obtain ⟨y, h4, hy, hh⟩ := hh
      rw [hpure_eq_ok] at hy
      rw [← hy.2] at hh
      exact hjp _ _ hh
    | bool b =>
      dsimp only at hh
      rw [hbind_eq_ok] at hh
      obtain ⟨y, h4, hy, hh⟩ := hh
      rw [hpure_eq_ok] at hy
      rw [← hy.2] at hh
      exact hjp _ _ hh
    | none =>
      dsimp only at hh
      rw [hbind_eq_ok] at hh
      obtain ⟨y, h4, hy, hh⟩ := hh
      rw [hpure_eq_ok] at hy
      rw [← hy.2] at hh
      exact hjp _ _ hh

theorem lt_length_of_getElem? {h : Heap} {a : Nat} {o : HObj}
    (hh : h[a]? = some o) : a < h.length := by
  rw [List.getElem?_eq_some] at hh
  exact hh.1

theorem hFilterRelationships_frame (a : Nat) (rt : ResourceType) (op : OperationType)
    (h h' : Heap) (u : Unit) (hh : hFilterRelationships a rt op h = .ok (u, h')) :
    frameOK h h' (fun b => b = a) := by
  unfold hFilterRelationships at hh
  dsimp only at hh
  rw [hbind_eq_ok] at hh
  obtain ⟨f, h2, hf, hh⟩ := hh
  obtain ⟨hao, heq⟩ := hDictFields_ok hf
  rw [heq] at hh
  rw [hbind_eq_ok] at hh
  obtain ⟨u1, h3, hw1, hh⟩ := hh
  rw [hWrite_apply] at hw1
  injection hw1 with hp
  injection hp with p1 p2
  subst p2
  rw [hbind_eq_ok] at hh
  obtain ⟨f2, h4, hf2, hh⟩ := hh
  obtain ⟨hao2, heq2⟩ := hDictFields_ok hf2
  rw [heq2] at hh
  rw [hbind_eq_ok] at hh
  obtain ⟨f3, h5, hstrip, hh⟩ := hh
  rw [hWrite_apply] at hh
  injection hh with hq
  injection hq with q1 q2
  subst q2
  -- stage 1: h → h.set a (dict f1), exception a
  have hs1 : frameOK h (h.set a (.dict (if op = OperationType.READ ∧
      essentialTruthy (configFor rt).essential_relationships then
        f.filter (fun p => (((configFor rt).essential_relationships).getD []).contains p.1)
      else f))) (fun b => b = a) := frameOK_set _ hao
  have hs2 : frameOK (h.set a (.dict (if op = OperationType.READ ∧
      essentialTruthy (configFor rt).essential_relationships then
        f.filter (fun p => (((configFor rt).essential_relationships).getD []).contains p.1)
      else f)) : Heap) h5 exNone := hStripRelLinks_frame _ _ _ _ hstrip
  have hs3 : frameOK h5 (h5.set a (.dict f3)) (fun b => b = a) := by
    have hlt : a < h.length := lt_length_of_getElem? hao
    have hao5 : h5[a]? = some (.dict f2) := by
      rcases hs2.2 a (lt_length_of_getElem? hao2) with heq5 | ⟨hex, _⟩
      · rw [heq5]; exact hao2
      · exact hex.elim
    exact frameOK_set _ hao5
  have hcomb := frameOK_trans (frameOK_trans hs1 hs2) hs3
  exact frameOK_mono hcomb (fun b hx => by
    rcases hx with hx | hx
    · rcases hx with hx | hx
      · exact hx
      · exact absurd hx (fun hf => hf.elim)
    · exact hx)

theorem frameOK_mono_lt {h h' : Heap} {ex ex' : Nat → Prop}
    (hf : frameOK h h' ex) (himp : ∀ b, b < h.length → ex b → ex' b) :
    frameOK h h' ex' := by
  refine ⟨hf.1, fun b hb => ?_⟩
  rcases hf.2 b hb with heq | ⟨hex, f, f', h1, h2⟩
  · exact Or.inl heq
  · exact Or.inr ⟨himp b hb hex, f, f', h1, h2⟩

theorem hFilterItemAttributes_frame (item : HVal) (rt : ResourceType) (op : OperationType)
    (h h' : Heap) (u : Unit) (hh : hFilterItemAttributes item rt op h = .ok (u, h')) :
    frameOK h h' (fun b => item = .ref b) := by
  unfold hFilterItemAttributes at hh
  dsimp only at hh
  rw [hbind_eq_ok] at hh
  obtain ⟨c, h2, hc, hh⟩ := hh
  have heq := hContains_ok hc
  rw [heq] at hh
  by_cases hcb : (!c) = true
  · rw [if_pos hcb] at hh
    rw [hpure_eq_ok] at hh
    rw [← hh.2]
    exact frameOK_refl _ _
  · rw [if_neg hcb] at hh
    rw [hbind_eq_ok] at hh
    obtain ⟨y0, h3, hp0, hh⟩ := hh
    rw [hpure_eq_ok] at hp0
    rw [← hp0.2] at hh
    rw [hbind_eq_ok] at hh
    obtain ⟨av, h4, hav, hh⟩ := hh
    have heq4 := (hGetItem_ok hav).1
    obtain ⟨ia0, f0, hitem, hiaobj, hgetav⟩ := (hGetItem_ok hav).2
    rw [heq4] at hh
    rw [hbind_eq_ok] at hh
    obtain ⟨avd, h5, havd, hh⟩ := hh
    rw [hIsDictRef_ok havd] at hh
    by_cases havb : (!avd) = true
    · rw [if_pos havb] at hh
      rw [hpure_eq_ok] at hh
      rw [← hh.2]
      exact frameOK_refl _ _
    · rw [if_neg havb] at hh
      rw [hbind_eq_ok] at hh
      obtain ⟨y1, h6, hp1, hh⟩ := hh
      rw [hpure_eq_ok] at hp1
      rw [← hp1.2] at hh
      subst hitem
      cases av with
      | ref aa =>
        dsimp only at hh
        rw [hbind_eq_ok] at hh
        obtain ⟨ao, h7, hao7, hh⟩ := hh
        obtain ⟨haoobj, heq7⟩ := hObjAt_ok hao7
        rw [heq7] at hh
        cases ao with
        | dict attrs0 =>
          dsimp only at hh
          rw [hbind_eq_ok] at hh
          obtain ⟨ca, h8, hca, hh⟩ := hh
          rw [hAlloc_apply] at hca
          injection hca with hp
          injection hp with p1 p2
          subst p1
          subst p2
          rw [hbind_eq_ok] at hh
          obtain ⟨u2, h9, hds1, hh⟩ := hh
          obtain ⟨fX, hXobj, h9eq⟩ := hDictSet_ok hds1
          subst h9eq
          have hF1 : frameOK h (h ++ [HObj.dict (removeFields attrs0
              (fieldsToRemove (configFor rt) op))]) exNone := frameOK_append _ _ _
          have hF2 := frameOK_set (dSet fX "attributes"
            (HVal.ref (h.length))) hXobj
          rw [hbind_eq_ok] at hh
          obtain ⟨f2, h10, hf2, hh⟩ := hh
          obtain ⟨hf2obj, heq10⟩ := hDictFields_ok hf2
          rw [heq10] at hh
          by_cases hrel : dContains f2 "relationships" = true
          · rw [if_pos hrel] at hh
            rw [hbind_eq_ok] at hh
            obtain ⟨rc, h11, hrc, hh⟩ := hh
            obtain ⟨rva, rvo, hrvval, hrvobj, hrcval, h11eq⟩ := hCopy_ok hrc
            subst h11eq
            rw [hbind_eq_ok] at hh
            obtain ⟨u3, h12, hds2, hh⟩ := hh
            obtain ⟨fY, hYobj, h12eq⟩ := hDictSet_ok hds2
            subst h12eq
            subst hrcval
            dsimp only at hh
            rw [hbind_eq_ok] at hh
            obtain ⟨ro, h13, hro, hh⟩ := hh
            obtain ⟨hroobj, heq13⟩ := hObjAt_ok hro
            rw [heq13] at hh
            cases ro with
            | dict rd =>
              dsimp only at hh
              rw [hbind_eq_ok] at hh
              obtain ⟨u4, h14, hfr, hh⟩ := hh
              have hF5 := hFilterRelationships_frame _ _ _ _ _ _ hfr
              rw [hbind_eq_ok] at hh
              obtain ⟨f3, h15, hf3, hh⟩ := hh
              obtain ⟨hf3obj, heq15⟩ := hDictFields_ok hf3
              rw [heq15] at hh
              rw [hWrite_apply] at hh
              injection hh with hq
              injection hq with q1 q2
              subst q2
              have hF3 : frameOK ((h ++ [HObj.dict (removeFields attrs0
                  (fieldsToRemove (configFor rt) op))]).set ia0
                    (.dict (dSet fX "attributes" (HVal.ref h.length))))
                  (((h ++ [HObj.dict (removeFields attrs0
                  (fieldsToRemove (configFor rt) op))]).set ia0
                    (.dict (dSet fX "attributes" (HVal.ref h.length)))) ++ [rvo])
                  exNone := frameOK_append _ _ _
              have hF4 := frameOK_set (dSet fY "relationships"
                (HVal.ref ((((h ++ [HObj.dict (removeFields attrs0
                  (fieldsToRemove (configFor rt) op))]).set ia0
                    (.dict (dSet fX "attributes" (HVal.ref h.length))))).length)))
                hYobj
              have hF6 := frameOK_set (dPop f3 "links") hf3obj
              have hAll := frameOK_trans (frameOK_trans (frameOK_trans
                (frameOK_trans (frameOK_trans hF1 hF2) hF3) hF4) hF5) hF6
              refine frameOK_mono_lt hAll (fun b hb hx => ?_)
              have hbra : b < ((h ++ [HObj.dict (removeFields attrs0
                  (fieldsToRemove (configFor rt) op))]).set ia0
                    (.dict (dSet fX "attributes" (HVal.ref h.length)))).length := by
                simp only [List.length_set, List.length_append, List.length_cons,
                  List.length_nil]
                omega
              rcases hx with ((((hx | hx) | hx) | hx) | hx) | hx
              · exact hx.elim
              · rw [hx]
              · exact hx.elim
              · rw [hx]
              · exfalso
                rw [hx] at hb
                simp only [List.length_set, List.length_append, List.length_cons,
                  List.length_nil] at hb
                omega
              · rw [hx]
            | list rd =>
              rw [hbind_eq_ok] at hh
              obtain ⟨u4, h14, habs, hh⟩ := hh
              exact absurd habs hThrow_ne_ok
          · rw [if_neg hrel] at hh
            rw [hbind_eq_ok] at hh
            obtain ⟨y2, h11, hp2, hh⟩ := hh
            rw [hpure_eq_ok] at hp2
            rw [← hp2.2] at hh
            rw [hbind_eq_ok] at hh
            obtain ⟨f3, h12, hf3, hh⟩ := hh
            obtain ⟨hf3obj, heq12⟩ := hDictFields_ok hf3
            rw [heq12] at hh
            rw [hWrite_apply] at hh
            injection hh with hq
            injection hq with q1 q2
            subst q2
            have hF6 := frameOK_set (dPop f3 "links") hf3obj
            have hAll := frameOK_trans (frameOK_trans hF1 hF2) hF6
            refine frameOK_mono_lt hAll (fun b hb hx => ?_)
            rcases hx with (hx | hx) | hx
            · exact hx.elim
            · rw [hx]
            · rw [hx]
        | list a2 =>
          exact absurd hh hThrow_ne_ok
      | str s => exact absurd hh hThrow_ne_ok
      | int n => exact absurd hh hThrow_ne_ok
      | bool b => exact absurd hh hThrow_ne_ok
      | none => exact absurd hh hThrow_ne_ok

theorem hFilterItems_frame (items : List HVal) (rt : ResourceType) (op : OperationType)
    (h h' : Heap) (u : Unit) (hh : hFilterItems items rt op h = .ok (u, h')) :
    frameOK h h' (fun b => HVal.ref b ∈ items) := by
  induction items generalizing h h' u with
  | nil =>
    unfold hFilterItems at hh
    rw [hpure_eq_ok] at hh
    rw [← hh.2]
    exact frameOK_refl _ _
  | cons it rest ih =>
    unfold hFilterItems at hh
    rw [hbind_eq_ok] at hh
    obtain ⟨u1, h2, hit, hh⟩ := hh
    have hF1 := hFilterItemAttributes_frame _ _ _ _ _ _ hit
    have hF2 := ih _ _ _ hh
    refine frameOK_mono_lt (frameOK_trans hF1 hF2) (fun b hb hx => ?_)
    rcases hx with hx | hx
    · rw [hx]; exact List.mem_cons_self _ _
    · exact List.mem_cons_of_mem _ hx

theorem hCopyEach_spec (items : List HVal) (h h' : Heap) (items1 : List HVal)
    (hh : hCopyDataItems.hCopyEach items h = .ok (items1, h')) :
    frameOK h h' exNone ∧ goodElems items1 h := by
  induction items generalizing h h' items1 with
  | nil =>
    unfold hCopyDataItems.hCopyEach at hh
    rw [hpure_eq_ok] at hh
    rw [← hh.2, ← hh.1]
    exact ⟨frameOK_refl _ _, fun v hv => absurd hv (List.not_mem_nil v)⟩
  | cons v rest ih =>
    unfold hCopyDataItems.hCopyEach at hh
    have hjp : ∀ (v1 : HVal) (h4 : Heap),
        (do
          let rest1 ← hCopyDataItems.hCopyEach rest
          pure (v1 :: rest1) : HM (List HVal)) h4 = .ok (items1, h') →
        frameOK h4 h' exNone ∧ ∃ rest1, items1 = v1 :: rest1 ∧ goodElems rest1 h4 := by
      intro v1 h4 hrun
      rw [hbind_eq_ok] at hrun
      obtain ⟨rest1, h5, hrest, hrun⟩ := hrun
      rw [hpure_eq_ok] at hrun
      obtain ⟨hi, hheq⟩ := hrun
      obtain ⟨hfr, hge⟩ := ih _ _ _ hrest
      rw [← hheq]
      exact ⟨hfr, rest1, hi.symm, hge⟩
    cases v with
    | ref va =>
      dsimp only at hh
      rw [hbind_eq_ok] at hh
      obtain ⟨o, h2, ho, hh⟩ := hh
      obtain ⟨hao, heq⟩ := hObjAt_ok ho
      rw [heq] at hh
      cases o with
      | dict f =>
        dsimp only at hh
        rw [hbind_eq_ok] at hh
        obtain ⟨na, h3, hna, hh⟩ := hh
        rw [hAlloc_apply] at hna
        injection hna with hp
        injection hp with p1 p2
        subst p1
        subst p2
        rw [hbind_eq_ok] at hh
        obtain ⟨y, h4, hy, hh⟩ := hh
        rw [hpure_eq_ok] at hy
        rw [← hy.2] at hh
        obtain ⟨hfr, rest1, hi, hge⟩ := hjp _ _ hh
        refine ⟨frameOK_none_trans (frameOK_append _ _ _) hfr, ?_⟩
        rw [hi, ← hy.1]
        intro w hw b hwb
        rcases List.mem_cons.mp hw with rfl | hw2
        · injection hwb with hb
          subst hb
          exact Or.inl (Nat.le_refl _)
        · rcases hge w hw2 b hwb with hle | ⟨l, hl⟩
          · refine Or.inl (Nat.le_trans ?_ hle)
            simp
          · by_cases hblt : b < h.length
            · refine Or.inr ⟨l, ?_⟩
              rw [List.getElem?_append_left hblt] at hl
              exact hl
            · exact Or.inl (Nat.le_of_not_lt hblt)
      | list l0 =>
        dsimp only at hh
        rw [hbind_eq_ok] at hh
        obtain ⟨y, h4, hy, hh⟩ := hh
        rw [hpure_eq_ok] at hy
        rw [← hy.2] at hh
        obtain ⟨hfr, rest1, hi, hge⟩ := hjp _ _ hh
        refine ⟨hfr, ?_⟩
        rw [hi, ← hy.1]
        intro w hw b hwb
        rcases List.mem_cons.mp hw with rfl | hw2
        · injection hwb with hb
          subst hb
          exact Or.inr ⟨l0, hao⟩
        · exact hge w hw2 b hwb
    | str s =>
      dsimp only at hh
      rw [hbind_eq_ok] at hh
      obtain ⟨y, h4, hy, hh⟩ := hh
      rw [hpure_eq_ok] at hy
      rw [← hy.2] at hh
      obtain ⟨hfr, rest1, hi, hge⟩ := hjp _ _ hh
      refine ⟨hfr, ?_⟩
      rw [hi, ← hy.1]
      intro w hw b hwb
      rcases List.mem_cons.mp hw with rfl | hw2
      · cases hwb
      · exact hge w hw2 b hwb
    | int n =>
      dsimp only at hh
      rw [hbind_eq_ok] at hh
      obtain ⟨y, h4, hy, hh⟩ := hh
      rw [hpure_eq_ok] at hy
      rw [← hy.2] at hh
      obtain ⟨hfr, rest1, hi, hge⟩ := hjp _ _ hh
      refine ⟨hfr, ?_⟩
      rw [hi, ← hy.1]
      intro w hw b hwb
      rcases List.mem_cons.mp hw with rfl | hw2
      · cases hwb
      · exact hge w hw2 b hwb
    | bool bb =>
      dsimp only at hh
      rw [hbind_eq_ok] at hh
      obtain ⟨y, h4, hy, hh⟩ := hh
      rw [hpure_eq_ok] at hy
      rw [← hy.2] at hh
      obtain ⟨hfr, rest1, hi, hge⟩ := hjp _ _ hh
      refine ⟨hfr, ?_⟩
      rw [hi, ← hy.1]
      intro w hw b hwb
      rcases List.mem_cons.mp hw with rfl | hw2
      · cases hwb
      · exact hge w hw2 b hwb
    | none =>
      dsimp only at hh
      rw [hbind_eq_ok] at hh
      obtain ⟨y, h4, hy, hh⟩ := hh
      rw [hpure_eq_ok] at hy
      rw [← hy.2] at hh
      obtain ⟨hfr, rest1, hi, hge⟩ := hjp _ _ hh
      refine ⟨hfr, ?_⟩
      rw [hi, ← hy.1]
      intro w hw b hwb
      rcases List.mem_cons.mp hw with rfl | hw2
      · cases hwb
      · exact hge w hw2 b hwb

theorem hCopyDataItems_spec (dv : HVal) (h h' : Heap) (dv1 : HVal)
    (hh : hCopyDataItems dv h = .ok (dv1, h')) :
    frameOK h h' exNone ∧
      ((dv1 = dv ∧ ∀ b, dv1 ≠ .ref b) ∨
       (∃ na o, dv1 = .ref na ∧ h.length ≤ na ∧ h'[na]? = some o ∧
         ∀ items1, o = .list items1 → goodElems items1 h)) := by
  unfold hCopyDataItems at hh
  cases dv with
  | ref da =>
    dsimp only at hh
    rw [hbind_eq_ok] at hh
    obtain ⟨o, h2, ho, hh⟩ := hh
    obtain ⟨hao, heq⟩ := hObjAt_ok ho
    rw [heq] at hh
    cases o with
    | list items =>
      dsimp only at hh
      rw [hbind_eq_ok] at hh
      obtain ⟨items1, h3, heach, hh⟩ := hh
      obtain ⟨hfr, hge⟩ := hCopyEach_spec _ _ _ _ heach
      rw [hbind_eq_ok] at hh
      obtain ⟨na, h4, hna, hh⟩ := hh
      rw [hAlloc_apply] at hna
      injection hna with hp
      injection hp with p1 p2
      subst p1
      subst p2
      rw [hpure_eq_ok] at hh
      obtain ⟨hv1, hh4⟩ := hh
      rw [← hh4, ← hv1]
      refine ⟨frameOK_none_trans hfr (frameOK_append _ _ _), Or.inr
        ⟨h3.length, .list items1, rfl, Nat.le_trans hfr.1 (Nat.le_refl _), ?_, ?_⟩⟩
      · exact List.getElem?_concat_length _ _
      · intro its hits
        injection hits with hits2
        subst hits2
        exact hge
    | dict f =>
      dsimp only at hh
      rw [hbind_eq_ok] at hh
      obtain ⟨na, h3, hna, hh⟩ := hh
      rw [hAlloc_apply] at hna
      injection hna with hp
      injection hp with p1 p2
      subst p1
      subst p2
      rw [hpure_eq_ok] at hh
      obtain ⟨hv1, hh3⟩ := hh
      rw [← hh3, ← hv1]
      refine ⟨frameOK_append _ _ _, Or.inr
        ⟨h.length, .dict f, rfl, Nat.le_refl _, List.getElem?_concat_length _ _, ?_⟩⟩
      intro its hits
      cases hits
  | str s =>
    rw [hpure_eq_ok] at hh
    rw [← hh.2, ← hh.1]
    exact ⟨frameOK_refl _ _, Or.inl ⟨rfl, fun b hb => HVal.noConfusion hb⟩⟩
  | int n =>
    rw [hpure_eq_ok] at hh
    rw [← hh.2, ← hh.1]
    exact ⟨frameOK_refl _ _, Or.inl ⟨rfl, fun b hb => HVal.noConfusion hb⟩⟩
  | bool b =>
    rw [hpure_eq_ok] at hh
    rw [← hh.2, ← hh.1]
    exact ⟨frameOK_refl _ _, Or.inl ⟨rfl, fun b hb => HVal.noConfusion hb⟩⟩
  | none =>
    rw [hpure_eq_ok] at hh
    rw [← hh.2, ← hh.1]
    exact ⟨frameOK_refl _ _, Or.inl ⟨rfl, fun b hb => HVal.noConfusion hb⟩⟩

theorem getElem?_append_left_of {h : Heap} {a : Nat} {o : HObj} (t : Heap)
    (hao : h[a]? = some o) : (h ++ t)[a]? = some o := by
  rw [List.getElem?_append_left (lt_length_of_getElem? hao)]
  exact hao

theorem set_getElem?_self {h : Heap} {a : Nat} (o : HObj)
    (hlt : a < h.length) : (h.set a o)[a]? = some o :=
  List.getElem?_set_self hlt

theorem hCopyMetaLinks_spec (a : Nat) (h h' : Heap) (u : Unit)
    (hh : hCopyMetaLinks a h = .ok (u, h')) :
    frameOK h h' (fun b => b = a) ∧
      ∀ f0, h[a]? = some (.dict f0) →
        ∃ f', h'[a]? = some (.dict f') ∧
          (∀ k, k ≠ "meta" → k ≠ "links" → dGet? f' k = dGet? f0 k) ∧
          (∀ v, dGet? f' "meta" = some v → ∃ m, v = .ref m ∧ h.length ≤ m) := by
  unfold hCopyMetaLinks at hh
  dsimp only at hh
  rw [hbind_eq_ok] at hh
  obtain ⟨f, h2, hf, hh⟩ := hh
  obtain ⟨hao, heq⟩ := hDictFields_ok hf
  rw [heq] at hh
  have hlt : a < h.length := lt_length_of_getElem? hao
  by_cases hm : dContains f "meta" = true
  · rw [if_pos hm] at hh
    rw [hbind_eq_ok] at hh
    obtain ⟨c1, h3, hc1, hh⟩ := hh
    obtain ⟨rva, rvo, hrv, hrvo, hc1v, h3eq⟩ := hCopy_ok hc1
    subst h3eq
    subst hc1v
    rw [hbind_eq_ok] at hh
    obtain ⟨u1, h4, hds, hh⟩ := hh
    obtain ⟨fZ, hZobj, h4eq⟩ := hDictSet_ok hds
    subst h4eq
    have hfZ : fZ = f := by
      have h5 := getElem?_append_left_of [rvo] hao
      rw [h5] at hZobj
      exact (HObj.dict.inj (Option.some.inj hZobj)).symm
    rw [hfZ] at hh
    have hltA : a < ((h ++ [rvo]).set a
        (.dict (dSet f "meta" (.ref h.length)))).length := by
      simp only [List.length_set, List.length_append, List.length_cons, List.length_nil]
      omega
    rw [hbind_eq_ok] at hh
    obtain ⟨f2, h5, hf2, hh⟩ := hh
    obtain ⟨hf2obj, heq5⟩ := hDictFields_ok hf2
    rw [heq5] at hh
    have hf2v : f2 = dSet f "meta" (.ref h.length) := by
      have h6 := set_getElem?_self (h := h ++ [rvo]) (a := a)
        (.dict (dSet f "meta" (.ref h.length))) (by
          simp only [List.length_append, List.length_cons, List.length_nil]
          omega)
      rw [h6] at hf2obj
      exact (HObj.dict.inj (Option.some.inj hf2obj)).symm
    rw [hf2v] at hh
    have hF12 : frameOK h ((h ++ [rvo]).set a
        (.dict (dSet f "meta" (.ref h.length)))) (fun b => b = a) := by
      have hA := frameOK_append h [rvo] exNone
      have hB := frameOK_set (dSet f "meta" (.ref h.length))
        (getElem?_append_left_of [rvo] hao)
      refine frameOK_mono_lt (frameOK_trans hA hB) (fun b hb hx => ?_)
      rcases hx with hx | hx
      · exact hx.elim
      · exact hx
    by_cases hl : dContains (dSet f "meta" (.ref h.length)) "links" = true
    · rw [if_pos hl] at hh
      rw [hbind_eq_ok] at hh
      obtain ⟨c2, h6, hc2, hh⟩ := hh
      obtain ⟨lva, lvo, hlv, hlvo, hc2v, h6eq⟩ := hCopy_ok hc2
      subst h6eq
      subst hc2v
      obtain ⟨fW, hWobj, h7eq⟩ := hDictSet_ok hh
      rw [h7eq]
      have hfW : fW = dSet f "meta" (.ref h.length) := by
        have h8 := getElem?_append_left_of [lvo] (set_getElem?_self
          (h := h ++ [rvo]) (a := a) (.dict (dSet f "meta" (.ref h.length))) (by
            simp only [List.length_append, List.length_cons, List.length_nil]
            omega))
        rw [h8] at hWobj
        exact (HObj.dict.inj (Option.some.inj hWobj)).symm
      subst hfW
      constructor
      · have hA := frameOK_append ((h ++ [rvo]).set a
          (.dict (dSet f "meta" (.ref h.length)))) [lvo] exNone
        have hB := frameOK_set (dSet (dSet f "meta" (.ref h.length)) "links"
          (.ref (((h ++ [rvo]).set a (.dict (dSet f "meta" (.ref h.length)))).length)))
          (getElem?_append_left_of [lvo] (set_getElem?_self
            (h := h ++ [rvo]) (a := a) (.dict (dSet f "meta" (.ref h.length))) (by
              simp only [List.length_append, List.length_cons, List.length_nil]
              omega)))
        refine frameOK_mono_lt (frameOK_trans hF12 (frameOK_trans hA hB))
          (fun b hb hx => ?_)
        rcases hx with hx | hx | hx
        · exact hx
        · exact hx.elim
        · exact hx
      · intro f0 hf0
        have hf0f : f0 = f := by
          rw [hao] at hf0
          exact (HObj.dict.inj (Option.some.inj hf0)).symm
        subst hf0f
        refine ⟨_, set_getElem?_self _ (by
          simp only [List.length_set, List.length_append, List.length_cons,
            List.length_nil]
          omega), ?_, ?_⟩
        · intro k hkm hkl
          rw [dGet?_dSet_ne _ _ _ _ hkl, dGet?_dSet_ne _ _ _ _ hkm]
        · intro v hv
          rw [dGet?_dSet_ne _ _ _ _ (by decide), dGet?_dSet_self] at hv
          exact ⟨h.length, (Option.some.inj hv).symm, Nat.le_refl _⟩
    · rw [if_neg hl] at hh
      rw [hpure_eq_ok] at hh
      rw [← hh.2]
      constructor
      · exact hF12
      · intro f0 hf0
        have hf0f : f0 = f := by
          rw [hao] at hf0
          exact (HObj.dict.inj (Option.some.inj hf0)).symm
        subst hf0f
        refine ⟨_, set_getElem?_self _ (by
          simp only [List.length_append, List.length_cons, List.length_nil]
          omega), ?_, ?_⟩
        · intro k hkm hkl
          rw [dGet?_dSet_ne _ _ _ _ hkm]
        · intro v hv
          rw [dGet?_dSet_self] at hv
          exact ⟨h.length, (Option.some.inj hv).symm, Nat.le_refl _⟩
  · rw [if_neg hm] at hh
    rw [hbind_eq_ok] at hh
    obtain ⟨y0, h3, hp0, hh⟩ := hh
    rw [hpure_eq_ok] at hp0
    rw [← hp0.2] at hh
    rw [hbind_eq_ok] at hh
    obtain ⟨f2, h4, hf2, hh⟩ := hh
    obtain ⟨hf2obj, heq4⟩ := hDictFields_ok hf2
    rw [heq4] at hh
    have hf2v : f2 = f := by
      rw [hao] at hf2obj
      exact (HObj.dict.inj (Option.some.inj hf2obj)).symm
    rw [hf2v] at hh
    have hmetaNone : dGet? f "meta" = Option.none := by
      cases hg : dGet? f "meta" with
      | none => rfl
      | some w =>
        exact absurd ((dContains_iff_dGet? f "meta").mpr ⟨w, hg⟩) hm
    by_cases hl : dContains f "links" = true
    · rw [if_pos hl] at hh
      rw [hbind_eq_ok] at hh
      obtain ⟨c2, h5, hc2, hh⟩ := hh
      obtain ⟨lva, lvo, hlv, hlvo, hc2v, h5eq⟩ := hCopy_ok hc2
      subst h5eq
      subst hc2v
      obtain ⟨fW, hWobj, h6eq⟩ := hDictSet_ok hh
      have hfW : fW = f := by
        have h7 := getElem?_append_left_of [lvo] hao
        rw [h7] at hWobj
        exact (HObj.dict.inj (Option.some.inj hWobj)).symm
      rw [hfW] at h6eq
      rw [h6eq]
      constructor
      · have hA := frameOK_append h [lvo] exNone
        have hB := frameOK_set (dSet f "links" (.ref h.length))
          (getElem?_append_left_of [lvo] hao)
        refine frameOK_mono_lt (frameOK_trans hA hB) (fun b hb hx => ?_)
        rcases hx with hx | hx
        · exact hx.elim
        · exact hx
      · intro f0 hf0
        have hf0f : f0 = f := by
          rw [hao] at hf0
          exact (HObj.dict.inj (Option.some.inj hf0)).symm
        subst hf0f
        refine ⟨_, set_getElem?_self _ (by
          simp only [List.length_append, List.length_cons, List.length_nil]
          omega), ?_, ?_⟩
        · intro k hkm hkl
          rw [dGet?_dSet_ne _ _ _ _ hkl]
        · intro v hv
          rw [dGet?_dSet_ne _ _ _ _ (by decide), hmetaNone] at hv
          cases hv
    · rw [if_neg hl] at hh
      rw [hpure_eq_ok] at hh
      rw [← hh.2]
      refine ⟨frameOK_refl _ _, ?_⟩
      intro f0 hf0
      have hf0f : f0 = f := by
        rw [hao] at hf0
        exact (HObj.dict.inj (Option.some.inj hf0)).symm
      rw [hf0f]
      refine ⟨f, hao, fun k _ _ => rfl, ?_⟩
      intro v hv
      rw [hmetaNone] at hv
      cases hv

theorem hFilterListMetadata_frame (a : Nat) (h h' : Heap) (u : Unit)
    (hh : hFilterListMetadata a h = .ok (u, h')) :
    frameOK h h' (fun b => b = a ∨
      ∃ f, h[a]? = some (.dict f) ∧ dGet? f "meta" = some (.ref b)) := by
  unfold hFilterListMetadata at hh
  dsimp only at hh
  rw [hbind_eq_ok] at hh
  obtain ⟨f, h2, hf, hh⟩ := hh
  obtain ⟨hao, heq⟩ := hDictFields_ok hf
  rw [heq] at hh
  have hlinks : ∀ (h4 : Heap),
      (do
        let f2 ← hDictFields a
        match dGet? f2 "links" with
        | some lv => do
          let lIsDict ← hIsDictRef lv
          if lIsDict then
            match lv with
            | .ref la => do
              let lo ← hObjAt la
              match lo with
              | .dict links => do
                let na ← hAlloc (.dict
                  (["next", "prev", "first", "last"].filterMap
                    (fun k => (dGet? links k).map (fun v => (k, v)))))
                hDictSet a "links" (.ref na)
              | .list _ => hThrow .typeError
            | _ => hThrow .typeError
          else pure ()
        | Option.none => pure () : HM Unit) h4 = .ok (u, h') →
      frameOK h4 h' (fun b => b = a) := by
    intro h4 hrun
    rw [hbind_eq_ok] at hrun
    obtain ⟨f2, h5, hf2, hrun⟩ := hrun
    obtain ⟨hf2obj, heq5⟩ := hDictFields_ok hf2
    rw [heq5] at hrun
    cases hg : dGet? f2 "links" with
    | none =>
      rw [hg] at hrun
      dsimp only at hrun
      rw [hpure_eq_ok] at hrun
      rw [← hrun.2]
      exact frameOK_refl _ _
    | some lv =>
      rw [hg] at hrun
      dsimp only at hrun
      rw [hbind_eq_ok] at hrun
      obtain ⟨lb, h6, hlb, hrun⟩ := hrun
      rw [hIsDictRef_ok hlb] at hrun
      by_cases hlbb : lb = true
      · rw [if_pos hlbb] at hrun
        cases lv with
        | ref la =>
          dsimp only at hrun
          rw [hbind_eq_ok] at hrun
          obtain ⟨lo, h7, hlo, hrun⟩ := hrun
          obtain ⟨hloobj, heq7⟩ := hObjAt_ok hlo
          rw [heq7] at hrun
          cases lo with
          | dict links =>
            dsimp only at hrun
            rw [hbind_eq_ok] at hrun
            obtain ⟨na, h8, hna, hrun⟩ := hrun
            rw [hAlloc_apply] at hna
            injection hna with hp
            injection hp with p1 p2
            subst p1
            subst p2
            obtain ⟨fW, hWobj, hWeq⟩ := hDictSet_ok hrun
            rw [hWeq]
            refine frameOK_mono_lt (frameOK_trans (frameOK_append _ _ exNone)
              (frameOK_set _ hWobj)) (fun b hb hx => ?_)
            rcases hx with hx | hx
            · exact hx.elim
            · exact hx
          | list l2 => first
                | exact absurd hrun hThrow_ne_ok
                | (rw [hbind_eq_ok] at hrun; obtain ⟨x1, x2, habs, hrest⟩ := hrun; exact absurd habs hThrow_ne_ok)
        | str s => first
                | exact absurd hrun hThrow_ne_ok
                | (rw [hbind_eq_ok] at hrun; obtain ⟨x1, x2, habs, hrest⟩ := hrun; exact absurd habs hThrow_ne_ok)
        | int n => first
                | exact absurd hrun hThrow_ne_ok
                | (rw [hbind_eq_ok] at hrun; obtain ⟨x1, x2, habs, hrest⟩ := hrun; exact absurd habs hThrow_ne_ok)
        | bool b2 => first
                | exact absurd hrun hThrow_ne_ok
                | (rw [hbind_eq_ok] at hrun; obtain ⟨x1, x2, habs, hrest⟩ := hrun; exact absurd habs hThrow_ne_ok)
        | none => first
                | exact absurd hrun hThrow_ne_ok
                | (rw [hbind_eq_ok] at hrun; obtain ⟨x1, x2, habs, hrest⟩ := hrun; exact absurd habs hThrow_ne_ok)
      · rw [if_neg hlbb] at hrun
        rw [hpure_eq_ok] at hrun
        rw [← hrun.2]
        exact frameOK_refl _ _
  by_cases hmeta : dContains f "meta" = true
  · rw [if_pos hmeta] at hh
    obtain ⟨w, hgw⟩ := (dContains_iff_dGet? f "meta").mp hmeta
    rw [hgw] at hh
    simp only [Option.getD_some] at hh
    cases w with
    | ref ma =>
      have hsc : ∀ (h4 : Heap),
          (do
            let c2 ← hContains (HVal.ref ma) "status-counts"
            if c2 then do
              let sv ← hGetItem (HVal.ref ma) "status-counts"
              let sIsDict ← hIsDictRef sv
              if sIsDict then
                match (HVal.ref ma : HVal), sv with
                | .ref ma2, .ref sa => do
                  let so ← hObjAt sa
                  match so with
                  | .dict sc => do
                    if dContains sc "total" then do
                      let na ← hAlloc (.dict [("total", (dGet? sc "total").getD .none)])
                      hDictSet ma2 "status-counts" (.ref na)
                    else do
                      let mf ← hDictFields ma2
                      hWrite ma2 (.dict (dPop mf "status-counts"))
                  | .list _ => hThrow .typeError
                | _, _ => hThrow .typeError
              else pure ()
            else pure ()
            (do
              let f2 ← hDictFields a
              match dGet? f2 "links" with
              | some lv => do
                let lIsDict ← hIsDictRef lv
                if lIsDict then
                  match lv with
                  | .ref la => do
                    let lo ← hObjAt la
                    match lo with
                    | .dict links => do
                      let na ← hAlloc (.dict
                        (["next", "prev", "first", "last"].filterMap
                          (fun k => (dGet? links k).map (fun v => (k, v)))))
                      hDictSet a "links" (.ref na)
                    | .list _ => hThrow .typeError
                  | _ => hThrow .typeError
                else pure ()
              | Option.none => pure () : HM Unit) : HM Unit) h4 = .ok (u, h') →
          frameOK h4 h' (fun b => b = a ∨ b = ma) := by
        intro h4 hrun
        rw [hbind_eq_ok] at hrun
        obtain ⟨c2, h5, hc2, hrun⟩ := hrun
        rw [hContains_ok hc2] at hrun
        by_cases hc2b : c2 = true
        · rw [if_pos hc2b] at hrun
          rw [hbind_eq_ok] at hrun
          obtain ⟨sv, h6, hsv, hrun⟩ := hrun
          have heq6 := (hGetItem_ok hsv).1
          obtain ⟨ma0, fma, hmaeq, hmaobj, hgsv⟩ := (hGetItem_ok hsv).2
          injection hmaeq with hmaeq2
          rw [heq6] at hrun
          rw [hbind_eq_ok] at hrun
          obtain ⟨sb, h7, hsb, hrun⟩ := hrun
          rw [hIsDictRef_ok hsb] at hrun
          by_cases hsbb : sb = true
          · rw [if_pos hsbb] at hrun
            cases sv with
            | ref sa =>
              dsimp only at hrun
              rw [hbind_eq_ok] at hrun
              obtain ⟨so, h8, hso, hrun⟩ := hrun
              obtain ⟨hsoobj, heq8⟩ := hObjAt_ok hso
              rw [heq8] at hrun
              cases so with
              | dict sc =>
                dsimp only at hrun
                by_cases htot : dContains sc "total" = true
                · rw [if_pos htot] at hrun
                  rw [hbind_eq_ok] at hrun
                  obtain ⟨na, h9, hna, hrun⟩ := hrun
                  rw [hAlloc_apply] at hna
                  injection hna with hp
                  injection hp with p1 p2
                  subst p1
                  subst p2
                  rw [hbind_eq_ok] at hrun
                  obtain ⟨u2, h10, hds, hrun⟩ := hrun
                  obtain ⟨fZ, hZobj, hZeq⟩ := hDictSet_ok hds
                  rw [hZeq] at hrun
                  have hF := hlinks _ hrun
                  refine frameOK_mono_lt (frameOK_trans (frameOK_trans
                    (frameOK_append _ _ exNone) (frameOK_set _ hZobj)) hF)
                    (fun b hb hx => ?_)
                  rcases hx with (hx | hx) | hx
                  · exact hx.elim
                  · exact Or.inr hx
                  · exact Or.inl hx
                · rw [if_neg htot] at hrun
                  rw [hbind_eq_ok] at hrun
                  obtain ⟨mf, h9, hmf, hrun⟩ := hrun
                  obtain ⟨hmfobj, heq9⟩ := hDictFields_ok hmf
                  rw [heq9] at hrun
                  rw [hbind_eq_ok] at hrun
                  obtain ⟨u2, h10, hw, hrun⟩ := hrun
                  rw [hWrite_apply] at hw
                  injection hw with hp
                  injection hp with p1 p2
                  rw [← p2] at hrun
                  have hF := hlinks _ hrun
                  refine frameOK_mono_lt (frameOK_trans
                    (frameOK_set _ hmfobj) hF) (fun b hb hx => ?_)
                  rcases hx with hx | hx
                  · exact Or.inr hx
                  · exact Or.inl hx
              | list l2 => first
                | exact absurd hrun hThrow_ne_ok
                | (rw [hbind_eq_ok] at hrun; obtain ⟨x1, x2, habs, hrest⟩ := hrun; exact absurd habs hThrow_ne_ok)
            | str s => first
                | exact absurd hrun hThrow_ne_ok
                | (rw [hbind_eq_ok] at hrun; obtain ⟨x1, x2, habs, hrest⟩ := hrun; exact absurd habs hThrow_ne_ok)
            | int n => first
                | exact absurd hrun hThrow_ne_ok
                | (rw [hbind_eq_ok] at hrun; obtain ⟨x1, x2, habs, hrest⟩ := hrun; exact absurd habs hThrow_ne_ok)
            | bool b2 => first
                | exact absurd hrun hThrow_ne_ok
                | (rw [hbind_eq_ok] at hrun; obtain ⟨x1, x2, habs, hrest⟩ := hrun; exact absurd habs hThrow_ne_ok)
            | none => first
                | exact absurd hrun hThrow_ne_ok
                | (rw [hbind_eq_ok] at hrun; obtain ⟨x1, x2, habs, hrest⟩ := hrun; exact absurd habs hThrow_ne_ok)
          · rw [if_neg hsbb] at hrun
            rw [hbind_eq_ok] at hrun
            obtain ⟨y, h8, hy, hrun⟩ := hrun
            rw [hpure_eq_ok] at hy
            rw [← hy.2] at hrun
            exact frameOK_mono_lt (hlinks _ hrun) (fun b hb hx => Or.inl hx)
        · rw [if_neg hc2b] at hrun
          rw [hbind_eq_ok] at hrun
          obtain ⟨y, h6, hy, hrun⟩ := hrun
          rw [hpure_eq_ok] at hy
          rw [← hy.2] at hrun
          exact frameOK_mono_lt (hlinks _ hrun) (fun b hb hx => Or.inl hx)
      rw [hbind_eq_ok] at hh
      obtain ⟨c1, h3, hc1, hh⟩ := hh
      rw [hContains_ok hc1] at hh
      by_cases hc1b : c1 = true
      · rw [if_pos hc1b] at hh
        rw [hbind_eq_ok] at hh
        obtain ⟨pv, h4, hpv, hh⟩ := hh
        have heq4 := (hGetItem_ok hpv).1
        obtain ⟨ma0, fma, hmaeq, hmaobj, hgpv⟩ := (hGetItem_ok hpv).2
        injection hmaeq with hmaeq2
        rw [heq4] at hh
        rw [hbind_eq_ok] at hh
        obtain ⟨pb, h5, hpb, hh⟩ := hh
        rw [hIsDictRef_ok hpb] at hh
        by_cases hpbb : pb = true
        · rw [if_pos hpbb] at hh
          cases pv with
          | ref pa =>
            dsimp only at hh
            rw [hbind_eq_ok] at hh
            obtain ⟨po, h6, hpo, hh⟩ := hh
            obtain ⟨hpoobj, heq6⟩ := hObjAt_ok hpo
            rw [heq6] at hh
            cases po with
            | dict pag =>
              dsimp only at hh
              rw [hbind_eq_ok] at hh
              obtain ⟨na, h7, hna, hh⟩ := hh
              rw [hAlloc_apply] at hna
              injection hna with hp
              injection hp with p1 p2
              subst p1
              subst p2
              rw [hbind_eq_ok] at hh
              obtain ⟨u2, h8, hds, hh⟩ := hh
              obtain ⟨fZ, hZobj, hZeq⟩ := hDictSet_ok hds
              rw [hZeq] at hh
              have hF := hsc _ hh
              refine frameOK_mono_lt (frameOK_trans (frameOK_trans
                (frameOK_append _ _ exNone) (frameOK_set _ hZobj)) hF)
                (fun b hb hx => ?_)
              rcases hx with (hx | hx) | hx | hx
              · exact hx.elim
              · exact Or.inr ⟨f, hao, by rw [hx]; exact hgw⟩
              · exact Or.inl hx
              · exact Or.inr ⟨f, hao, by rw [hx]; exact hgw⟩
            | list l2 => first
                | exact absurd hh hThrow_ne_ok
                | (rw [hbind_eq_ok] at hh; obtain ⟨x1, x2, habs, hrest⟩ := hh; exact absurd habs hThrow_ne_ok)
          | str s => first
                | exact absurd hh hThrow_ne_ok
                | (rw [hbind_eq_ok] at hh; obtain ⟨x1, x2, habs, hrest⟩ := hh; exact absurd habs hThrow_ne_ok)
          | int n => first
                | exact absurd hh hThrow_ne_ok
                | (rw [hbind_eq_ok] at hh; obtain ⟨x1, x2, habs, hrest⟩ := hh; exact absurd habs hThrow_ne_ok)
          | bool b2 => first
                | exact absurd hh hThrow_ne_ok
                | (rw [hbind_eq_ok] at hh; obtain ⟨x1, x2, habs, hrest⟩ := hh; exact absurd habs hThrow_ne_ok)
          | none => first
                | exact absurd hh hThrow_ne_ok
                | (rw [hbind_eq_ok] at hh; obtain ⟨x1, x2, habs, hrest⟩ := hh; exact absurd habs hThrow_ne_ok)
        · rw [if_neg hpbb] at hh
          rw [hbind_eq_ok] at hh
          obtain ⟨y, h6, hy, hh⟩ := hh
          rw [hpure_eq_ok] at hy
          rw [← hy.2] at hh
          refine frameOK_mono_lt (hsc _ hh) (fun b hb hx => ?_)
          rcases hx with hx | hx
          · exact Or.inl hx
          · exact Or.inr ⟨f, hao, by rw [hx]; exact hgw⟩
      · rw [if_neg hc1b] at hh
        rw [hbind_eq_ok] at hh
        obtain ⟨y, h3b, hy, hh⟩ := hh
        rw [hpure_eq_ok] at hy
        rw [← hy.2] at hh
        refine frameOK_mono_lt (hsc _ hh) (fun b hb hx => ?_)
        rcases hx with hx | hx
        · exact Or.inl hx
        · exact Or.inr ⟨f, hao, by rw [hx]; exact hgw⟩
    | str s =>
      rw [hbind_eq_ok] at hh
      obtain ⟨c1, h3, hc1, hh⟩ := hh
      rw [hContains_ok hc1] at hh
      by_cases hc1b : c1 = true
      · rw [if_pos hc1b] at hh
        rw [hbind_eq_ok] at hh
        obtain ⟨pv, h4, hpv, hh⟩ := hh
        obtain ⟨ma0, fma, hmaeq, hmaobj, hgpv⟩ := (hGetItem_ok hpv).2
        cases hmaeq
      · rw [if_neg hc1b] at hh
        rw [hbind_eq_ok] at hh
        obtain ⟨y, h3b, hy, hh⟩ := hh
        rw [hpure_eq_ok] at hy
        rw [← hy.2] at hh
        rw [hbind_eq_ok] at hh
        obtain ⟨c2, h4, hc2, hh⟩ := hh
        rw [hContains_ok hc2] at hh
        by_cases hc2b : c2 = true
        · rw [if_pos hc2b] at hh
          rw [hbind_eq_ok] at hh
          obtain ⟨sv, h5, hsv, hh⟩ := hh
          obtain ⟨ma0, fma, hmaeq, hmaobj, hgsv⟩ := (hGetItem_ok hsv).2
          cases hmaeq
        · rw [if_neg hc2b] at hh
          rw [hbind_eq_ok] at hh
          obtain ⟨y2, h5, hy2, hh⟩ := hh
          rw [hpure_eq_ok] at hy2
          rw [← hy2.2] at hh
          exact frameOK_mono_lt (hlinks _ hh) (fun b hb hx => Or.inl hx)
    | int n =>
      rw [hbind_eq_ok] at hh
      obtain ⟨c1, h3, hc1, hh⟩ := hh
      unfold hContains at hc1
      exact absurd hc1 hThrow_ne_ok
    | bool b2 =>
      rw [hbind_eq_ok] at hh
      obtain ⟨c1, h3, hc1, hh⟩ := hh
      unfold hContains at hc1
      exact absurd hc1 hThrow_ne_ok
    | none =>
      rw [hbind_eq_ok] at hh
      obtain ⟨c1, h3, hc1, hh⟩ := hh
      unfold hContains at hc1
      exact absurd hc1 hThrow_ne_ok
  · rw [if_neg hmeta] at hh
    rw [hbind_eq_ok] at hh
    obtain ⟨y, h3, hy, hh⟩ := hh
    rw [hpure_eq_ok] at hy
    rw [← hy.2] at hh
    exact frameOK_mono_lt (hlinks _ hh) (fun b hb hx => Or.inl hx)

theorem hFilterResponse_frame (data : HVal) (t : RTypeArg) (op : OpArg)
    (h0 h1 : Heap) (r : HVal)
    (hrun : hFilterResponse data t op h0 = .ok (r, h1)) :
    ∀ b, b < h0.length → h1[b]? = h0[b]? := by
  intro b hb
  unfold hFilterResponse at hrun
  cases data with
  | str s => rw [hpure_eq_ok] at hrun; rw [← hrun.2]
  | int n => rw [hpure_eq_ok] at hrun; rw [← hrun.2]
  | bool b2 => rw [hpure_eq_ok] at hrun; rw [← hrun.2]
  | none => rw [hpure_eq_ok] at hrun; rw [← hrun.2]
  | ref a0 =>
    dsimp only at hrun
    rw [hbind_eq_ok] at hrun
    obtain ⟨o, h2, ho, hrun⟩ := hrun
    obtain ⟨hao, heq⟩ := hObjAt_ok ho
    rw [heq] at hrun
    cases o with
    | list l0 => rw [hpure_eq_ok] at hrun; rw [← hrun.2]
    | dict d0 =>
      dsimp only at hrun
      by_cases hdata : (!dContains d0 "data") = true
      · rw [if_pos hdata] at hrun
        rw [hpure_eq_ok] at hrun
        rw [← hrun.2]
      · rw [if_neg hdata] at hrun
        rw [hbind_eq_ok] at hrun
        obtain ⟨fa, hA, hfa, hrun⟩ := hrun
        rw [hAlloc_apply] at hfa
        injection hfa with hp
        injection hp with p1 p2
        rw [← p1] at hrun
        rw [← p2] at hrun
        -- step 2: read the copied envelope fields
        rw [hbind_eq_ok] at hrun
        obtain ⟨f1, hB0, hf1, hrun⟩ := hrun
        obtain ⟨hf1obj, heqB0⟩ := hDictFields_ok hf1
        rw [heqB0] at hrun
        have hf1d0 : f1 = d0 := by
          rw [List.getElem?_concat_length] at hf1obj
          exact (HObj.dict.inj (Option.some.inj hf1obj)).symm
        rw [hf1d0] at hrun
        -- step 3: copy the data items
        rw [hbind_eq_ok] at hrun
        obtain ⟨dv1, hB, hcdi, hrun⟩ := hrun
        obtain ⟨hFB, hdvspec⟩ := hCopyDataItems_spec _ _ _ _ hcdi
        -- step 4: filtered_data["data"] = dv1
        rw [hbind_eq_ok] at hrun
        obtain ⟨u4, hC, hds4, hrun⟩ := hrun
        obtain ⟨fB, hfBobj, hCeq⟩ := hDictSet_ok hds4
        have hfBd0 : fB = d0 := by
          have hBfa : hB[h0.length]? = some (.dict d0) := by
            rcases hFB.2 h0.length (by
              simp only [List.length_append, List.length_cons, List.length_nil]
              omega) with heqx | ⟨hex, _⟩
            · rw [heqx, List.getElem?_concat_length]
            · exact hex.elim
          rw [hBfa] at hfBobj
          exact (HObj.dict.inj (Option.some.inj hfBobj)).symm
        rw [hfBd0] at hCeq
        rw [hCeq] at hrun
        -- step 5: copy meta/links
        rw [hbind_eq_ok] at hrun
        obtain ⟨u5, hD, hcml, hrun⟩ := hrun
        obtain ⟨hFD, hDeffect⟩ := hCopyMetaLinks_spec _ _ _ _ hcml
        -- facts about the envelope address after step 5
        have hlenB : h0.length + 1 ≤ hB.length := by
          have := hFB.1
          simp only [List.length_append, List.length_cons, List.length_nil] at this
          omega
        have hCfa : (hB.set h0.length
            (.dict (dSet d0 "data" dv1)))[h0.length]? = some (.dict (dSet d0 "data" dv1)) :=
          set_getElem?_self _ (by omega)
        obtain ⟨f', hDfa, hDkeys, hDmeta⟩ := hDeffect _ hCfa
        -- step 6: operation normalization
        cases hnop : normalizeOperationType op with
        | error e =>
          rw [hnop] at hrun
          dsimp only at hrun
          rw [hbind_eq_ok] at hrun
          obtain ⟨x1, x2, habs, hrest⟩ := hrun
          exact absurd habs hThrow_ne_ok
        | ok nop =>
          rw [hnop] at hrun
          dsimp only at hrun
          rw [hbind_eq_ok] at hrun
          obtain ⟨nop2, hE, hnop2, hrun⟩ := hrun
          rw [hpure_eq_ok] at hnop2
          obtain ⟨hnopv, hEeq⟩ := hnop2
          rw [← hEeq] at hrun
          -- step 7: read fields again
          rw [hbind_eq_ok] at hrun
          obtain ⟨f2, hF0, hf2, hrun⟩ := hrun
          obtain ⟨hf2obj, heqF0⟩ := hDictFields_ok hf2
          rw [heqF0] at hrun
          have hf2f' : f2 = f' := by
            rw [hDfa] at hf2obj
            exact (HObj.dict.inj (Option.some.inj hf2obj)).symm
          rw [hf2f'] at hrun
          -- the data value read back is dv1
          have hdataval : dGet? f' "data" = some dv1 := by
            rw [hDkeys "data" (by decide) (by decide), dGet?_dSet_self]
          rw [hdataval] at hrun
          simp only [Option.getD_some] at hrun
          have hlenC : (hB.set (List.length h0) (HObj.dict (dSet d0 "data" dv1))).length
              = hB.length := by
            simp only [List.length_set]
          have hEQ_A : (h0 ++ [HObj.dict d0])[b]? = h0[b]? :=
            List.getElem?_append_left hb
          have hEQ_B : hB[b]? = h0[b]? := by
            rcases hFB.2 b (by
              simp only [List.length_append, List.length_cons, List.length_nil]
              omega) with heqx | ⟨hex, _⟩
            · exact heqx.trans hEQ_A
            · exact hex.elim
          have hEQ_C : (hB.set (List.length h0)
              (HObj.dict (dSet d0 "data" dv1)))[b]? = h0[b]? := by
            rw [List.getElem?_set_ne (by omega)]
            exact hEQ_B
          have hEQ_D : hD[b]? = h0[b]? := by
            rcases hFD.2 b (by rw [hlenC]; omega) with heqx | ⟨hex, _⟩
            · exact heqx.trans hEQ_C
            · exfalso; omega
          have hlenD : List.length h0 + 1 ≤ hD.length := by
            have := hFD.1
            rw [hlenC] at this
            omega
          have hTail : ∀ (hX : Heap), hX[List.length h0]? = some (.dict f') →
              List.length h0 + 1 ≤ hX.length → hX[b]? = h0[b]? →
              ((if nop2 = OperationType.LIST then (do
                  hFilterListMetadata (List.length h0)
                  pure (HVal.ref (List.length h0)) : HM HVal)
                else (do
                  pure ()
                  pure (HVal.ref (List.length h0)) : HM HVal)) hX = .ok (r, h1)) →
              h1[b]? = h0[b]? := by
            intro hX hXfa hXlen hXb htl
            by_cases hLIST : nop2 = OperationType.LIST
            · rw [if_pos hLIST] at htl
              rw [hbind_eq_ok] at htl
              obtain ⟨u6, hY, hflm, htl⟩ := htl
              rw [hpure_eq_ok] at htl
              rw [← htl.2]
              have hFR := hFilterListMetadata_frame _ _ _ _ hflm
              rcases hFR.2 b (by omega) with heqx | ⟨hex, f4, f4b, hbf, _⟩
              · exact heqx.trans hXb
              · exfalso
                rcases hex with hex | ⟨f5, hf5, hmet⟩
                · omega
                · rw [hXfa] at hf5
                  have hf5f : f5 = f' := (HObj.dict.inj (Option.some.inj hf5.symm))
                  rw [hf5f] at hmet
                  obtain ⟨m, hm, hmge⟩ := hDmeta _ hmet
                  injection hm with hm2
                  rw [hlenC] at hmge
                  omega
            · rw [if_neg hLIST] at htl
              rw [hbind_eq_ok] at htl
              obtain ⟨y6, hY, hy6, htl⟩ := htl
              rw [hpure_eq_ok] at hy6
              rw [← hy6.2] at htl
              rw [hpure_eq_ok] at htl
              rw [← htl.2]
              exact hXb
          rcases hdvspec with ⟨hdveq, hnoref⟩ | ⟨na, oX, hdv1na, hnage, hBna, hgood⟩
          · cases hdv1 : dv1 with
            | ref da => exact absurd hdv1 (hnoref da)
            | str s =>
              rw [hdv1] at hrun
              dsimp only at hrun
              rw [hbind_eq_ok] at hrun
              obtain ⟨y7, hG, hy7, hrun⟩ := hrun
              rw [hpure_eq_ok] at hy7
              rw [← hy7.2, ← hy7.1] at hrun
              rw [if_neg (by decide : ¬(false = true))] at hrun
              rw [hbind_eq_ok] at hrun
              obtain ⟨u7, hH, hfia, hrun⟩ := hrun
              have hFF := hFilterItemAttributes_frame _ _ _ _ _ _ hfia
              have hHb : hH[b]? = h0[b]? := by
                rcases hFF.2 b (by omega) with heqx | ⟨hex, _⟩
                · exact heqx.trans hEQ_D
                · cases hex
              have hHfa : hH[List.length h0]? = some (.dict f') := by
                rcases hFF.2 (List.length h0) (by omega) with heqx | ⟨hex, _⟩
                · exact heqx.trans hDfa
                · cases hex
              exact hTail hH hHfa (by have := hFF.1; omega) hHb hrun
            | int n =>
              rw [hdv1] at hrun
              dsimp only at hrun
              rw [hbind_eq_ok] at hrun
              obtain ⟨y7, hG, hy7, hrun⟩ := hrun
              rw [hpure_eq_ok] at hy7
              rw [← hy7.2, ← hy7.1] at hrun
              rw [if_neg (by decide : ¬(false = true))] at hrun
              rw [hbind_eq_ok] at hrun
              obtain ⟨u7, hH, hfia, hrun⟩ := hrun
              have hFF := hFilterItemAttributes_frame _ _ _ _ _ _ hfia
              have hHb : hH[b]? = h0[b]? := by
                rcases hFF.2 b (by omega) with heqx | ⟨hex, _⟩
                · exact heqx.trans hEQ_D
                · cases hex
              have hHfa : hH[List.length h0]? = some (.dict f') := by
                rcases hFF.2 (List.length h0) (by omega) with heqx | ⟨hex, _⟩
                · exact heqx.trans hDfa
                · cases hex
              exact hTail hH hHfa (by have := hFF.1; omega) hHb hrun
            | bool b7 =>
              rw [hdv1] at hrun
              dsimp only at hrun
              rw [hbind_eq_ok] at hrun
              obtain ⟨y7, hG, hy7, hrun⟩ := hrun
              rw [hpure_eq_ok] at hy7
              rw [← hy7.2, ← hy7.1] at hrun
              rw [if_neg (by decide : ¬(false = true))] at hrun
              rw [hbind_eq_ok] at hrun
              obtain ⟨u7, hH, hfia, hrun⟩ := hrun
              have hFF := hFilterItemAttributes_frame _ _ _ _ _ _ hfia
              have hHb : hH[b]? = h0[b]? := by
                rcases hFF.2 b (by omega) with heqx | ⟨hex, _⟩
                · exact heqx.trans hEQ_D
                · cases hex
              have hHfa : hH[List.length h0]? = some (.dict f') := by
                rcases hFF.2 (List.length h0) (by omega) with heqx | ⟨hex, _⟩
                · exact heqx.trans hDfa
                · cases hex
              exact hTail hH hHfa (by have := hFF.1; omega) hHb hrun
            | none =>
              rw [hdv1] at hrun
              dsimp only at hrun
              rw [hbind_eq_ok] at hrun
              obtain ⟨y7, hG, hy7, hrun⟩ := hrun
              rw [hpure_eq_ok] at hy7
              rw [← hy7.2, ← hy7.1] at hrun
              rw [if_neg (by decide : ¬(false = true))] at hrun
              rw [hbind_eq_ok] at hrun
              obtain ⟨u7, hH, hfia, hrun⟩ := hrun
              have hFF := hFilterItemAttributes_frame _ _ _ _ _ _ hfia
              have hHb : hH[b]? = h0[b]? := by
                rcases hFF.2 b (by omega) with heqx | ⟨hex, _⟩
                · exact heqx.trans hEQ_D
                · cases hex
              have hHfa : hH[List.length h0]? = some (.dict f') := by
                rcases hFF.2 (List.length h0) (by omega) with heqx | ⟨hex, _⟩
                · exact heqx.trans hDfa
                · cases hex
              exact hTail hH hHfa (by have := hFF.1; omega) hHb hrun
          · rw [hdv1na] at hrun
            dsimp only at hrun
            have hnalen : na < hB.length := lt_length_of_getElem? hBna
            have hlenA : (h0 ++ [HObj.dict d0]).length = List.length h0 + 1 := by
              simp only [List.length_append, List.length_cons, List.length_nil]
            rw [hlenA] at hnage
            have hDna : hD[na]? = some oX := by
              have hCna : (hB.set (List.length h0)
                  (HObj.dict (dSet d0 "data" dv1)))[na]? = some oX := by
                rw [List.getElem?_set_ne (by omega)]
                exact hBna
              rcases hFD.2 na (by rw [hlenC]; omega) with heqx | ⟨hex, _⟩
              · exact heqx.trans hCna
              · exfalso; omega
            rw [hbind_eq_ok] at hrun
            obtain ⟨o2, hG, ho2, hrun⟩ := hrun
            obtain ⟨ho2obj, heqG⟩ := hObjAt_ok ho2
            rw [heqG] at hrun
            have ho2oX : o2 = oX := by
              rw [hDna] at ho2obj
              exact (Option.some.inj ho2obj).symm
            rw [ho2oX] at hrun
            rw [hbind_eq_ok] at hrun
            obtain ⟨y7, hG2, hy7, hrun⟩ := hrun
            rw [hpure_eq_ok] at hy7
            rw [← hy7.2, ← hy7.1] at hrun
            cases oX with
            | list items =>
              rw [if_pos (rfl : (match HObj.list items with
                  | HObj.list a => true
                  | x => false) = true)] at hrun
              rw [hbind_eq_ok] at hrun
              obtain ⟨o3, hG3, ho3, hrun⟩ := hrun
              obtain ⟨ho3obj, heqG3⟩ := hObjAt_ok ho3
              rw [heqG3] at hrun
              have ho3v : o3 = HObj.list items := by
                rw [hDna] at ho3obj
                exact (Option.some.inj ho3obj).symm
              rw [ho3v] at hrun
              dsimp only at hrun
              rw [hbind_eq_ok] at hrun
              obtain ⟨u7, hH, hfi, hrun⟩ := hrun
              have hFI := hFilterItems_frame _ _ _ _ _ _ hfi
              have hgood2 := hgood items rfl
              have hHb : hH[b]? = h0[b]? := by
                rcases hFI.2 b (by omega) with heqx | ⟨hex, f6, f6b, hbf6, _⟩
                · exact heqx.trans hEQ_D
                · exfalso
                  rcases hgood2 _ hex b rfl with hge | ⟨l6, hl6⟩
                  · rw [hlenA] at hge; omega
                  · rw [hEQ_D, ← hEQ_A, hl6] at hbf6
                    cases hbf6
              have hHfa : hH[List.length h0]? = some (.dict f') := by
                rcases hFI.2 (List.length h0) (by omega) with heqx | ⟨hex, f6, f6b, hbf6, _⟩
                · exact heqx.trans hDfa
                · exfalso
                  rcases hgood2 _ hex (List.length h0) rfl with hge | ⟨l6, hl6⟩
                  · rw [hlenA] at hge; omega
                  · rw [List.getElem?_concat_length] at hl6
                    cases hl6
              exact hTail hH hHfa (by have := hFI.1; omega) hHb hrun
            | dict f8 =>
              rw [if_neg (by dsimp only; exact fun hx => Bool.false_ne_true hx :
                  ¬((match HObj.dict f8 with
                  | HObj.list a => true
                  | x => false) = true))] at hrun
              rw [hbind_eq_ok] at hrun
              obtain ⟨u7, hH, hfia, hrun⟩ := hrun
              have hFF := hFilterItemAttributes_frame _ _ _ _ _ _ hfia
              have hHb : hH[b]? = h0[b]? := by
                rcases hFF.2 b (by omega) with heqx | ⟨hex, _⟩
                · exact heqx.trans hEQ_D
                · injection hex with hex2; exfalso; omega
              have hHfa : hH[List.length h0]? = some (.dict f') := by
                rcases hFF.2 (List.length h0) (by omega) with heqx | ⟨hex, _⟩
                · exact heqx.trans hDfa
                · injection hex with hex2; exfalso; omega
              exact hTail hH hHfa (by have := hFF.1; omega) hHb hrun

theorem heapWF_at {h : Heap} {a : Nat} {o : HObj}
    (hwf : heapWF h = true) (hao : h[a]? = some o) :
    objRefsBelow o h.length = true := by
  unfold heapWF at hwf
  rw [List.all_eq_true] at hwf
  exact hwf o (List.getElem?_mem hao)

theorem readbackV_agree (fuel : Nat) (h0 h1 : Heap)
    (hag : ∀ a, a < h0.length → h1[a]? = h0[a]?)
    (hwf : heapWF h0 = true) :
    ∀ v, valRefsBelow v h0.length = true →
      readbackV fuel h1 v = readbackV fuel h0 v := by
  induction fuel with
  | zero => intro v _; rfl
  | succ fuel ih =>
    intro v hv
    cases v with
    | str s => rfl
    | int n => rfl
    | bool b => rfl
    | none => rfl
    | ref a =>
      have ha : a < h0.length := by
        unfold valRefsBelow at hv
        exact of_decide_eq_true hv
      unfold readbackV
      rw [hag a ha]
      cases hobj : h0[a]? with
      | none => rfl
      | some o =>
        have hrb := heapWF_at hwf hobj
        cases o with
        | dict f =>
          dsimp only
          congr 1
          unfold objRefsBelow at hrb
          rw [List.all_eq_true] at hrb
          apply List.map_congr_left
          intro p hp
          have hvp : valRefsBelow p.2 h0.length = true := hrb p hp
          rw [ih _ hvp]
        | list l =>
          dsimp only
          congr 1
          unfold objRefsBelow at hrb
          rw [List.all_eq_true] at hrb
          apply List.map_congr_left
          intro w hw
          exact ih _ (hrb w hw)

/-- C4: heap-level `filter_response` never mutates its input.  For every
well-formed heap and input value, a successful run leaves every pre-existing
address unchanged, and reading the input value back from the post-heap gives
exactly the pre-call structure at every depth. -/
theorem c4_filter_never_mutates_input (h0 : Heap) (data : HVal) (t : RTypeArg)
    (op : OpArg) (r : HVal) (h1 : Heap)
    (hwf : heapWF h0 = true) (hv : valRefsBelow data h0.length = true)
    (hrun : hFilterResponse data t op h0 = .ok (r, h1)) :
    (∀ a, a < h0.length → h1[a]? = h0[a]?) ∧
      ∀ fuel, readbackV fuel h1 data = readbackV fuel h0 data := by
  have hframe := hFilterResponse_frame data t op h0 h1 r hrun
  exact ⟨hframe, fun fuel => readbackV_agree fuel h0 h1 hframe hwf data hv⟩

/-- Witness for C4 at a concrete heap: the run succeeds, every input address
is untouched and the readback of the input is unchanged. -/
theorem c4_filter_never_mutates_input_witness :
    heapWF c4H = true ∧ valRefsBelow (.ref 0) c4H.length = true ∧
      hFilterResponse (.ref 0) (.enum .RUN) (.enum .LIST) c4H = .ok (.ref 6, c4H1) ∧
      (c4H1[0]? = c4H[0]? ∧ c4H1[1]? = c4H[1]? ∧ c4H1[2]? = c4H[2]? ∧
        c4H1[3]? = c4H[3]? ∧ c4H1[4]? = c4H[4]? ∧ c4H1[5]? = c4H[5]?) ∧
      readbackV 4 c4H1 (.ref 0) = readbackV 4 c4H (.ref 0) := by
  have happ := c4_filter_never_mutates_input c4H (.ref 0) (.enum .RUN) (.enum .LIST)
    (.ref 6) c4H1 (by decide) (by decide) rfl
  exact ⟨by decide, by decide, rfl,
    ⟨happ.1 0 (by decide), happ.1 1 (by decide), happ.1 2 (by decide),
     happ.1 3 (by decide), happ.1 4 (by decide), happ.1 5 (by decide)⟩,
    happ.2 4⟩

end TFC
